import Mathlib

/-!
# es6-snake: the grid, the snake and the game controller

A shallow embedding of `src/grid.js`, `src/snake.js` and the state-changing part of
`src/game.js`, followed by theorems about the movement and velocity-propagation engine.

Conventions of the embedding.

* Coordinates and velocities are integers (`Int`); grid sizes are natural numbers.
* The objects `Grid`, `Snake` and `Game` reference each other and are mutated in place; here
  the whole program state is one value of type `Game` that is passed in and returned.
* `Constants` (file `constants.js`) is not part of the sources at hand: the numeric constants
  are a parameter `K`, and the four cell values are the constructors of `CellValue`.
* `Random.arrayIndex` (file `math/random.js`) is not part of the sources at hand: the pairs it
  returns inside `Game.spawnApple` are an explicit argument `draws`.  A result `none` of
  `spawnApple` stands for a rejection loop that has not ended within the given draws.
* A cell access outside the `height × width` array is outside the contract of the grid
  (JavaScript raises a `TypeError` for a bad row, and yields `undefined` or grows the row for a
  bad column).  Reads return `none` there and writes make the operation stop with `none`.
* `undefined` flags (`isPlaying`, `isGameOver`) are `false`; the other `undefined` fields are
  `none`.  Timestamps are integers.
* Rendering, canvas and DOM code has no effect on the state and is left out.
-/

namespace Es6Snake

/-! ## Data model -/

/-- The four cell values `Constants.*_CELL_VALUE`. -/
inductive CellValue where
  | EMPTY
  | WALL
  | SNAKE
  | APPLE
deriving DecidableEq, Repr

/-- The numeric constants of `constants.js` that the state transitions use. -/
structure Constants where
  WORLD_WIDTH : Nat
  WORLD_HEIGHT : Nat
  MAX_UPDATE_DELAY : Int
  MIN_UPDATE_DELAY : Int
  UPDATE_DELAY_DECREMENT : Int
  APPLES_PER_LEVEL : Nat
deriving DecidableEq, Repr

/-- The record `{ col, row, velocityX, velocityY }`: a body part of the snake, and also a stored
cell velocity of the grid (which is created as a clone of a body part). -/
structure BodyPart where
  col : Int
  row : Int
  velocityX : Int
  velocityY : Int
deriving DecidableEq, Repr

/-- The class `Grid`: `cells[row][col]` and the list `cellVelocities`. -/
structure Grid where
  width : Nat
  height : Nat
  cells : List (List CellValue)
  cellVelocities : List BodyPart
deriving DecidableEq, Repr

/-- The class `Snake`: the array `bodyParts`, head first. -/
structure Snake where
  bodyParts : List BodyPart
deriving DecidableEq, Repr

/-- The class `Game` together with the grid and the snake it owns. -/
structure Game where
  grid : Grid
  snake : Snake
  shouldUpdate : Bool
  updateDelay : Int
  applesEaten : Nat
  lastUpdated : Option Int
  lastLevelUp : Option Int
  isMaxLevel : Option Bool
  isPlaying : Bool
  isGameOver : Bool
deriving DecidableEq, Repr

/-! ## Grid -/

/-- Source `Grid.setupCells`: `height` rows of `width` empty cells, and no cell velocities. -/
def Grid.setupCells (g : Grid) : Grid :=
  { g with
    cells := List.replicate g.height (List.replicate g.width CellValue.EMPTY)
    cellVelocities := [] }

/-- Source `Grid.getCellValue`: `this.cells[row][col]`. -/
def Grid.getCellValue (g : Grid) (col row : Int) : Option CellValue :=
  if 0 ≤ col ∧ 0 ≤ row then
    match g.cells[row.toNat]? with
    | some cols => cols[col.toNat]?
    | none => none
  else none

/-- Source `Grid.setCellValue`: `this.cells[row][col] = value`. -/
def Grid.setCellValue (g : Grid) (col row : Int) (value : CellValue) : Option Grid :=
  if 0 ≤ col ∧ 0 ≤ row then
    match g.cells[row.toNat]? with
    | some cols =>
      if col.toNat < cols.length then
        some { g with cells := g.cells.set row.toNat (cols.set col.toNat value) }
      else none
    | none => none
  else none

/-- Source `this.cells[row].fill(value)`. -/
def Grid.fillRow (g : Grid) (row : Nat) (value : CellValue) : Option Grid :=
  match g.cells[row]? with
  | some cols => some { g with cells := g.cells.set row (cols.map (fun _ => value)) }
  | none => none

/-- The `for` loop of `Grid.addOuterWalls`: `count` iterations starting at `row`. -/
def Grid.addSideWalls (g : Grid) (row : Nat) : Nat → Option Grid
  | 0 => some g
  | count + 1 =>
    match g.setCellValue 0 row CellValue.WALL with
    | none => none
    | some g1 =>
      match g1.setCellValue ((g1.width : Int) - 1) row CellValue.WALL with
      | none => none
      | some g2 => Grid.addSideWalls g2 (row + 1) count

/-- Source `Grid.addOuterWalls`: north row, then the west and east cell of rows `1 .. height - 2`, then
the south row. -/
def Grid.addOuterWalls (g : Grid) : Option Grid :=
  match g.fillRow 0 CellValue.WALL with
  | none => none
  | some g1 =>
    match g1.addSideWalls 1 (g1.height - 1 - 1) with
    | none => none
    | some g2 => g2.fillRow (g2.height - 1) CellValue.WALL

/-- Source `Grid.reset`. -/
def Grid.reset (g : Grid) : Option Grid :=
  g.setupCells.addOuterWalls

/-- The constructor `new Grid(width, height)`. -/
def Grid.new (width height : Nat) : Option Grid :=
  Grid.reset { width := width, height := height, cells := [], cellVelocities := [] }

/-- Source `Grid.getCellVelocity`: the first stored velocity with the given coordinate. -/
def Grid.getCellVelocity (g : Grid) (col row : Int) : Option BodyPart :=
  g.cellVelocities.find? (fun data => decide (data.col = col ∧ data.row = row))

/-- The in-place overwrite of `Grid.setCellVelocity`: the first stored velocity with the
coordinate of `data` takes the velocity of `data`. -/
def Grid.overwriteVelocity (data : BodyPart) : List BodyPart → List BodyPart
  | [] => []
  | m :: ms =>
    if m.col = data.col ∧ m.row = data.row then
      { m with velocityX := data.velocityX, velocityY := data.velocityY } :: ms
    else m :: Grid.overwriteVelocity data ms

/-- Source `Grid.setCellVelocity`: overwrite the stored velocity at the coordinate of `data`, or push
`data`. -/
def Grid.setCellVelocity (g : Grid) (data : BodyPart) : Grid :=
  match g.getCellVelocity data.col data.row with
  | some _ => { g with cellVelocities := Grid.overwriteVelocity data g.cellVelocities }
  | none => { g with cellVelocities := g.cellVelocities ++ [data] }

/-- Source `Grid.removeCellVelocity`. -/
def Grid.removeCellVelocity (g : Grid) (col row : Int) : Grid :=
  { g with
    cellVelocities := g.cellVelocities.filter (fun data => decide (data.col ≠ col ∨ data.row ≠ row)) }

/-! ## Game controller -/

/-- Source `Game.reset`. -/
def Game.reset (K : Constants) (s : Game) : Game :=
  { s with
    shouldUpdate := true
    updateDelay := K.MAX_UPDATE_DELAY
    applesEaten := 0
    lastUpdated := none
    lastLevelUp := none
    isMaxLevel := none }

/-- The `while` loop of `Game.spawnApple`: the cell it stops at, `none` when the draws run out. -/
def Game.spawnAppleLoop (g : Grid) : Int → Int → List (Int × Int) → Option (Int × Int)
  | col, row, [] =>
    if g.getCellValue col row ≠ some CellValue.EMPTY then none else some (col, row)
  | col, row, d :: ds =>
    if g.getCellValue col row ≠ some CellValue.EMPTY then Game.spawnAppleLoop g d.1 d.2 ds
    else some (col, row)

/-- Source `Game.spawnApple`. -/
def Game.spawnApple (s : Game) (draws : List (Int × Int)) : Option Game :=
  match Game.spawnAppleLoop s.grid 0 0 draws with
  | none => none
  | some (col, row) =>
    match s.grid.setCellValue col row CellValue.APPLE with
    | none => none
    | some g => some { s with grid := g }

/-- Source `Game.onAppleEaten`.  For `APPLES_PER_LEVEL = 0` the remainder is `NaN` in JavaScript and
the comparison fails. -/
def Game.onAppleEaten (K : Constants) (s : Game) (draws : List (Int × Int)) : Option Game :=
  let s1 := { s with applesEaten := s.applesEaten + 1 }
  let s2 :=
    if K.APPLES_PER_LEVEL ≠ 0 ∧ s1.applesEaten % K.APPLES_PER_LEVEL = 0
        ∧ s1.isMaxLevel ≠ some true then
      let delay := max (s1.updateDelay - K.UPDATE_DELAY_DECREMENT) K.MIN_UPDATE_DELAY
      { s1 with
        updateDelay := delay
        lastLevelUp := s1.lastUpdated
        isMaxLevel := some (decide (delay = K.MIN_UPDATE_DELAY)) }
    else s1
  Game.spawnApple s2 draws

/-- Source `Game.onGameStart`. -/
def Game.onGameStart (s : Game) : Game :=
  { s with isPlaying := true }

/-- Source `Game.onGameOver`. -/
def Game.onGameOver (s : Game) : Game :=
  { s with isPlaying := false, isGameOver := true }

/-! ## Snake -/

/-- Source `Snake.addBodyPart`. -/
def Snake.addBodyPart (sn : Snake) (data : BodyPart) : Snake :=
  { sn with bodyParts := sn.bodyParts ++ [data] }

/-- The getter `head`: `this.bodyParts[0]`. -/
def Snake.head (sn : Snake) : Option BodyPart :=
  sn.bodyParts.head?

/-- The getter `tail`: `this.bodyParts[this.bodyParts.length - 1]`. -/
def Snake.tail (sn : Snake) : Option BodyPart :=
  sn.bodyParts.getLast?

/-- Source `Snake.setupBodyParts`: one body part at the centre, and its cell marked. -/
def Snake.setupBodyParts (s : Game) : Option Game :=
  let head : BodyPart :=
    { col := Int.ofNat (s.grid.width / 2)
      row := Int.ofNat (s.grid.height / 2)
      velocityX := 0
      velocityY := 0 }
  match s.grid.setCellValue head.col head.row CellValue.SNAKE with
  | none => none
  | some g => some { s with grid := g, snake := Snake.addBodyPart { bodyParts := [] } head }

/-- Source `Snake.reset`. -/
def Snake.reset (s : Game) : Option Game :=
  Snake.setupBodyParts s

/-- Source `Game.onRestart`. -/
def Game.onRestart (K : Constants) (s : Game) (draws : List (Int × Int)) : Option Game :=
  match s.grid.reset with
  | none => none
  | some g =>
    match Snake.reset { s with grid := g } with
    | none => none
    | some s1 => Game.spawnApple { Game.reset K s1 with isGameOver := false } draws

/-- The `switch` of `Snake.setVelocity`: the head after the key with code `code`. -/
def Snake.steer (head : BodyPart) (code : String) : BodyPart :=
  if code = "KeyW" ∨ code = "ArrowUp" then { head with velocityX := 0, velocityY := 1 }
  else if code = "KeyA" ∨ code = "ArrowLeft" then { head with velocityX := -1, velocityY := 0 }
  else if code = "KeyS" ∨ code = "ArrowDown" then { head with velocityX := 0, velocityY := -1 }
  else if code = "KeyD" ∨ code = "ArrowRight" then { head with velocityX := 1, velocityY := 0 }
  else head

/-- Source `Snake.setVelocity` for a `keydown` event with code `code`. -/
def Snake.setVelocity (K : Constants) (s : Game) (code : String) (draws : List (Int × Int)) :
    Option Game :=
  if s.isGameOver then
    if code = "Space" then Game.onRestart K s draws else some s
  else
    match s.snake.bodyParts with
    | [] => none
    | head :: rest =>
      let head1 := Snake.steer head code
      if head1.velocityX = head.velocityX ∧ head1.velocityY = head.velocityY then some s
      else
        let s1 := { s with snake := { bodyParts := head1 :: rest } }
        let s2 := if ¬ s1.isPlaying then Game.onGameStart s1 else s1
        if s2.snake.bodyParts.length > 1 then
          some { s2 with grid := s2.grid.setCellVelocity head1 }
        else some s2

/-- The body of the `for` loop of `Snake.update` for the body part with index `i` of `n`. -/
def Snake.moveBodyPart (g : Grid) (n i : Nat) (bodyPart : BodyPart) : Option (Grid × BodyPart) :=
  match g.setCellValue bodyPart.col bodyPart.row CellValue.EMPTY with
  | none => none
  | some g1 =>
    let moved : BodyPart :=
      { bodyPart with
        col := bodyPart.col + bodyPart.velocityX
        row := bodyPart.row + bodyPart.velocityY }
    match g1.setCellValue moved.col moved.row CellValue.SNAKE with
    | none => none
    | some g2 =>
      if i ≠ 0 then
        match g2.getCellVelocity moved.col moved.row with
        | some cellVelocity =>
          let turned : BodyPart :=
            { moved with
              velocityX := cellVelocity.velocityX
              velocityY := cellVelocity.velocityY }
          if i = n - 1 then
            some (g2.removeCellVelocity cellVelocity.col cellVelocity.row, turned)
          else some (g2, turned)
        | none => some (g2, moved)
      else some (g2, moved)

/-- The `for` loop of `Snake.update` over the body parts from index `i` on. -/
def Snake.moveBodyParts (n : Nat) : Grid → Nat → List BodyPart → Option (Grid × List BodyPart)
  | g, _, [] => some (g, [])
  | g, i, bodyPart :: rest =>
    match Snake.moveBodyPart g n i bodyPart with
    | none => none
    | some (g1, bodyPart1) =>
      match Snake.moveBodyParts n g1 (i + 1) rest with
      | none => none
      | some (g2, rest1) => some (g2, bodyPart1 :: rest1)

/-- The common move step of `Snake.update`. -/
def Snake.moveAll (s : Game) : Option Game :=
  match Snake.moveBodyParts s.snake.bodyParts.length s.grid 0 s.snake.bodyParts with
  | none => none
  | some (g, parts) => some { s with grid := g, snake := { bodyParts := parts } }

/-- Source `Snake.update`. -/
def Snake.update (K : Constants) (s : Game) (draws : List (Int × Int)) : Option Game :=
  match s.snake.bodyParts with
  | [] => none
  | head :: rest =>
    if head.velocityX = 0 ∧ head.velocityY = 0 then some s
    else
      match s.grid.getCellValue (head.col + head.velocityX) (head.row + head.velocityY) with
      | some CellValue.WALL => some (Game.onGameOver s)
      | some CellValue.SNAKE => some (Game.onGameOver s)
      | some CellValue.APPLE =>
        let tail := (head :: rest).getLast (List.cons_ne_nil head rest)
        let s1 := { s with grid := s.grid.setCellVelocity tail }
        let s2 :=
          { s1 with
            snake := Snake.addBodyPart s1.snake
              { col := tail.col, row := tail.row, velocityX := 0, velocityY := 0 } }
        match Game.onAppleEaten K s2 draws with
        | none => none
        | some s3 => Snake.moveAll s3
      | _ => Snake.moveAll s

/-- Source `Game.update` at the animation frame with time `timestamp`. -/
def Game.update (K : Constants) (s : Game) (timestamp : Int) (draws : List (Int × Int)) :
    Option Game :=
  let s1 :=
    if s.lastUpdated = none ∨ s.lastUpdated = some 0 then { s with lastUpdated := some timestamp }
    else s
  if timestamp - s1.lastUpdated.getD 0 < s1.updateDelay then some s1
  else
    match (if ¬ s1.isGameOver then Snake.update K s1 draws else some s1) with
    | none => none
    | some s2 => some { s2 with lastUpdated := some timestamp }

/-- Source `Game.connectedCallback`: the fresh game. -/
def Game.connectedCallback (K : Constants) (draws : List (Int × Int)) : Option Game :=
  match Grid.new K.WORLD_WIDTH K.WORLD_HEIGHT with
  | none => none
  | some g =>
    let s0 : Game :=
      { grid := g
        snake := { bodyParts := [] }
        shouldUpdate := true
        updateDelay := K.MAX_UPDATE_DELAY
        applesEaten := 0
        lastUpdated := none
        lastLevelUp := none
        isMaxLevel := none
        isPlaying := false
        isGameOver := false }
    match Snake.reset s0 with
    | none => none
    | some s1 => Game.spawnApple s1 draws

/-- The states the program can be in between two operations: the fresh game, and any state
followed by a key event, a direct `Snake.update`, or an animation frame. -/
inductive Reachable (K : Constants) : Game → Prop where
  | fresh (draws : List (Int × Int)) (s : Game) :
      Game.connectedCallback K draws = some s → Reachable K s
  | key (s s1 : Game) (code : String) (draws : List (Int × Int)) :
      Reachable K s → Snake.setVelocity K s code draws = some s1 → Reachable K s1
  | tick (s s1 : Game) (draws : List (Int × Int)) :
      Reachable K s → Snake.update K s draws = some s1 → Reachable K s1
  | frame (s s1 : Game) (timestamp : Int) (draws : List (Int × Int)) :
      Reachable K s → Game.update K s timestamp draws = some s1 → Reachable K s1

/-! ## Runs of the game -/

/-- What can happen to a game: a key event, a direct `Snake.update`, or an animation frame. -/
inductive Event where
  | key (code : String) (draws : List (Int × Int))
  | tick (draws : List (Int × Int))
  | frame (timestamp : Int) (draws : List (Int × Int))
deriving DecidableEq, Repr

/-- The state after one event. -/
def Game.step (K : Constants) (s : Game) : Event → Option Game
  | Event.key code draws => Snake.setVelocity K s code draws
  | Event.tick draws => Snake.update K s draws
  | Event.frame timestamp draws => Game.update K s timestamp draws

/-- The state after a list of events. -/
def Game.run (K : Constants) : Game → List Event → Option Game
  | s, [] => some s
  | s, e :: es =>
    match Game.step K s e with
    | none => none
    | some s1 => Game.run K s1 es

/-- The state of a fresh game after a list of events. -/
def Game.play (K : Constants) (draws : List (Int × Int)) (events : List Event) : Option Game :=
  match Game.connectedCallback K draws with
  | none => none
  | some s => Game.run K s events

/-! ## Vocabulary of the specification -/

/-- The eight direction codes with the vector the specification gives for each. -/
def keyVectors : List (String × Int × Int) :=
  [("KeyW", 0, 1), ("ArrowUp", 0, 1), ("KeyS", 0, -1), ("ArrowDown", 0, -1),
   ("KeyA", -1, 0), ("ArrowLeft", -1, 0), ("KeyD", 1, 0), ("ArrowRight", 1, 0)]

/-! ## Predicates used in the statements -/

/-- The cell array has `height` rows of `width` cells each. -/
def Grid.WellShaped (g : Grid) : Prop :=
  g.cells.length = g.height ∧ ∀ cols ∈ g.cells, cols.length = g.width

/-- The coordinate lies inside the cell array. -/
def Grid.InRange (g : Grid) (col row : Int) : Prop :=
  0 ≤ col ∧ col < (g.width : Int) ∧ 0 ≤ row ∧ row < (g.height : Int)

/-- The number of cells with the given value, as a traversal of all rows counts them. -/
def Grid.countCells (g : Grid) (value : CellValue) : Nat :=
  (g.cells.map (fun cols => cols.count value)).sum

/-- The coordinate of a body part or stored velocity. -/
def BodyPart.pos (b : BodyPart) : Int × Int := (b.col, b.row)

/-- The later record is the earlier one advanced by the earlier one's velocity. -/
def Advanced (b b1 : BodyPart) : Prop :=
  b1.col = b.col + b.velocityX ∧ b1.row = b.row + b.velocityY

/-- The body part `y` follows `x`: its next cell is the cell of `x`, and after it has moved there
(adopting the velocity stored at that cell, if any) it has the velocity `x` has now. -/
def Link (g : Grid) (x y : BodyPart) : Prop :=
  y.col + y.velocityX = x.col ∧ y.row + y.velocityY = x.row
    ∧ (∀ m, g.getCellVelocity x.col x.row = some m →
        m.velocityX = x.velocityX ∧ m.velocityY = x.velocityY)
    ∧ (g.getCellVelocity x.col x.row = none →
        y.velocityX = x.velocityX ∧ y.velocityY = x.velocityY)

/-- The record of a body part after the position update of the move loop. -/
def BodyPart.moved (b : BodyPart) : BodyPart :=
  { b with col := b.col + b.velocityX, row := b.row + b.velocityY }

/-- What holds of every state between two operations: the body parts lie on distinct `SNAKE`
cells and there are no other `SNAKE` cells, every body part follows the one in front of it, and
every stored velocity lies under a body part other than the tail. -/
structure Inv (s : Game) : Prop where
  shape : s.grid.WellShaped
  nonempty : s.snake.bodyParts ≠ []
  cells : ∀ b ∈ s.snake.bodyParts, s.grid.getCellValue b.col b.row = some CellValue.SNAKE
  nodup : (s.snake.bodyParts.map BodyPart.pos).Nodup
  count : s.grid.countCells CellValue.SNAKE = s.snake.bodyParts.length
  chain : List.Chain' (Link s.grid) s.snake.bodyParts
  markers : ∀ m ∈ s.grid.cellVelocities,
    ∃ b ∈ s.snake.bodyParts.dropLast, b.col = m.col ∧ b.row = m.row

/-- The coordinate lies on the outer ring of the grid. -/
def Grid.OnBorder (g : Grid) (col row : Int) : Prop :=
  col = 0 ∨ col = (g.width : Int) - 1 ∨ row = 0 ∨ row = (g.height : Int) - 1

/-- The centre cell of a grid, where `Snake.setupBodyParts` puts the head. -/
def Grid.centre (g : Grid) : Int × Int :=
  (Int.ofNat (g.width / 2), Int.ofNat (g.height / 2))

/-! ## Sample games -/

/-- Constants of a 5 × 5 world. -/
def sampleConstants : Constants :=
  { WORLD_WIDTH := 5, WORLD_HEIGHT := 5, MAX_UPDATE_DELAY := 200, MIN_UPDATE_DELAY := 50,
    UPDATE_DELAY_DECREMENT := 25, APPLES_PER_LEVEL := 5 }

open CellValue in
/-- A 5 × 5 game after the first apple: two body parts moving east, the next apple at (3,3). -/
def sampleTwo : Game :=
  { grid :=
      { width := 5
        height := 5
        cells :=
          [[WALL, WALL, WALL, WALL, WALL],
           [WALL, EMPTY, EMPTY, EMPTY, WALL],
           [WALL, EMPTY, SNAKE, SNAKE, WALL],
           [WALL, EMPTY, EMPTY, APPLE, WALL],
           [WALL, WALL, WALL, WALL, WALL]]
        cellVelocities := [] }
    snake := { bodyParts := [⟨3, 2, 1, 0⟩, ⟨2, 2, 1, 0⟩] }
    shouldUpdate := true
    updateDelay := 200
    applesEaten := 1
    lastUpdated := none
    lastLevelUp := none
    isMaxLevel := none
    isPlaying := true
    isGameOver := false }

/-- The game `sampleTwo` after the key `KeyW`: the head points north and that velocity is stored
at its cell (3,2). -/
def sampleTurned : Game :=
  { sampleTwo with
    grid := { sampleTwo.grid with cellVelocities := [⟨3, 2, 0, 1⟩] }
    snake := { bodyParts := [⟨3, 2, 0, 1⟩, ⟨2, 2, 1, 0⟩] } }

open CellValue in
/-- The game `sampleTurned` after the tick that eats the apple at (3,3), the next apple being
placed at (1,1). -/
def sampleGrown : Game :=
  { sampleTwo with
    grid :=
      { width := 5
        height := 5
        cells :=
          [[WALL, WALL, WALL, WALL, WALL],
           [WALL, APPLE, EMPTY, EMPTY, WALL],
           [WALL, EMPTY, SNAKE, SNAKE, WALL],
           [WALL, EMPTY, EMPTY, SNAKE, WALL],
           [WALL, WALL, WALL, WALL, WALL]]
        cellVelocities := [⟨3, 2, 0, 1⟩] }
    snake := { bodyParts := [⟨3, 3, 0, 1⟩, ⟨3, 2, 0, 1⟩, ⟨2, 2, 1, 0⟩] }
    applesEaten := 2 }

/-- The events that lead from the fresh 5 × 5 game to `sampleTurned`. -/
def sampleEvents : List Event :=
  [Event.key "KeyD" [], Event.tick [(3, 3)], Event.key "KeyW" []]

/-- Constants of a 10 × 10 world. -/
def scenarioConstants : Constants :=
  { WORLD_WIDTH := 10, WORLD_HEIGHT := 10, MAX_UPDATE_DELAY := 200, MIN_UPDATE_DELAY := 50,
    UPDATE_DELAY_DECREMENT := 25, APPLES_PER_LEVEL := 5 }

/-- A 10 × 10 grid: walls on the outer ring, the given cells in row 5, all other cells empty. -/
def scenarioGrid (row5 : List CellValue) : Grid :=
  { width := 10
    height := 10
    cells :=
      [List.replicate 10 CellValue.WALL]
        ++ List.replicate 4 (CellValue.WALL :: List.replicate 8 CellValue.EMPTY ++ [CellValue.WALL])
        ++ [row5]
        ++ List.replicate 3 (CellValue.WALL :: List.replicate 8 CellValue.EMPTY ++ [CellValue.WALL])
        ++ [List.replicate 10 CellValue.WALL]
    cellVelocities := [] }

open CellValue in
/-- The start of the turn scenario: three body parts at (5,5), (4,5), (3,5), all moving east, no
stored velocity, no apple on the board. -/
def turnStart : Game :=
  { grid := scenarioGrid [WALL, EMPTY, EMPTY, SNAKE, SNAKE, SNAKE, EMPTY, EMPTY, EMPTY, WALL]
    snake := { bodyParts := [⟨5, 5, 1, 0⟩, ⟨4, 5, 1, 0⟩, ⟨3, 5, 1, 0⟩] }
    shouldUpdate := true
    updateDelay := 200
    applesEaten := 2
    lastUpdated := none
    lastLevelUp := none
    isMaxLevel := none
    isPlaying := true
    isGameOver := false }

open CellValue in
/-- The start of the apple scenario: one body part at (5,5) moving east, an apple at (6,5). -/
def appleStart : Game :=
  { grid := scenarioGrid [WALL, EMPTY, EMPTY, EMPTY, EMPTY, SNAKE, APPLE, EMPTY, EMPTY, WALL]
    snake := { bodyParts := [⟨5, 5, 1, 0⟩] }
    shouldUpdate := true
    updateDelay := 200
    applesEaten := 0
    lastUpdated := none
    lastLevelUp := none
    isMaxLevel := none
    isPlaying := true
    isGameOver := false }

open CellValue in
/-- A game-over state on a 3 × 3 grid: the one inner cell is the snake. -/
def tinyOver : Game :=
  { grid :=
      { width := 3
        height := 3
        cells :=
          [[WALL, WALL, WALL],
           [WALL, SNAKE, WALL],
           [WALL, WALL, WALL]]
        cellVelocities := [] }
    snake := { bodyParts := [⟨1, 1, 1, 0⟩] }
    shouldUpdate := true
    updateDelay := 200
    applesEaten := 0
    lastUpdated := none
    lastLevelUp := none
    isMaxLevel := none
    isPlaying := false
    isGameOver := true }

/-- The game `sampleTwo` after a collision. -/
def sampleOver : Game :=
  Game.onGameOver sampleTwo

/-- A call of one of the two methods that change the stored cell velocities. -/
inductive VelocityCall where
  | set (data : BodyPart)
  | remove (col row : Int)
deriving DecidableEq, Repr

/-- The grid after one call of `setCellVelocity` or `removeCellVelocity`. -/
def Grid.applyCall (g : Grid) : VelocityCall → Grid
  | VelocityCall.set data => g.setCellVelocity data
  | VelocityCall.remove col row => g.removeCellVelocity col row

/-- The grid after a sequence of calls, performed from left to right. -/
def Grid.applyCalls (g : Grid) (calls : List VelocityCall) : Grid :=
  calls.foldl Grid.applyCall g

/-- The game after successive calls of `Game.onAppleEaten`, one call per list of draws. -/
def Game.eatApples (K : Constants) : Game → List (List (Int × Int)) → Option Game
  | s, [] => some s
  | s, draws :: rest =>
    match Game.onAppleEaten K s draws with
    | some s1 => Game.eatApples K s1 rest
    | none => none

/-- The update delay the specification gives after `k` eaten apples. -/
def specDelay (K : Constants) (k : Nat) : Int :=
  max (K.MAX_UPDATE_DELAY - ((k / K.APPLES_PER_LEVEL : Nat) : Int) * K.UPDATE_DELAY_DECREMENT)
    K.MIN_UPDATE_DELAY

/-- Constants of a 5 × 5 world with a level of two apples and two levels. -/
def levelConstants : Constants :=
  { WORLD_WIDTH := 5, WORLD_HEIGHT := 5, MAX_UPDATE_DELAY := 200, MIN_UPDATE_DELAY := 50,
    UPDATE_DELAY_DECREMENT := 100, APPLES_PER_LEVEL := 2 }

/-- Draws for five calls of `Game.onAppleEaten` on `sampleTwo`. -/
def levelDraws : List (List (Int × Int)) :=
  [[(1, 1)], [(2, 1)], [(3, 1)], [(1, 2)], [(1, 3)]]

/-- The cells of `g1` are those of `g` except that `(c1, r1)` holds `v1` and, when it is another
cell, `(c2, r2)` holds `v2`; the size is the same. -/
def Grid.Patched (g g1 : Grid) (c1 r1 : Int) (v1 : CellValue) (c2 r2 : Int) (v2 : CellValue) :
    Prop :=
  g1.width = g.width ∧ g1.height = g.height
    ∧ ∀ c r, g1.getCellValue c r =
        if (c, r) = (c1, r1) then some v1
        else if (c, r) = (c2, r2) then some v2
        else g.getCellValue c r

/-- The state is what `Game.connectedCallback` and `Game.onRestart` produce on a grid of the
given size: the reset grid with the head on the centre cell and an apple on a cell that was
`EMPTY`, and a snake of one body part at rest. -/
def Started (width height : Nat) (s : Game) : Prop :=
  ∃ g0 g1 col row, Grid.new width height = some g0
    ∧ g0.setCellValue (Int.ofNat (width / 2)) (Int.ofNat (height / 2)) CellValue.SNAKE = some g1
    ∧ g1.getCellValue col row = some CellValue.EMPTY
    ∧ g1.setCellValue col row CellValue.APPLE = some s.grid
    ∧ s.snake.bodyParts = [⟨Int.ofNat (width / 2), Int.ofNat (height / 2), 0, 0⟩]

/-- At most one cell of the grid holds `APPLE`. -/
def Grid.OneApple (g : Grid) : Prop :=
  ∀ c r c1 r1, g.getCellValue c r = some CellValue.APPLE →
    g.getCellValue c1 r1 = some CellValue.APPLE → c = c1 ∧ r = r1

/-- The velocity is one cell in one of the four directions. -/
def BodyPart.UnitVelocity (b : BodyPart) : Prop :=
  (b.velocityX = 0 ∧ b.velocityY = 1) ∨ (b.velocityX = 0 ∧ b.velocityY = -1)
    ∨ (b.velocityX = -1 ∧ b.velocityY = 0) ∨ (b.velocityX = 1 ∧ b.velocityY = 0)

/-- The head is at rest or has a unit velocity, and every other body part and every stored
velocity has a unit velocity. -/
structure UnitVelocities (s : Game) : Prop where
  head : ∀ b, s.snake.head = some b → b.UnitVelocity ∨ (b.velocityX = 0 ∧ b.velocityY = 0)
  body : ∀ b ∈ s.snake.bodyParts.tail, b.UnitVelocity
  stored : ∀ m ∈ s.grid.cellVelocities, m.UnitVelocity

/-- The grid has the size of the constants, and its `WALL` cells are the cells of the outer
ring. -/
structure Walled (K : Constants) (s : Game) : Prop where
  width : s.grid.width = K.WORLD_WIDTH
  height : s.grid.height = K.WORLD_HEIGHT
  walls : ∀ c r, s.grid.InRange c r →
    (s.grid.getCellValue c r = some CellValue.WALL ↔ s.grid.OnBorder c r)

instance Grid.decidableInRange (g : Grid) (col row : Int) : Decidable (g.InRange col row) :=
  inferInstanceAs (Decidable (0 ≤ col ∧ col < (g.width : Int) ∧ 0 ≤ row ∧ row < (g.height : Int)))

instance Grid.decidableOnBorder (g : Grid) (col row : Int) : Decidable (g.OnBorder col row) :=
  inferInstanceAs (Decidable
    (col = 0 ∨ col = (g.width : Int) - 1 ∨ row = 0 ∨ row = (g.height : Int) - 1))

/-- One key event per pair of a code and the draws a restart would take. -/
def keyEvents (keys : List (String × List (Int × Int))) : List Event :=
  keys.map (fun k => Event.key k.1 k.2)

/-- The game `sampleGrown` after the key `KeyA`. -/
def sampleLeft : Game :=
  { sampleGrown with
    grid := { sampleGrown.grid with cellVelocities := [⟨3, 2, 0, 1⟩, ⟨3, 3, -1, 0⟩] }
    snake := { bodyParts := [⟨3, 3, -1, 0⟩, ⟨3, 2, 0, 1⟩, ⟨2, 2, 1, 0⟩] } }

open CellValue in
/-- The game `sampleLeft` after an update: the head has moved west and the tail has followed. -/
def sampleFollowed : Game :=
  { sampleLeft with
    grid :=
      { width := 5
        height := 5
        cells :=
          [[WALL, WALL, WALL, WALL, WALL],
           [WALL, APPLE, EMPTY, EMPTY, WALL],
           [WALL, EMPTY, EMPTY, SNAKE, WALL],
           [WALL, EMPTY, SNAKE, SNAKE, WALL],
           [WALL, WALL, WALL, WALL, WALL]]
        cellVelocities := [⟨3, 3, -1, 0⟩] }
    snake := { bodyParts := [⟨2, 3, -1, 0⟩, ⟨3, 3, -1, 0⟩, ⟨3, 2, 0, 1⟩] } }

/-- Constants of a world of 3 × 4 cells, whose only inner cells are (1,1) and (1,2). -/
def narrowConstants : Constants :=
  { WORLD_WIDTH := 3, WORLD_HEIGHT := 4, MAX_UPDATE_DELAY := 200, MIN_UPDATE_DELAY := 50,
    UPDATE_DELAY_DECREMENT := 25, APPLES_PER_LEVEL := 5 }

open CellValue in
/-- The fresh game of the 3 × 4 world with the apple at (1,1), after the key `KeyS`: the head at
(1,2) moves south onto the apple, and no cell is `EMPTY`. -/
def narrowFacing : Game :=
  { grid :=
      { width := 3
        height := 4
        cells :=
          [[WALL, WALL, WALL],
           [WALL, APPLE, WALL],
           [WALL, SNAKE, WALL],
           [WALL, WALL, WALL]]
        cellVelocities := [] }
    snake := { bodyParts := [⟨1, 2, 0, -1⟩] }
    shouldUpdate := true
    updateDelay := 200
    applesEaten := 0
    lastUpdated := none
    lastLevelUp := none
    isMaxLevel := none
    isPlaying := true
    isGameOver := false }

/-! # Theorems -/

/-! ## Stored cell velocities -/

theorem Grid.getCellVelocity_some {g : Grid} {col row : Int} {m : BodyPart}
    (h : g.getCellVelocity col row = some m) :
    m ∈ g.cellVelocities ∧ m.col = col ∧ m.row = row := by
  unfold Grid.getCellVelocity at h
  have h1 := List.find?_some h
  have h2 := List.mem_of_find?_eq_some h
  simp only [decide_eq_true_eq] at h1
  exact ⟨h2, h1.1, h1.2⟩

theorem Grid.getCellVelocity_eq_none {g : Grid} {col row : Int} :
    g.getCellVelocity col row = none ↔ ∀ m ∈ g.cellVelocities, ¬ (m.col = col ∧ m.row = row) := by
  unfold Grid.getCellVelocity
  simp [List.find?_eq_none]

theorem Grid.find_overwriteVelocity_same (data : BodyPart) (l : List BodyPart) (m : BodyPart)
    (h : l.find? (fun d => decide (d.col = data.col ∧ d.row = data.row)) = some m) :
    (Grid.overwriteVelocity data l).find? (fun d => decide (d.col = data.col ∧ d.row = data.row))
      = some { m with velocityX := data.velocityX, velocityY := data.velocityY } := by
  induction l with
  | nil => simp at h
  | cons x xs ih =>
    by_cases hx : x.col = data.col ∧ x.row = data.row
    · simp only [List.find?_cons, hx, and_self, decide_True, Option.some.injEq] at h
      subst h
      simp [Grid.overwriteVelocity, hx]
    · have hx1 : decide (x.col = data.col ∧ x.row = data.row) = false := by simpa using hx
      simp only [List.find?_cons, hx1] at h
      simp only [Grid.overwriteVelocity, hx, if_false, List.find?_cons, hx1]
      exact ih h

theorem Grid.find_overwriteVelocity_other (data : BodyPart) (l : List BodyPart) (col row : Int)
    (h : col ≠ data.col ∨ row ≠ data.row) :
    (Grid.overwriteVelocity data l).find? (fun d => decide (d.col = col ∧ d.row = row))
      = l.find? (fun d => decide (d.col = col ∧ d.row = row)) := by
  induction l with
  | nil => rfl
  | cons x xs ih =>
    by_cases hx : x.col = data.col ∧ x.row = data.row
    · have hx2 : ¬ (x.col = col ∧ x.row = row) := by
        rintro ⟨h1, h2⟩
        rcases h with h | h
        · exact h (h1 ▸ hx.1)
        · exact h (h2 ▸ hx.2)
      have hx3 : ¬ (data.col = col ∧ data.row = row) := by
        rw [← hx.1, ← hx.2]; exact hx2
      simp only [Grid.overwriteVelocity, hx, and_self, if_true]
      rw [List.find?_cons_of_neg _ (by simpa using hx3), List.find?_cons_of_neg _ (by simpa using hx2)]
    · simp only [Grid.overwriteVelocity, hx, if_false, List.find?_cons, ih]

theorem Grid.getCellVelocity_setCellVelocity_same (g : Grid) (data : BodyPart) :
    ∃ m, (g.setCellVelocity data).getCellVelocity data.col data.row = some m
      ∧ m.col = data.col ∧ m.row = data.row
      ∧ m.velocityX = data.velocityX ∧ m.velocityY = data.velocityY := by
  unfold Grid.setCellVelocity
  cases hq : g.getCellVelocity data.col data.row with
  | some m =>
    have hm := Grid.getCellVelocity_some hq
    refine ⟨{ m with velocityX := data.velocityX, velocityY := data.velocityY }, ?_, hm.2.1, hm.2.2, rfl, rfl⟩
    exact Grid.find_overwriteVelocity_same data g.cellVelocities m hq
  | none =>
    refine ⟨data, ?_, rfl, rfl, rfl, rfl⟩
    unfold Grid.getCellVelocity at hq ⊢
    simp only [List.find?_append, hq, Option.none_or]
    exact List.find?_cons_of_pos _ (by simp)

theorem Grid.getCellVelocity_setCellVelocity_other (g : Grid) (data : BodyPart) (col row : Int)
    (h : col ≠ data.col ∨ row ≠ data.row) :
    (g.setCellVelocity data).getCellVelocity col row = g.getCellVelocity col row := by
  unfold Grid.setCellVelocity
  cases hq : g.getCellVelocity data.col data.row with
  | some m => exact Grid.find_overwriteVelocity_other data g.cellVelocities col row h
  | none =>
    unfold Grid.getCellVelocity
    have hd : ¬ (data.col = col ∧ data.row = row) := by
      rintro ⟨h1, h2⟩
      rcases h with h | h
      · exact h h1.symm
      · exact h h2.symm
    simp only [List.find?_append, List.find?_cons, hd, decide_False, List.find?_nil, Option.or_none]

theorem Grid.getCellVelocity_removeCellVelocity_same (g : Grid) (col row : Int) :
    (g.removeCellVelocity col row).getCellVelocity col row = none := by
  rw [Grid.getCellVelocity_eq_none]
  intro m hm
  simp only [Grid.removeCellVelocity, List.mem_filter, decide_eq_true_eq] at hm
  rintro ⟨h1, h2⟩
  rcases hm.2 with h | h
  · exact h h1
  · exact h h2

theorem Grid.getCellVelocity_removeCellVelocity_other (g : Grid) (col row c r : Int)
    (h : c ≠ col ∨ r ≠ row) :
    (g.removeCellVelocity col row).getCellVelocity c r = g.getCellVelocity c r := by
  unfold Grid.getCellVelocity Grid.removeCellVelocity
  simp only
  induction g.cellVelocities with
  | nil => rfl
  | cons x xs ih =>
    by_cases hx : x.col = c ∧ x.row = r
    · have hk : x.col ≠ col ∨ x.row ≠ row := by
        rcases h with h | h
        · exact Or.inl (hx.1 ▸ h)
        · exact Or.inr (hx.2 ▸ h)
      rw [List.filter_cons_of_pos (by simpa using hk), List.find?_cons_of_pos _ (by simpa using hx),
        List.find?_cons_of_pos _ (by simpa using hx)]
    · by_cases hk : x.col ≠ col ∨ x.row ≠ row
      · rw [List.filter_cons_of_pos (by simpa using hk), List.find?_cons_of_neg _ (by simpa using hx),
          List.find?_cons_of_neg _ (by simpa using hx), ih]
      · rw [List.filter_cons_of_neg (by simpa using hk), List.find?_cons_of_neg _ (by simpa using hx), ih]

theorem Grid.removeCellVelocity_of_none (g : Grid) (col row : Int)
    (h : g.getCellVelocity col row = none) : g.removeCellVelocity col row = g := by
  rw [Grid.getCellVelocity_eq_none] at h
  unfold Grid.removeCellVelocity
  have : g.cellVelocities.filter (fun data => decide (data.col ≠ col ∨ data.row ≠ row))
      = g.cellVelocities := by
    rw [List.filter_eq_self]
    intro m hm
    have := h m hm
    simp only [decide_eq_true_eq]
    by_contra hc
    push_neg at hc
    exact this hc
  rw [this]

theorem Grid.mem_overwriteVelocity (data m : BodyPart) (l : List BodyPart)
    (h : m ∈ Grid.overwriteVelocity data l) :
    (m.col = data.col ∧ m.row = data.row) ∨ ∃ m0 ∈ l, m0.col = m.col ∧ m0.row = m.row := by
  induction l with
  | nil => simp [Grid.overwriteVelocity] at h
  | cons x xs ih =>
    by_cases hx : x.col = data.col ∧ x.row = data.row
    · simp only [Grid.overwriteVelocity, hx, and_self, if_true, List.mem_cons] at h
      rcases h with h | h
      · subst h; exact Or.inl ⟨rfl, rfl⟩
      · exact Or.inr ⟨m, List.mem_cons_of_mem _ h, rfl, rfl⟩
    · simp only [Grid.overwriteVelocity, hx, if_false, List.mem_cons] at h
      rcases h with h | h
      · subst h; exact Or.inr ⟨m, List.mem_cons_self _ _, rfl, rfl⟩
      · rcases ih h with h1 | ⟨m0, hm0, h2⟩
        · exact Or.inl h1
        · exact Or.inr ⟨m0, List.mem_cons_of_mem _ hm0, h2⟩

theorem Grid.mem_setCellVelocity {g : Grid} {data m : BodyPart}
    (h : m ∈ (g.setCellVelocity data).cellVelocities) :
    (m.col = data.col ∧ m.row = data.row) ∨
      ∃ m0 ∈ g.cellVelocities, m0.col = m.col ∧ m0.row = m.row := by
  unfold Grid.setCellVelocity at h
  cases hq : g.getCellVelocity data.col data.row with
  | some m1 =>
    rw [hq] at h
    exact Grid.mem_overwriteVelocity data m g.cellVelocities h
  | none =>
    rw [hq] at h
    simp only [List.mem_append, List.mem_singleton] at h
    rcases h with h | h
    · exact Or.inr ⟨m, h, rfl, rfl⟩
    · subst h; exact Or.inl ⟨rfl, rfl⟩

theorem Grid.mem_removeCellVelocity {g : Grid} {col row : Int} {m : BodyPart}
    (h : m ∈ (g.removeCellVelocity col row).cellVelocities) :
    m ∈ g.cellVelocities ∧ (m.col ≠ col ∨ m.row ≠ row) := by
  simpa [Grid.removeCellVelocity, List.mem_filter] using h

/-! ## Cell values -/

theorem Grid.getCellValue_some_iff {g : Grid} {col row : Int} {v : CellValue} :
    g.getCellValue col row = some v ↔
      0 ≤ col ∧ 0 ≤ row ∧ ∃ cols, g.cells[row.toNat]? = some cols ∧ cols[col.toNat]? = some v := by
  unfold Grid.getCellValue
  constructor
  · intro h
    split at h
    · rename_i hr
      split at h
      · rename_i cols hc
        exact ⟨hr.1, hr.2, cols, hc, h⟩
      · simp at h
    · simp at h
  · rintro ⟨h1, h2, cols, h3, h4⟩
    rw [if_pos ⟨h1, h2⟩, h3]
    exact h4

theorem Grid.inRange_of_getCellValue {g : Grid} (hg : g.WellShaped) {col row : Int}
    {v : CellValue} (h : g.getCellValue col row = some v) : g.InRange col row := by
  rw [Grid.getCellValue_some_iff] at h
  obtain ⟨h1, h2, cols, h3, h4⟩ := h
  have h5 := List.getElem?_eq_some.1 h3
  obtain ⟨h6, h7⟩ := h5
  have h8 : cols ∈ g.cells := h7 ▸ List.getElem_mem h6
  have h9 := hg.2 cols h8
  have h10 := (List.getElem?_eq_some.1 h4).1
  rw [hg.1] at h6
  rw [h9] at h10
  refine ⟨h1, ?_, h2, ?_⟩ <;> omega

theorem Grid.getCellValue_of_inRange {g : Grid} (hg : g.WellShaped) {col row : Int}
    (h : g.InRange col row) : ∃ v, g.getCellValue col row = some v := by
  obtain ⟨h1, h2, h3, h4⟩ := h
  have h5 : row.toNat < g.cells.length := by rw [hg.1]; omega
  have h6 : (g.cells[row.toNat]).length = g.width := hg.2 _ (List.getElem_mem h5)
  have h7 : col.toNat < (g.cells[row.toNat]).length := by rw [h6]; omega
  refine ⟨(g.cells[row.toNat])[col.toNat], ?_⟩
  rw [Grid.getCellValue_some_iff]
  exact ⟨h1, h3, g.cells[row.toNat], List.getElem?_eq_getElem h5, List.getElem?_eq_getElem h7⟩

theorem Grid.setCellValue_of_getCellValue {g : Grid} {col row : Int} {v0 : CellValue}
    (h : g.getCellValue col row = some v0) (v : CellValue) :
    ∃ g1, g.setCellValue col row v = some g1 := by
  rw [Grid.getCellValue_some_iff] at h
  obtain ⟨h1, h2, cols, h3, h4⟩ := h
  have h10 := (List.getElem?_eq_some.1 h4).1
  unfold Grid.setCellValue
  rw [if_pos ⟨h1, h2⟩, h3]
  simp only [h10, if_true]
  exact ⟨_, rfl⟩

theorem Grid.setCellValue_spec {g g1 : Grid} {col row : Int} {v : CellValue}
    (h : g.setCellValue col row v = some g1) :
    g1.width = g.width ∧ g1.height = g.height ∧ g1.cellVelocities = g.cellVelocities
      ∧ (∃ v0, g.getCellValue col row = some v0)
      ∧ g1.getCellValue col row = some v
      ∧ ∀ c r, (c ≠ col ∨ r ≠ row) → g1.getCellValue c r = g.getCellValue c r := by
  unfold Grid.setCellValue at h
  split at h
  · rename_i hr
    split at h
    · rename_i cols hc
      split at h
      · rename_i hlt
        simp only [Option.some.injEq] at h
        subst h
        have hrow := (List.getElem?_eq_some.1 hc).1
        refine ⟨rfl, rfl, rfl, ⟨cols[col.toNat], ?_⟩, ?_, ?_⟩
        · rw [Grid.getCellValue_some_iff]
          exact ⟨hr.1, hr.2, cols, hc, List.getElem?_eq_getElem hlt⟩
        · rw [Grid.getCellValue_some_iff]
          refine ⟨hr.1, hr.2, cols.set col.toNat v, ?_, ?_⟩
          · simp only [List.getElem?_set_self hrow]
          · simp only [List.getElem?_set_self hlt]
        · intro c r hne
          unfold Grid.getCellValue
          by_cases hcr : 0 ≤ c ∧ 0 ≤ r
          · simp only [hcr, and_self, if_true]
            by_cases hrr : row.toNat = r.toNat
            · have hcc : col.toNat ≠ c.toNat := by
                intro hcc
                rcases hne with hne | hne
                · apply hne; have := hr.1; have := hcr.1; omega
                · apply hne; have := hr.2; have := hcr.2; omega
              rw [← hrr, List.getElem?_set_self hrow, hc]
              simp only [List.getElem?_set_ne hcc]
            · rw [List.getElem?_set_ne hrr]
          · simp only [hcr, if_false]
      · simp at h
    · simp at h
  · simp at h

theorem Grid.setCellValue_wellShaped {g g1 : Grid} {col row : Int} {v : CellValue}
    (h : g.setCellValue col row v = some g1) (hg : g.WellShaped) : g1.WellShaped := by
  unfold Grid.setCellValue at h
  split at h
  · split at h
    · rename_i cols hc
      split at h
      · simp only [Option.some.injEq] at h
        subst h
        have hrow := List.getElem?_eq_some.1 hc
        refine ⟨by simpa using hg.1, ?_⟩
        intro cs hcs
        simp only at hcs
        rcases List.mem_or_eq_of_mem_set hcs with h1 | h1
        · exact hg.2 cs h1
        · subst h1
          rw [List.length_set]
          exact hg.2 cols (hrow.2 ▸ List.getElem_mem hrow.1)
      · simp at h
    · simp at h
  · simp at h

theorem Grid.sum_map_set {α : Type} (f : α → Nat) (l : List α) (i : Nat) (a : α)
    (h : i < l.length) :
    ((l.set i a).map f).sum + f l[i] = (l.map f).sum + f a := by
  induction l generalizing i with
  | nil => simp at h
  | cons x xs ih =>
    cases i with
    | zero => simp only [List.set_cons_zero, List.map_cons, List.sum_cons, List.getElem_cons_zero]; omega
    | succ j =>
      simp only [List.length_cons, Nat.add_lt_add_iff_right] at h
      have := ih j h
      simp only [List.set_cons_succ, List.map_cons, List.sum_cons, List.getElem_cons_succ]
      omega

theorem Grid.countCells_setCellValue {g g1 : Grid} {col row : Int} {v v0 : CellValue}
    (h : g.setCellValue col row v = some g1) (h0 : g.getCellValue col row = some v0)
    (x : CellValue) :
    g1.countCells x + (if v0 = x then 1 else 0) = g.countCells x + (if v = x then 1 else 0) := by
  rw [Grid.getCellValue_some_iff] at h0
  obtain ⟨h1, h2, cols, h3, h4⟩ := h0
  have hlt := (List.getElem?_eq_some.1 h4)
  have hrow := (List.getElem?_eq_some.1 h3)
  unfold Grid.setCellValue at h
  rw [if_pos ⟨h1, h2⟩, h3] at h
  simp only [hlt.1, if_true, Option.some.injEq] at h
  subst h
  unfold Grid.countCells
  simp only
  have e1 := Grid.sum_map_set (fun cs => List.count x cs) g.cells row.toNat (cols.set col.toNat v) hrow.1
  simp only [hrow.2] at e1
  have e2 := List.count_set v x cols col.toNat hlt.1
  simp only [hlt.2, beq_iff_eq] at e2
  have e3 : (if v0 = x then 1 else 0) ≤ List.count x cols := by
    split
    · rename_i hv
      subst hv
      have : v0 ∈ cols := hlt.2 ▸ List.getElem_mem hlt.1
      exact List.count_pos_iff.2 this
    · exact Nat.zero_le _
  omega

/-! ## The move loop -/

theorem Grid.getCellVelocity_congr {g g1 : Grid} (h : g1.cellVelocities = g.cellVelocities)
    (col row : Int) : g1.getCellVelocity col row = g.getCellVelocity col row := by
  unfold Grid.getCellVelocity
  rw [h]

theorem Grid.getCellValue_congr {g g1 : Grid} (h : g1.cells = g.cells)
    (col row : Int) : g1.getCellValue col row = g.getCellValue col row := by
  unfold Grid.getCellValue
  rw [h]

theorem Link.congr {g g1 : Grid} (h : g1.cellVelocities = g.cellVelocities) {x y : BodyPart}
    (hl : Link g x y) : Link g1 x y := by
  unfold Link at hl ⊢
  rw [Grid.getCellVelocity_congr h]
  exact hl

theorem Snake.moveBodyPart_inv {g g1 : Grid} {n i : Nat} {b b1 : BodyPart}
    (h : Snake.moveBodyPart g n i b = some (g1, b1)) :
    ∃ ga gb, g.setCellValue b.col b.row CellValue.EMPTY = some ga
      ∧ ga.setCellValue (b.col + b.velocityX) (b.row + b.velocityY) CellValue.SNAKE = some gb
      ∧ ((i = 0 ∧ g1 = gb ∧ b1 = b.moved)
        ∨ (i ≠ 0 ∧ gb.getCellVelocity (b.col + b.velocityX) (b.row + b.velocityY) = none
            ∧ g1 = gb ∧ b1 = b.moved)
        ∨ (i ≠ 0 ∧ ∃ m, gb.getCellVelocity (b.col + b.velocityX) (b.row + b.velocityY) = some m
            ∧ b1 = { b.moved with velocityX := m.velocityX, velocityY := m.velocityY }
            ∧ ((i = n - 1 ∧ g1 = gb.removeCellVelocity m.col m.row) ∨ (i ≠ n - 1 ∧ g1 = gb)))) := by
  cases hga : g.setCellValue b.col b.row CellValue.EMPTY with
  | none => simp [Snake.moveBodyPart, hga] at h
  | some ga =>
    cases hgb : ga.setCellValue (b.col + b.velocityX) (b.row + b.velocityY) CellValue.SNAKE with
    | none => simp [Snake.moveBodyPart, hga, hgb] at h
    | some gb =>
      refine ⟨ga, gb, rfl, hgb, ?_⟩
      simp only [Snake.moveBodyPart, hga, hgb] at h
      by_cases hi : i = 0
      · simp only [hi, ne_eq, not_true_eq_false, if_false, Option.some.injEq, Prod.mk.injEq] at h
        exact Or.inl ⟨hi, h.1.symm, h.2.symm⟩
      · simp only [ne_eq, hi, not_false_eq_true, if_true] at h
        cases hq : gb.getCellVelocity (b.col + b.velocityX) (b.row + b.velocityY) with
        | none =>
          rw [hq] at h
          simp only [Option.some.injEq, Prod.mk.injEq] at h
          exact Or.inr (Or.inl ⟨hi, rfl, h.1.symm, h.2.symm⟩)
        | some m =>
          rw [hq] at h
          simp only at h
          refine Or.inr (Or.inr ⟨hi, m, rfl, ?_⟩)
          by_cases hn : i = n - 1
          · simp only [hn, if_true, Option.some.injEq, Prod.mk.injEq] at h
            exact ⟨h.2.symm, Or.inl ⟨hn, h.1.symm⟩⟩
          · simp only [hn, if_false, Option.some.injEq, Prod.mk.injEq] at h
            exact ⟨h.2.symm, Or.inr ⟨hn, h.1.symm⟩⟩

theorem Snake.moveBodyPart_advanced {g g1 : Grid} {n i : Nat} {b b1 : BodyPart}
    (h : Snake.moveBodyPart g n i b = some (g1, b1)) :
    Advanced b b1 ∧ g1.width = g.width ∧ g1.height = g.height
      ∧ (g.WellShaped → g1.WellShaped) := by
  obtain ⟨ga, gb, hga, hgb, hc⟩ := Snake.moveBodyPart_inv h
  have sa := Grid.setCellValue_spec hga
  have sb := Grid.setCellValue_spec hgb
  have wa := Grid.setCellValue_wellShaped hga
  have wb := Grid.setCellValue_wellShaped hgb
  have hw : gb.width = g.width := by rw [sb.1, sa.1]
  have hh : gb.height = g.height := by rw [sb.2.1, sa.2.1]
  rcases hc with ⟨_, h1, h2⟩ | ⟨_, _, h1, h2⟩ | ⟨_, m, _, h2, ⟨_, h1⟩ | ⟨_, h1⟩⟩
  · subst h1 h2
    exact ⟨⟨rfl, rfl⟩, hw, hh, fun hg => wb (wa hg)⟩
  · subst h1 h2
    exact ⟨⟨rfl, rfl⟩, hw, hh, fun hg => wb (wa hg)⟩
  · subst h1 h2
    exact ⟨⟨rfl, rfl⟩, hw, hh, fun hg => ⟨(wb (wa hg)).1, (wb (wa hg)).2⟩⟩
  · subst h1 h2
    exact ⟨⟨rfl, rfl⟩, hw, hh, fun hg => wb (wa hg)⟩

theorem Snake.moveBodyPart_isSome {g : Grid} (hg : g.WellShaped) (n i : Nat) {b : BodyPart}
    (h1 : g.InRange b.col b.row)
    (h2 : g.InRange (b.col + b.velocityX) (b.row + b.velocityY)) :
    ∃ r, Snake.moveBodyPart g n i b = some r := by
  obtain ⟨v1, hv1⟩ := Grid.getCellValue_of_inRange hg h1
  obtain ⟨ga, hga⟩ := Grid.setCellValue_of_getCellValue hv1 CellValue.EMPTY
  have wa := Grid.setCellValue_wellShaped hga hg
  have sa := Grid.setCellValue_spec hga
  have h2a : ga.InRange (b.col + b.velocityX) (b.row + b.velocityY) := by
    unfold Grid.InRange at h2 ⊢
    rw [sa.1, sa.2.1]
    exact h2
  obtain ⟨v2, hv2⟩ := Grid.getCellValue_of_inRange wa h2a
  obtain ⟨gb, hgb⟩ := Grid.setCellValue_of_getCellValue hv2 CellValue.SNAKE
  unfold Snake.moveBodyPart
  simp only [hga, hgb]
  split
  · split
    · split
      · exact ⟨_, rfl⟩
      · exact ⟨_, rfl⟩
    · exact ⟨_, rfl⟩
  · exact ⟨_, rfl⟩

theorem Snake.moveBodyParts_advanced (n : Nat) :
    ∀ (parts : List BodyPart) (g : Grid) (i : Nat) (g1 : Grid) (parts1 : List BodyPart),
      Snake.moveBodyParts n g i parts = some (g1, parts1) →
      List.Forall₂ Advanced parts parts1 ∧ g1.width = g.width ∧ g1.height = g.height
        ∧ (g.WellShaped → g1.WellShaped) := by
  intro parts
  induction parts with
  | nil =>
    intro g i g1 parts1 h
    simp only [Snake.moveBodyParts, Option.some.injEq, Prod.mk.injEq] at h
    obtain ⟨h1, h2⟩ := h
    subst h1 h2
    exact ⟨List.Forall₂.nil, rfl, rfl, id⟩
  | cons b rest ih =>
    intro g i g1 parts1 h
    simp only [Snake.moveBodyParts] at h
    split at h
    · simp at h
    · rename_i ga ba hba
      split at h
      · simp at h
      · rename_i gb restb hrest
        simp only [Option.some.injEq, Prod.mk.injEq] at h
        obtain ⟨h1, h2⟩ := h
        subst h1 h2
        have m1 := Snake.moveBodyPart_advanced hba
        have m2 := ih ga (i + 1) gb restb hrest
        exact ⟨List.Forall₂.cons m1.1 m2.1, by rw [m2.2.1, m1.2.1], by rw [m2.2.2.1, m1.2.2.1],
          fun hg => m2.2.2.2 (m1.2.2.2 hg)⟩

theorem Snake.moveBodyParts_isSome (n : Nat) :
    ∀ (parts : List BodyPart) (g : Grid) (i : Nat), g.WellShaped →
      (∀ b ∈ parts, g.InRange b.col b.row
        ∧ g.InRange (b.col + b.velocityX) (b.row + b.velocityY)) →
      ∃ r, Snake.moveBodyParts n g i parts = some r := by
  intro parts
  induction parts with
  | nil =>
    intro g i _ _
    exact ⟨_, rfl⟩
  | cons b rest ih =>
    intro g i hg hr
    have hb := hr b (List.mem_cons_self _ _)
    obtain ⟨⟨ga, ba⟩, hba⟩ := Snake.moveBodyPart_isSome hg n i hb.1 hb.2
    have m1 := Snake.moveBodyPart_advanced hba
    have hr1 : ∀ b ∈ rest, ga.InRange b.col b.row
        ∧ ga.InRange (b.col + b.velocityX) (b.row + b.velocityY) := by
      intro x hx
      have := hr x (List.mem_cons_of_mem _ hx)
      unfold Grid.InRange at this ⊢
      rw [m1.2.1, m1.2.2.1]
      exact this
    obtain ⟨⟨gb, restb⟩, hrest⟩ := ih ga (i + 1) (m1.2.2.2 hg) hr1
    refine ⟨(gb, ba :: restb), ?_⟩
    simp only [Snake.moveBodyParts, hba, hrest]

theorem BodyPart.eq_of_fields {a b : BodyPart} (h1 : a.col = b.col) (h2 : a.row = b.row)
    (h3 : a.velocityX = b.velocityX) (h4 : a.velocityY = b.velocityY) : a = b := by
  cases a
  cases b
  simp only [BodyPart.mk.injEq]
  exact ⟨h1, h2, h3, h4⟩

theorem BodyPart.pos_ne {a b : BodyPart} (h : a.pos ≠ b.pos) : a.col ≠ b.col ∨ a.row ≠ b.row := by
  by_contra hc
  push_neg at hc
  exact h (Prod.ext hc.1 hc.2)

/-- One pass of the loop body for a body part `y` that follows `pb`, whose cell has just been
vacated: `y` takes the place and the velocity of `pb`. -/
theorem Snake.moveBodyPart_link {g : Grid} {n i : Nat} {pb y : BodyPart} (hi : i ≠ 0)
    (hE : g.getCellValue pb.col pb.row = some CellValue.EMPTY)
    (hy : g.getCellValue y.col y.row = some CellValue.SNAKE)
    (hlink : Link g pb y) (hne : pb.pos ≠ y.pos) :
    ∃ g1, Snake.moveBodyPart g n i y = some (g1, pb)
      ∧ g1.countCells CellValue.SNAKE = g.countCells CellValue.SNAKE
      ∧ g1.getCellValue pb.col pb.row = some CellValue.SNAKE
      ∧ g1.getCellValue y.col y.row = some CellValue.EMPTY
      ∧ (∀ c r, (c, r) ≠ pb.pos → (c, r) ≠ y.pos → g1.getCellValue c r = g.getCellValue c r)
      ∧ (i ≠ n - 1 → g1.cellVelocities = g.cellVelocities)
      ∧ (i = n - 1 → g1.cellVelocities = (g.removeCellVelocity pb.col pb.row).cellVelocities) := by
  obtain ⟨ga, hga⟩ := Grid.setCellValue_of_getCellValue hy CellValue.EMPTY
  have sa := Grid.setCellValue_spec hga
  have hpy := BodyPart.pos_ne hne
  have hEa : ga.getCellValue pb.col pb.row = some CellValue.EMPTY := by
    rw [sa.2.2.2.2.2 pb.col pb.row hpy]; exact hE
  obtain ⟨gb, hgb⟩ := Grid.setCellValue_of_getCellValue hEa CellValue.SNAKE
  have sb := Grid.setCellValue_spec hgb
  have hvel : gb.cellVelocities = g.cellVelocities := by rw [sb.2.2.1, sa.2.2.1]
  have c1 := Grid.countCells_setCellValue hga hy CellValue.SNAKE
  have c2 := Grid.countCells_setCellValue hgb hEa CellValue.SNAKE
  simp only [if_true, reduceCtorEq, if_false] at c1 c2
  have hcount : gb.countCells CellValue.SNAKE = g.countCells CellValue.SNAKE := by omega
  have hyb : gb.getCellValue y.col y.row = some CellValue.EMPTY := by
    rw [sb.2.2.2.2.2 y.col y.row (BodyPart.pos_ne (Ne.symm hne))]; exact sa.2.2.2.2.1
  have hframe : ∀ c r, (c, r) ≠ pb.pos → (c, r) ≠ y.pos →
      gb.getCellValue c r = g.getCellValue c r := by
    intro c r h1 h2
    have h1a : c ≠ pb.col ∨ r ≠ pb.row := by
      by_contra hc; push_neg at hc; exact h1 (Prod.ext hc.1 hc.2)
    have h2a : c ≠ y.col ∨ r ≠ y.row := by
      by_contra hc; push_neg at hc; exact h2 (Prod.ext hc.1 hc.2)
    rw [sb.2.2.2.2.2 c r h1a, sa.2.2.2.2.2 c r h2a]
  have hq : gb.getCellVelocity pb.col pb.row = g.getCellVelocity pb.col pb.row :=
    Grid.getCellVelocity_congr hvel _ _
  obtain ⟨l1, l2, l3, l4⟩ := hlink
  cases hm : g.getCellVelocity pb.col pb.row with
  | none =>
    have hv := l4 hm
    have hqn : gb.getCellVelocity pb.col pb.row = none := by rw [hq, hm]
    have hstep : Snake.moveBodyPart g n i y = some (gb, ⟨pb.col, pb.row, y.velocityX, y.velocityY⟩) := by
      simp only [Snake.moveBodyPart, hga, l1, l2, hgb, ne_eq, hi, not_false_eq_true, if_true, hqn]
    have hpb : (⟨pb.col, pb.row, y.velocityX, y.velocityY⟩ : BodyPart) = pb :=
      BodyPart.eq_of_fields rfl rfl hv.1 hv.2
    rw [hpb] at hstep
    refine ⟨gb, hstep, hcount, sb.2.2.2.2.1, hyb, hframe, fun _ => hvel, fun _ => ?_⟩
    rw [Grid.removeCellVelocity_of_none g _ _ hm]
    exact hvel
  | some m =>
    have hv := l3 m hm
    have hmc := Grid.getCellVelocity_some hm
    have hqn : gb.getCellVelocity pb.col pb.row = some m := by rw [hq, hm]
    have hpb : (⟨pb.col, pb.row, m.velocityX, m.velocityY⟩ : BodyPart) = pb :=
      BodyPart.eq_of_fields rfl rfl hv.1 hv.2
    by_cases hn : i = n - 1
    · have hstep : Snake.moveBodyPart g n i y = some (gb.removeCellVelocity m.col m.row,
          ⟨pb.col, pb.row, m.velocityX, m.velocityY⟩) := by
        simp only [Snake.moveBodyPart, hga, l1, l2, hgb, ne_eq, hi, not_false_eq_true, if_true,
          hqn]
        rw [if_pos hn]
      rw [hpb] at hstep
      refine ⟨gb.removeCellVelocity m.col m.row, hstep, hcount,
        sb.2.2.2.2.1, hyb, hframe, fun h => absurd hn h, fun _ => ?_⟩
      simp only [Grid.removeCellVelocity, hvel, hmc.2.1, hmc.2.2]
    · have hstep : Snake.moveBodyPart g n i y = some (gb,
          ⟨pb.col, pb.row, m.velocityX, m.velocityY⟩) := by
        simp only [Snake.moveBodyPart, hga, l1, l2, hgb, ne_eq, hi, not_false_eq_true, if_true,
          hqn]
        rw [if_neg hn]
      rw [hpb] at hstep
      exact ⟨gb, hstep, hcount, sb.2.2.2.2.1, hyb, hframe, fun _ => hvel, fun h => absurd h hn⟩

/-- The move loop over the body parts behind `pb`, whose cell has just been vacated: every body
part takes the place and the velocity of the one in front of it. -/
theorem Snake.moveBodyParts_chain (n : Nat) :
    ∀ (rest : List BodyPart) (pb : BodyPart) (g : Grid) (i : Nat),
      i ≠ 0 → i + rest.length ≤ n →
      g.getCellValue pb.col pb.row = some CellValue.EMPTY →
      (∀ y ∈ rest, g.getCellValue y.col y.row = some CellValue.SNAKE) →
      List.Chain (Link g) pb rest →
      ((pb :: rest).map BodyPart.pos).Nodup →
      ∃ g1, Snake.moveBodyParts n g i rest = some (g1, (pb :: rest).dropLast)
        ∧ g1.countCells CellValue.SNAKE = g.countCells CellValue.SNAKE
        ∧ (∀ x ∈ (pb :: rest).dropLast, g1.getCellValue x.col x.row = some CellValue.SNAKE)
        ∧ (∀ t, (pb :: rest).getLast? = some t →
            g1.getCellValue t.col t.row = some CellValue.EMPTY)
        ∧ (∀ c r, (c, r) ∉ (pb :: rest).map BodyPart.pos →
            g1.getCellValue c r = g.getCellValue c r)
        ∧ (i + rest.length < n → g1.cellVelocities = g.cellVelocities)
        ∧ (rest ≠ [] → i + rest.length = n → ∀ t, ((pb :: rest).dropLast).getLast? = some t →
            g1.cellVelocities = (g.removeCellVelocity t.col t.row).cellVelocities) := by
  intro rest
  induction rest with
  | nil =>
    intro pb g i _ _ hE _ _ _
    refine ⟨g, rfl, rfl, ?_, ?_, fun _ _ _ => rfl, fun _ => rfl, fun h => absurd rfl h⟩
    · intro x hx
      simp at hx
    · intro t ht
      simp only [List.getLast?_singleton, Option.some.injEq] at ht
      subst ht
      exact hE
  | cons y ys ih =>
    intro pb g i hi hin hE hS hchain hnd
    obtain ⟨hlink, hchain1⟩ := List.chain_cons.1 hchain
    simp only [List.map_cons, List.nodup_cons, List.mem_cons, not_or] at hnd
    obtain ⟨⟨hpy, hpys⟩, hyys, hnd1⟩ := hnd
    have hy := hS y (List.mem_cons_self _ _)
    obtain ⟨ga, hstep, hcount, hpbS, hyE, hframe, hkeep, hdrop⟩ :=
      Snake.moveBodyPart_link (n := n) hi hE hy hlink hpy
    simp only [List.length_cons] at hin
    have hSa : ∀ z ∈ ys, ga.getCellValue z.col z.row = some CellValue.SNAKE := by
      intro z hz
      have hz1 : (z.col, z.row) ≠ pb.pos := by
        intro h
        exact hpys (h ▸ List.mem_map_of_mem BodyPart.pos hz)
      have hz2 : (z.col, z.row) ≠ y.pos := by
        intro h
        exact hyys (h ▸ List.mem_map_of_mem BodyPart.pos hz)
      rw [hframe z.col z.row hz1 hz2]
      exact hS z (List.mem_cons_of_mem _ hz)
    have hchain2 : List.Chain (Link ga) y ys := by
      cases ys with
      | nil => exact List.Chain.nil
      | cons z zs =>
        have hne : i ≠ n - 1 := by
          simp only [List.length_cons] at hin
          omega
        exact List.Chain.imp (fun a b hab => Link.congr (hkeep hne) hab) hchain1
    have hnd2 : ((y :: ys).map BodyPart.pos).Nodup := by
      simp only [List.map_cons, List.nodup_cons]
      exact ⟨hyys, hnd1⟩
    obtain ⟨gb, hrest, hcount1, hS1, hlast1, hframe1, hkeep1, hdrop1⟩ :=
      ih y ga (i + 1) (Nat.succ_ne_zero i) (by omega) hyE hSa hchain2 hnd2
    refine ⟨gb, ?_, by rw [hcount1, hcount], ?_, ?_, ?_, ?_, ?_⟩
    · simp only [Snake.moveBodyParts, hstep, hrest, List.dropLast_cons₂]
    · intro x hx
      simp only [List.dropLast_cons₂, List.mem_cons] at hx
      rcases hx with hx | hx
      · subst hx
        have hx1 : (x.col, x.row) ∉ (y :: ys).map BodyPart.pos := by
          simp only [List.map_cons, List.mem_cons, not_or]
          exact ⟨hpy, hpys⟩
        rw [hframe1 x.col x.row hx1]
        exact hpbS
      · exact hS1 x hx
    · intro t ht
      rw [List.getLast?_cons_cons] at ht
      exact hlast1 t ht
    · intro c r hcr
      simp only [List.map_cons, List.mem_cons, not_or] at hcr
      have hcr1 : (c, r) ∉ (y :: ys).map BodyPart.pos := by
        simp only [List.map_cons, List.mem_cons, not_or]
        exact ⟨hcr.2.1, hcr.2.2⟩
      rw [hframe1 c r hcr1, hframe c r hcr.1 hcr.2.1]
    · intro hlt
      simp only [List.length_cons] at hlt
      rw [hkeep1 (by omega), hkeep (by omega)]
    · intro _ heq t ht
      simp only [List.length_cons] at heq
      cases ys with
      | nil =>
        simp only [List.dropLast_cons₂, List.dropLast_single, List.getLast?_singleton,
          Option.some.injEq] at ht
        subst ht
        simp only [Snake.moveBodyParts, Option.some.injEq, Prod.mk.injEq] at hrest
        rw [← hrest.1]
        simp only [List.length_nil] at heq
        exact hdrop (by omega)
      | cons z zs =>
        simp only [List.dropLast_cons₂] at ht
        rw [List.getLast?_cons_cons] at ht
        have h1 := hdrop1 (List.cons_ne_nil _ _) (by simp only [List.length_cons] at heq ⊢; omega) t
          (by simpa only [List.dropLast_cons₂] using ht)
        rw [h1]
        have hne : i ≠ n - 1 := by
          simp only [List.length_cons] at heq
          omega
        simp only [Grid.removeCellVelocity, hkeep hne]

/-! ## The invariant of the game states -/

theorem Snake.moveBodyPart_head {g : Grid} {n : Nat} {head : BodyPart} {vq : CellValue}
    (hS : g.getCellValue head.col head.row = some CellValue.SNAKE)
    (hq : g.getCellValue (head.col + head.velocityX) (head.row + head.velocityY) = some vq)
    (hvq : vq ≠ CellValue.SNAKE) :
    ∃ g1, Snake.moveBodyPart g n 0 head = some (g1, head.moved)
      ∧ g1.countCells CellValue.SNAKE = g.countCells CellValue.SNAKE
      ∧ g1.getCellValue (head.col + head.velocityX) (head.row + head.velocityY)
          = some CellValue.SNAKE
      ∧ g1.getCellValue head.col head.row = some CellValue.EMPTY
      ∧ (∀ c r, (c, r) ≠ (head.col + head.velocityX, head.row + head.velocityY) →
          (c, r) ≠ head.pos → g1.getCellValue c r = g.getCellValue c r)
      ∧ g1.cellVelocities = g.cellVelocities := by
  have hne : head.col + head.velocityX ≠ head.col ∨ head.row + head.velocityY ≠ head.row := by
    by_contra hc
    push_neg at hc
    rw [hc.1, hc.2, hS] at hq
    simp only [Option.some.injEq] at hq
    exact hvq hq.symm
  obtain ⟨ga, hga⟩ := Grid.setCellValue_of_getCellValue hS CellValue.EMPTY
  have sa := Grid.setCellValue_spec hga
  have hqa : ga.getCellValue (head.col + head.velocityX) (head.row + head.velocityY) = some vq := by
    rw [sa.2.2.2.2.2 _ _ hne]; exact hq
  obtain ⟨gb, hgb⟩ := Grid.setCellValue_of_getCellValue hqa CellValue.SNAKE
  have sb := Grid.setCellValue_spec hgb
  have c1 := Grid.countCells_setCellValue hga hS CellValue.SNAKE
  have c2 := Grid.countCells_setCellValue hgb hqa CellValue.SNAKE
  simp only [if_true, reduceCtorEq, if_false, hvq] at c1 c2
  refine ⟨gb, ?_, by omega, sb.2.2.2.2.1, ?_, ?_, by rw [sb.2.2.1, sa.2.2.1]⟩
  · simp only [Snake.moveBodyPart, hga, hgb, ne_eq, not_true_eq_false, if_false, BodyPart.moved]
  · have hne2 : head.col ≠ head.col + head.velocityX ∨ head.row ≠ head.row + head.velocityY := by
      rcases hne with h | h
      · exact Or.inl (Ne.symm h)
      · exact Or.inr (Ne.symm h)
    rw [sb.2.2.2.2.2 _ _ hne2]
    exact sa.2.2.2.2.1
  · intro c r h1 h2
    have h1a : c ≠ head.col + head.velocityX ∨ r ≠ head.row + head.velocityY := by
      by_contra hc; push_neg at hc; exact h1 (Prod.ext hc.1 hc.2)
    have h2a : c ≠ head.col ∨ r ≠ head.row := by
      by_contra hc; push_neg at hc; exact h2 (Prod.ext hc.1 hc.2)
    rw [sb.2.2.2.2.2 c r h1a, sa.2.2.2.2.2 c r h2a]

/-- The move loop of a tick without growth, in a state that satisfies the invariant: the moved
head is put in front of the body parts and the last one is dropped. -/
theorem Snake.moveBodyParts_inv {g : Grid} {head : BodyPart} {rest : List BodyPart}
    {vq : CellValue}
    (hcells : ∀ b ∈ head :: rest, g.getCellValue b.col b.row = some CellValue.SNAKE)
    (hnd : ((head :: rest).map BodyPart.pos).Nodup)
    (hchain : List.Chain (Link g) head rest)
    (hq : g.getCellValue (head.col + head.velocityX) (head.row + head.velocityY) = some vq)
    (hvq : vq ≠ CellValue.SNAKE) (n : Nat) (hn : rest.length + 1 ≤ n) :
    ∃ g1, Snake.moveBodyParts n g 0 (head :: rest)
        = some (g1, head.moved :: (head :: rest).dropLast)
      ∧ g1.countCells CellValue.SNAKE = g.countCells CellValue.SNAKE
      ∧ g1.getCellValue (head.col + head.velocityX) (head.row + head.velocityY)
          = some CellValue.SNAKE
      ∧ (∀ x ∈ (head :: rest).dropLast, g1.getCellValue x.col x.row = some CellValue.SNAKE)
      ∧ (∀ t, (head :: rest).getLast? = some t →
          g1.getCellValue t.col t.row = some CellValue.EMPTY)
      ∧ (∀ c r, (c, r) ≠ (head.col + head.velocityX, head.row + head.velocityY) →
          (c, r) ∉ (head :: rest).map BodyPart.pos → g1.getCellValue c r = g.getCellValue c r)
      ∧ (rest.length + 1 < n → g1.cellVelocities = g.cellVelocities)
      ∧ (rest = [] → g1.cellVelocities = g.cellVelocities)
      ∧ (rest ≠ [] → rest.length + 1 = n → ∀ t, ((head :: rest).dropLast).getLast? = some t →
          g1.cellVelocities = (g.removeCellVelocity t.col t.row).cellVelocities) := by
  have hS := hcells head (List.mem_cons_self _ _)
  obtain ⟨ga, hstep, hcount, hqS, hE, hframe, hvel⟩ := Snake.moveBodyPart_head (n := n) hS hq hvq
  have hqpos : ∀ y ∈ head :: rest,
      (y.col, y.row) ≠ (head.col + head.velocityX, head.row + head.velocityY) := by
    intro y hy h
    have h1 := hcells y hy
    simp only [Prod.mk.injEq] at h
    rw [h.1, h.2, hq] at h1
    simp only [Option.some.injEq] at h1
    exact hvq h1
  have hnd0 := hnd
  simp only [List.map_cons, List.nodup_cons] at hnd
  have hSa : ∀ y ∈ rest, ga.getCellValue y.col y.row = some CellValue.SNAKE := by
    intro y hy
    have h2 : (y.col, y.row) ≠ head.pos := by
      intro h
      exact hnd.1 (h ▸ List.mem_map_of_mem BodyPart.pos hy)
    rw [hframe y.col y.row (hqpos y (List.mem_cons_of_mem _ hy)) h2]
    exact hcells y (List.mem_cons_of_mem _ hy)
  have hchain1 : List.Chain (Link ga) head rest :=
    List.Chain.imp (fun a b hab => Link.congr hvel hab) hchain
  obtain ⟨gb, hrest, hcount1, hS1, hlast1, hframe1, hkeep1, hdrop1⟩ :=
    Snake.moveBodyParts_chain n rest head ga 1 Nat.one_ne_zero (by omega) hE hSa hchain1 hnd0
  refine ⟨gb, ?_, by rw [hcount1, hcount], ?_, hS1, hlast1, ?_, ?_, ?_, ?_⟩
  · simp only [Snake.moveBodyParts, hstep, zero_add, hrest]
  · have : (head.col + head.velocityX, head.row + head.velocityY)
        ∉ (head :: rest).map BodyPart.pos := by
      intro h
      obtain ⟨y, hy, hyp⟩ := List.mem_map.1 h
      exact hqpos y hy hyp
    rw [hframe1 _ _ this]
    exact hqS
  · intro c r h1 h2
    rw [hframe1 c r h2]
    apply hframe c r h1
    intro h
    apply h2
    rw [h]
    exact List.mem_map_of_mem BodyPart.pos (List.mem_cons_self _ _)
  · intro hlt
    rw [hkeep1 (by omega), hvel]
  · intro hnil
    subst hnil
    simp only [Snake.moveBodyParts, Option.some.injEq, Prod.mk.injEq] at hrest
    rw [← hrest.1, hvel]
  · intro hne heq t ht
    rw [hdrop1 hne (by omega) t ht]
    simp only [Grid.removeCellVelocity, hvel]

theorem Link.of_lookup_eq {g g1 : Grid} {x y : BodyPart}
    (h : g1.getCellVelocity x.col x.row = g.getCellVelocity x.col x.row)
    (hl : Link g x y) : Link g1 x y := by
  unfold Link at hl ⊢
  rw [h]
  exact hl

theorem Link.chain_of_agree (g g1 : Grid) (t : BodyPart) :
    ∀ l : List BodyPart,
      (∀ x ∈ l, g1.getCellVelocity x.col x.row = g.getCellVelocity x.col x.row) →
      List.Chain' (Link g) (l ++ [t]) → List.Chain' (Link g1) (l ++ [t]) := by
  intro l
  induction l with
  | nil =>
    intro _ _
    exact List.chain'_singleton t
  | cons a as ih =>
    intro hagree hchain
    rw [List.cons_append, List.chain'_cons'] at hchain ⊢
    refine ⟨fun y hy => Link.of_lookup_eq (hagree a (List.mem_cons_self _ _)) (hchain.1 y hy), ?_⟩
    exact ih (fun x hx => hagree x (List.mem_cons_of_mem _ hx)) hchain.2

theorem List.exists_eq_append_pair {α : Type} (a b : α) (l : List α) :
    ∃ init t z, a :: b :: l = init ++ [t, z] := by
  induction l generalizing a b with
  | nil => exact ⟨[], a, b, rfl⟩
  | cons c cs ih =>
    obtain ⟨init, t, z, h⟩ := ih b c
    exact ⟨a :: init, t, z, by rw [h]; rfl⟩

/-- No velocity is stored at a cell that no body part occupies. -/
theorem Inv.lookup_none {s : Game} (hinv : Inv s) {col row : Int}
    (h : ∀ b ∈ s.snake.bodyParts.dropLast, (b.col, b.row) ≠ (col, row)) :
    s.grid.getCellVelocity col row = none := by
  rw [Grid.getCellVelocity_eq_none]
  intro m hm hmc
  obtain ⟨b, hb, hbc⟩ := hinv.markers m hm
  apply h b hb
  rw [hbc.1, hbc.2, hmc.1, hmc.2]

theorem Inv.next_not_body {s : Game} (hinv : Inv s) {col row : Int} {vq : CellValue}
    (hq : s.grid.getCellValue col row = some vq) (hvq : vq ≠ CellValue.SNAKE) :
    ∀ b ∈ s.snake.bodyParts, (b.col, b.row) ≠ (col, row) := by
  intro b hb h
  have h1 := hinv.cells b hb
  simp only [Prod.mk.injEq] at h
  rw [h.1, h.2, hq] at h1
  simp only [Option.some.injEq] at h1
  exact hvq h1

/-- A tick that moves without eating, in a state that satisfies the invariant. -/
theorem Snake.moveAll_spec {s : Game} (hinv : Inv s) {head : BodyPart} {rest : List BodyPart}
    (hparts : s.snake.bodyParts = head :: rest)
    (hq : s.grid.getCellValue (head.col + head.velocityX) (head.row + head.velocityY)
      = some CellValue.EMPTY) :
    ∃ g1, Snake.moveAll s
        = some { s with grid := g1, snake := { bodyParts := head.moved :: (head :: rest).dropLast } }
      ∧ Inv { s with grid := g1, snake := { bodyParts := head.moved :: (head :: rest).dropLast } }
      ∧ (∀ z, (head :: rest).getLast? = some z → ∀ c r, g1.getCellValue c r =
          if (c, r) = (head.col + head.velocityX, head.row + head.velocityY)
          then some CellValue.SNAKE
          else if (c, r) = (z.col, z.row) then some CellValue.EMPTY
          else s.grid.getCellValue c r)
      ∧ (rest = [] → g1.cellVelocities = s.grid.cellVelocities)
      ∧ (rest ≠ [] → ∀ t, ((head :: rest).dropLast).getLast? = some t →
          g1.cellVelocities = (s.grid.removeCellVelocity t.col t.row).cellVelocities) := by
  have hcells := hinv.cells
  have hnd := hinv.nodup
  have hchain := hinv.chain
  have hcount := hinv.count
  rw [hparts] at hcells hnd hchain hcount
  have hvq : CellValue.EMPTY ≠ CellValue.SNAKE := by decide
  obtain ⟨g1, hloop, hcount1, hqS, hS1, hlast1, hframe1, _, hnil1, hdrop1⟩ :=
    Snake.moveBodyParts_inv hcells hnd hchain hq hvq (rest.length + 1) (le_refl _)
  have hadv := Snake.moveBodyParts_advanced _ _ _ _ _ _ hloop
  have hqbody := hinv.next_not_body hq hvq
  rw [hparts] at hqbody
  have hqnone : s.grid.getCellVelocity (head.col + head.velocityX) (head.row + head.velocityY)
      = none := by
    apply hinv.lookup_none
    intro b hb
    rw [hparts] at hb
    exact hqbody b (List.mem_of_mem_dropLast hb)
  have hlinkq : Link s.grid head.moved head := by
    refine ⟨rfl, rfl, ?_, fun _ => ⟨rfl, rfl⟩⟩
    intro m hm
    simp only [BodyPart.moved] at hm
    rw [hqnone] at hm
    simp at hm
  refine ⟨g1, ?_, ?_, ?_, hnil1, fun hne t ht => hdrop1 hne rfl t ht⟩
  · simp only [Snake.moveAll, hparts, List.length_cons, hloop]
  · constructor
    · exact hadv.2.2.2 hinv.shape
    · exact List.cons_ne_nil _ _
    · intro b hb
      simp only [List.mem_cons] at hb
      rcases hb with hb | hb
      · subst hb
        exact hqS
      · exact hS1 b hb
    · simp only [List.map_cons, List.nodup_cons]
      constructor
      · intro h
        obtain ⟨y, hy, hyp⟩ := List.mem_map.1 h
        exact hqbody y (List.mem_of_mem_dropLast hy) hyp
      · exact List.Nodup.sublist (List.Sublist.map _ (List.dropLast_sublist _)) hnd
    · simp only [hcount1, hcount, List.length_cons, List.length_dropLast, Nat.add_sub_cancel]
    · simp only
      cases rest with
      | nil => exact List.chain'_singleton _
      | cons b l =>
        obtain ⟨init, t, z, hsplit⟩ := List.exists_eq_append_pair head b l
        have hdl : (head :: b :: l).dropLast = init ++ [t] := by
          rw [hsplit]
          have : init ++ [t, z] = (init ++ [t]) ++ [z] := by simp
          rw [this, List.dropLast_concat]
        have hvel := hdrop1 (List.cons_ne_nil _ _) rfl t (by rw [hdl]; simp)
        have hc0 : List.Chain' (Link s.grid) (init ++ [t]) := by
          have h1 : List.Chain' (Link s.grid) (head :: b :: l) := hchain
          rw [← hdl]
          exact h1.init
        have hc1 : List.Chain' (Link s.grid) ((head.moved :: init) ++ [t]) := by
          rw [List.cons_append, List.chain'_cons']
          refine ⟨?_, hc0⟩
          intro y hy
          rw [← hdl] at hy
          simp only [List.dropLast_cons₂, List.head?_cons, Option.mem_def, Option.some.injEq] at hy
          subst hy
          exact hlinkq
        rw [hdl]
        have hnd2 : ((init ++ [t, z]).map BodyPart.pos).Nodup := by rw [← hsplit]; exact hnd
        have ht_mem : t ∈ head :: b :: l := by rw [hsplit]; simp
        apply Link.chain_of_agree s.grid g1 t (head.moved :: init) _ hc1
        intro x hx
        rw [Grid.getCellVelocity_congr hvel]
        apply Grid.getCellVelocity_removeCellVelocity_other
        simp only [List.mem_cons] at hx
        rcases hx with hx | hx
        · subst hx
          have := hqbody t ht_mem
          by_contra hc
          push_neg at hc
          exact this (Prod.ext hc.1.symm hc.2.symm)
        · by_contra hc
          push_neg at hc
          have hpos : x.pos = t.pos := Prod.ext hc.1 hc.2
          simp only [List.map_append, List.map_cons, List.map_nil] at hnd2
          have := (List.nodup_append.1 hnd2).2.2
          exact this (List.mem_map_of_mem BodyPart.pos hx) (by rw [hpos]; simp)
    · intro m hm
      simp only at hm ⊢
      cases rest with
      | nil =>
        rw [hnil1 rfl] at hm
        obtain ⟨b, hb, _⟩ := hinv.markers m hm
        rw [hparts] at hb
        simp at hb
      | cons b l =>
        obtain ⟨init, t, z, hsplit⟩ := List.exists_eq_append_pair head b l
        have hdl : (head :: b :: l).dropLast = init ++ [t] := by
          rw [hsplit]
          have : init ++ [t, z] = (init ++ [t]) ++ [z] := by simp
          rw [this, List.dropLast_concat]
        have hvel := hdrop1 (List.cons_ne_nil _ _) rfl t (by rw [hdl]; simp)
        rw [hvel] at hm
        obtain ⟨hm1, hm2⟩ := Grid.mem_removeCellVelocity hm
        obtain ⟨x, hx, hxc⟩ := hinv.markers m hm1
        rw [hparts, hdl] at hx
        rw [hdl]
        have hdl2 : (head.moved :: (init ++ [t])).dropLast = head.moved :: init := by
          have : head.moved :: (init ++ [t]) = (head.moved :: init) ++ [t] := by simp
          rw [this, List.dropLast_concat]
        rw [hdl2]
        simp only [List.mem_append, List.mem_singleton] at hx
        rcases hx with hx | hx
        · exact ⟨x, List.mem_cons_of_mem _ hx, hxc⟩
        · subst hx
          exfalso
          rcases hm2 with h | h
          · exact h hxc.1.symm
          · exact h hxc.2.symm
  · intro z hz c r
    by_cases h1 : (c, r) = (head.col + head.velocityX, head.row + head.velocityY)
    · rw [if_pos h1]
      simp only [Prod.mk.injEq] at h1
      rw [h1.1, h1.2]
      exact hqS
    · rw [if_neg h1]
      by_cases h2 : (c, r) = (z.col, z.row)
      · rw [if_pos h2]
        simp only [Prod.mk.injEq] at h2
        rw [h2.1, h2.2]
        exact hlast1 z hz
      · rw [if_neg h2]
        by_cases h3 : (c, r) ∈ (head :: rest).map BodyPart.pos
        · obtain ⟨y, hy, hyp⟩ := List.mem_map.1 h3
          have hyd : y ∈ (head :: rest).dropLast := by
            have := List.dropLast_append_getLast? z hz
            rw [← this] at hy
            simp only [List.mem_append, List.mem_singleton] at hy
            rcases hy with hy | hy
            · exact hy
            · subst hy
              exact absurd hyp.symm h2
          have e1 := hS1 y hyd
          have e2 := hcells y hy
          simp only [BodyPart.pos, Prod.mk.injEq] at hyp
          rw [← hyp.1, ← hyp.2, e1, e2]
        · exact hframe1 c r h1 h3

/-! ## Apple placement -/

theorem Game.spawnAppleLoop_some {g : Grid} :
    ∀ (draws : List (Int × Int)) (col row : Int) (a : Int × Int),
      Game.spawnAppleLoop g col row draws = some a →
      g.getCellValue a.1 a.2 = some CellValue.EMPTY := by
  intro draws
  induction draws with
  | nil =>
    intro col row a h
    unfold Game.spawnAppleLoop at h
    by_cases hc : g.getCellValue col row = some CellValue.EMPTY
    · simp only [hc, ne_eq, not_true_eq_false, if_false, Option.some.injEq] at h
      subst h
      exact hc
    · simp only [ne_eq, hc, not_false_eq_true, if_true] at h
      simp at h
  | cons d ds ih =>
    intro col row a h
    unfold Game.spawnAppleLoop at h
    by_cases hc : g.getCellValue col row = some CellValue.EMPTY
    · simp only [hc, ne_eq, not_true_eq_false, if_false, Option.some.injEq] at h
      subst h
      exact hc
    · simp only [ne_eq, hc, not_false_eq_true, if_true] at h
      exact ih _ _ _ h

theorem Game.spawnAppleLoop_congr {g g1 : Grid} (h : g1.cells = g.cells) :
    ∀ (draws : List (Int × Int)) (col row : Int),
      Game.spawnAppleLoop g1 col row draws = Game.spawnAppleLoop g col row draws := by
  intro draws
  induction draws with
  | nil =>
    intro col row
    simp only [Game.spawnAppleLoop, Grid.getCellValue_congr h]
  | cons d ds ih =>
    intro col row
    simp only [Game.spawnAppleLoop, Grid.getCellValue_congr h, ih]

theorem Game.spawnApple_spec {s s1 : Game} {draws : List (Int × Int)}
    (h : Game.spawnApple s draws = some s1) :
    ∃ col row g1, Game.spawnAppleLoop s.grid 0 0 draws = some (col, row)
      ∧ s.grid.getCellValue col row = some CellValue.EMPTY
      ∧ s.grid.setCellValue col row CellValue.APPLE = some g1
      ∧ s1 = { s with grid := g1 } := by
  unfold Game.spawnApple at h
  cases hl : Game.spawnAppleLoop s.grid 0 0 draws with
  | none => simp [hl] at h
  | some a =>
    obtain ⟨col, row⟩ := a
    have he := Game.spawnAppleLoop_some _ _ _ _ hl
    simp only [hl] at h
    cases hs : s.grid.setCellValue col row CellValue.APPLE with
    | none => simp [hs] at h
    | some g1 =>
      simp only [hs, Option.some.injEq] at h
      exact ⟨col, row, g1, rfl, he, hs, h.symm⟩

theorem Game.spawnApple_isSome {s : Game} {draws : List (Int × Int)} {a : Int × Int}
    (h : Game.spawnAppleLoop s.grid 0 0 draws = some a) :
    ∃ s1, Game.spawnApple s draws = some s1 := by
  have he := Game.spawnAppleLoop_some _ _ _ _ h
  obtain ⟨g1, hg1⟩ := Grid.setCellValue_of_getCellValue he CellValue.APPLE
  obtain ⟨col, row⟩ := a
  exact ⟨{ s with grid := g1 }, by simp only [Game.spawnApple, h, hg1]⟩

theorem Game.onAppleEaten_spec {K : Constants} {s s1 : Game} {draws : List (Int × Int)}
    (h : Game.onAppleEaten K s draws = some s1) :
    ∃ col row, Game.spawnAppleLoop s.grid 0 0 draws = some (col, row)
      ∧ s.grid.getCellValue col row = some CellValue.EMPTY
      ∧ s.grid.setCellValue col row CellValue.APPLE = some s1.grid
      ∧ s1.snake = s.snake ∧ s1.isPlaying = s.isPlaying ∧ s1.isGameOver = s.isGameOver
      ∧ s1.applesEaten = s.applesEaten + 1 ∧ s1.lastUpdated = s.lastUpdated := by
  unfold Game.onAppleEaten at h
  simp only at h
  split at h
  · obtain ⟨col, row, g1, h1, h2, h3, h4⟩ := Game.spawnApple_spec h
    subst h4
    exact ⟨col, row, h1, h2, h3, rfl, rfl, rfl, rfl, rfl⟩
  · obtain ⟨col, row, g1, h1, h2, h3, h4⟩ := Game.spawnApple_spec h
    subst h4
    exact ⟨col, row, h1, h2, h3, rfl, rfl, rfl, rfl, rfl⟩

theorem Game.onAppleEaten_isSome (K : Constants) {s : Game} {draws : List (Int × Int)}
    {a : Int × Int} (h : Game.spawnAppleLoop s.grid 0 0 draws = some a) :
    ∃ s1, Game.onAppleEaten K s draws = some s1 := by
  unfold Game.onAppleEaten
  simp only
  split
  · exact Game.spawnApple_isSome h
  · exact Game.spawnApple_isSome h

/-! ## The move loop over an appended list, and the new tail -/

theorem Snake.moveBodyParts_append (n : Nat) :
    ∀ (xs : List BodyPart) (ys : List BodyPart) (g : Grid) (i : Nat) (g1 g2 : Grid)
      (xs1 ys1 : List BodyPart),
      Snake.moveBodyParts n g i xs = some (g1, xs1) →
      Snake.moveBodyParts n g1 (i + xs.length) ys = some (g2, ys1) →
      Snake.moveBodyParts n g i (xs ++ ys) = some (g2, xs1 ++ ys1) := by
  intro xs
  induction xs with
  | nil =>
    intro ys g i g1 g2 xs1 ys1 h1 h2
    simp only [Snake.moveBodyParts, Option.some.injEq, Prod.mk.injEq] at h1
    obtain ⟨e1, e2⟩ := h1
    subst e1 e2
    simpa using h2
  | cons x xs ih =>
    intro ys g i g1 g2 xs1 ys1 h1 h2
    simp only [Snake.moveBodyParts] at h1
    cases hx : Snake.moveBodyPart g n i x with
    | none => simp [hx] at h1
    | some r =>
      obtain ⟨ga, xa⟩ := r
      simp only [hx] at h1
      cases hr : Snake.moveBodyParts n ga (i + 1) xs with
      | none => simp [hr] at h1
      | some r1 =>
        obtain ⟨gb, xsb⟩ := r1
        simp only [hr, Option.some.injEq, Prod.mk.injEq] at h1
        obtain ⟨e1, e2⟩ := h1
        subst e1 e2
        have h3 : Snake.moveBodyParts n gb (i + 1 + xs.length) ys = some (g2, ys1) := by
          rw [← h2]
          congr 1
          simp only [List.length_cons]
          omega
        have := ih ys ga (i + 1) gb g2 xsb ys1 hr h3
        rw [List.cons_append]
        simp only [Snake.moveBodyParts, hx, this, List.cons_append]

/-- The loop body for the tail that was appended in this tick: it stays on the cell the old tail
has left, adopts the velocity stored there, and removes it. -/
theorem Snake.moveBodyPart_newTail {g : Grid} {n i : Nat} {tail m : BodyPart} (hi : i ≠ 0)
    (hn : i = n - 1)
    (hE : g.getCellValue tail.col tail.row = some CellValue.EMPTY)
    (hm : g.getCellVelocity tail.col tail.row = some m)
    (hmv : m.velocityX = tail.velocityX ∧ m.velocityY = tail.velocityY) :
    ∃ g1, Snake.moveBodyPart g n i
          { col := tail.col, row := tail.row, velocityX := 0, velocityY := 0 } = some (g1, tail)
      ∧ g1.countCells CellValue.SNAKE = g.countCells CellValue.SNAKE + 1
      ∧ g1.getCellValue tail.col tail.row = some CellValue.SNAKE
      ∧ (∀ c r, (c, r) ≠ (tail.col, tail.row) → g1.getCellValue c r = g.getCellValue c r)
      ∧ g1.cellVelocities = (g.removeCellVelocity tail.col tail.row).cellVelocities := by
  obtain ⟨ga, hga⟩ := Grid.setCellValue_of_getCellValue hE CellValue.EMPTY
  have sa := Grid.setCellValue_spec hga
  obtain ⟨gb, hgb⟩ := Grid.setCellValue_of_getCellValue sa.2.2.2.2.1 CellValue.SNAKE
  have sb := Grid.setCellValue_spec hgb
  have c1 := Grid.countCells_setCellValue hga hE CellValue.SNAKE
  have c2 := Grid.countCells_setCellValue hgb sa.2.2.2.2.1 CellValue.SNAKE
  simp only [if_true, reduceCtorEq, if_false] at c1 c2
  have hvel : gb.cellVelocities = g.cellVelocities := by rw [sb.2.2.1, sa.2.2.1]
  have hq : gb.getCellVelocity tail.col tail.row = some m := by
    rw [Grid.getCellVelocity_congr hvel]; exact hm
  have hmc := Grid.getCellVelocity_some hm
  have htail : (⟨tail.col, tail.row, m.velocityX, m.velocityY⟩ : BodyPart) = tail :=
    BodyPart.eq_of_fields rfl rfl hmv.1 hmv.2
  have hstep : Snake.moveBodyPart g n i
      { col := tail.col, row := tail.row, velocityX := 0, velocityY := 0 }
      = some (gb.removeCellVelocity m.col m.row, ⟨tail.col, tail.row, m.velocityX, m.velocityY⟩) := by
    simp only [Snake.moveBodyPart, add_zero, hga, hgb, ne_eq, hi, not_false_eq_true, if_true, hq]
    rw [if_pos hn]
  rw [htail] at hstep
  refine ⟨gb.removeCellVelocity m.col m.row, hstep, by
    show gb.countCells CellValue.SNAKE = _
    omega, sb.2.2.2.2.1, ?_, ?_⟩
  · intro c r hcr
    have h1 : c ≠ tail.col ∨ r ≠ tail.row := by
      by_contra hc; push_neg at hc; exact hcr (Prod.ext hc.1 hc.2)
    show gb.getCellValue c r = _
    rw [sb.2.2.2.2.2 c r h1, sa.2.2.2.2.2 c r h1]
  · simp only [Grid.removeCellVelocity, hvel, hmc.2.1, hmc.2.2]

theorem Grid.setCellVelocity_cells (g : Grid) (data : BodyPart) :
    (g.setCellVelocity data).cells = g.cells ∧ (g.setCellVelocity data).width = g.width
      ∧ (g.setCellVelocity data).height = g.height := by
  unfold Grid.setCellVelocity
  split <;> exact ⟨rfl, rfl, rfl⟩

theorem Grid.remove_set_of_none (g : Grid) (data : BodyPart)
    (h : g.getCellVelocity data.col data.row = none) :
    (g.setCellVelocity data).cellVelocities.filter
        (fun d => decide (d.col ≠ data.col ∨ d.row ≠ data.row)) = g.cellVelocities := by
  have h1 : (g.setCellVelocity data).cellVelocities = g.cellVelocities ++ [data] := by
    unfold Grid.setCellVelocity
    rw [h]
  rw [h1, List.filter_append]
  have h2 := Grid.removeCellVelocity_of_none g data.col data.row h
  have h3 : g.cellVelocities.filter (fun d => decide (d.col ≠ data.col ∨ d.row ≠ data.row))
      = g.cellVelocities := by
    conv_rhs => rw [← h2]
    rfl
  rw [h3]
  simp

/-- A tick that eats an apple, in a state that satisfies the invariant: after the apple has been
relocated, the move loop puts the moved head in front of the body parts and keeps all of them. -/
theorem Snake.grow_spec {K : Constants} {s : Game} (hinv : Inv s) {head tail : BodyPart}
    {rest : List BodyPart} (hparts : s.snake.bodyParts = head :: rest)
    (htail : (head :: rest).getLast? = some tail)
    (hq : s.grid.getCellValue (head.col + head.velocityX) (head.row + head.velocityY)
      = some CellValue.APPLE)
    {draws : List (Int × Int)} {s3 : Game}
    (heat : Game.onAppleEaten K
      { s with
        grid := s.grid.setCellVelocity tail
        snake := Snake.addBodyPart s.snake
          { col := tail.col, row := tail.row, velocityX := 0, velocityY := 0 } } draws
      = some s3) :
    ∃ g1 ac ar, Snake.moveAll s3
        = some { s3 with grid := g1, snake := { bodyParts := head.moved :: head :: rest } }
      ∧ Inv { s3 with grid := g1, snake := { bodyParts := head.moved :: head :: rest } }
      ∧ s.grid.getCellValue ac ar = some CellValue.EMPTY
      ∧ (∀ c r, g1.getCellValue c r =
          if (c, r) = (head.col + head.velocityX, head.row + head.velocityY)
          then some CellValue.SNAKE
          else if (c, r) = (ac, ar) then some CellValue.APPLE
          else s.grid.getCellValue c r)
      ∧ g1.cellVelocities = s.grid.cellVelocities := by
  have hcells := hinv.cells
  have hnd := hinv.nodup
  have hchain := hinv.chain
  have hcount := hinv.count
  rw [hparts] at hcells hnd hchain hcount
  have hvq : CellValue.APPLE ≠ CellValue.SNAKE := by decide
  have hqbody := hinv.next_not_body hq hvq
  rw [hparts] at hqbody
  have hsplit : (head :: rest).dropLast ++ [tail] = head :: rest :=
    List.dropLast_append_getLast? tail htail
  have htail_mem : tail ∈ head :: rest := by rw [← hsplit]; simp
  have hnd_split : (((head :: rest).dropLast ++ [tail]).map BodyPart.pos).Nodup := by
    rw [hsplit]; exact hnd
  have hinit_ne : ∀ x ∈ (head :: rest).dropLast, x.col ≠ tail.col ∨ x.row ≠ tail.row := by
    intro x hx
    by_contra hc
    push_neg at hc
    have hpos : x.pos = tail.pos := Prod.ext hc.1 hc.2
    simp only [List.map_append, List.map_cons, List.map_nil] at hnd_split
    exact (List.nodup_append.1 hnd_split).2.2 (List.mem_map_of_mem BodyPart.pos hx)
      (by rw [hpos]; simp)
  -- the apple is relocated
  obtain ⟨ac, ar, _, hEa, hset, hsn, _, _, _, _⟩ := Game.onAppleEaten_spec heat
  simp only at hEa hset hsn
  have hsc := Grid.setCellVelocity_cells s.grid tail
  rw [Grid.getCellValue_congr hsc.1] at hEa
  have sg := Grid.setCellValue_spec hset
  have hg3val : ∀ c r, (c ≠ ac ∨ r ≠ ar) → s3.grid.getCellValue c r = s.grid.getCellValue c r := by
    intro c r h
    rw [sg.2.2.2.2.2 c r h, Grid.getCellValue_congr hsc.1]
  have hne_of_val : ∀ c r v, s.grid.getCellValue c r = some v → v ≠ CellValue.EMPTY →
      (c ≠ ac ∨ r ≠ ar) := by
    intro c r v h1 h2
    by_contra hc
    push_neg at hc
    rw [hc.1, hc.2, hEa] at h1
    simp only [Option.some.injEq] at h1
    exact h2 h1.symm
  have hcells3 : ∀ b ∈ head :: rest, s3.grid.getCellValue b.col b.row = some CellValue.SNAKE := by
    intro b hb
    rw [hg3val _ _ (hne_of_val _ _ _ (hcells b hb) (by decide))]
    exact hcells b hb
  have hq3 : s3.grid.getCellValue (head.col + head.velocityX) (head.row + head.velocityY)
      = some CellValue.APPLE := by
    rw [hg3val _ _ (hne_of_val _ _ _ hq (by decide))]
    exact hq
  have hlook3 : ∀ c r, s3.grid.getCellVelocity c r
      = (s.grid.setCellVelocity tail).getCellVelocity c r :=
    fun c r => Grid.getCellVelocity_congr sg.2.2.1 c r
  have hchain3 : List.Chain (Link s3.grid) head rest := by
    have h1 : List.Chain' (Link s.grid) ((head :: rest).dropLast ++ [tail]) := by
      rw [hsplit]; exact hchain
    have h2 := Link.chain_of_agree s.grid s3.grid tail (head :: rest).dropLast (by
      intro x hx
      rw [hlook3]
      exact Grid.getCellVelocity_setCellVelocity_other _ _ _ _ (hinit_ne x hx)) h1
    rw [hsplit] at h2
    exact h2
  obtain ⟨g4, hloop, hcount4, hqS, hS4, hlast4, hframe4, hkeep4, _, _⟩ :=
    Snake.moveBodyParts_inv hcells3 hnd hchain3 hq3 hvq (rest.length + 2) (by omega)
  have hvel4 := hkeep4 (by omega)
  -- the new tail
  obtain ⟨m, hm, _, _, hmx, hmy⟩ := Grid.getCellVelocity_setCellVelocity_same s.grid tail
  have hm4 : g4.getCellVelocity tail.col tail.row = some m := by
    rw [Grid.getCellVelocity_congr hvel4, hlook3]; exact hm
  obtain ⟨g5, hstep, hcount5, htS, hframe5, hvel5⟩ :=
    Snake.moveBodyPart_newTail (n := rest.length + 2) (i := rest.length + 1)
      (Nat.succ_ne_zero _) (by omega) (hlast4 tail htail) hm4 ⟨hmx, hmy⟩
  have hloop2 : Snake.moveBodyParts (rest.length + 2) g4 (0 + (head :: rest).length)
      [{ col := tail.col, row := tail.row, velocityX := 0, velocityY := 0 }]
      = some (g5, [tail]) := by
    simp only [List.length_cons, zero_add, Snake.moveBodyParts, hstep]
  have hall := Snake.moveBodyParts_append _ _ _ _ _ _ _ _ _ hloop hloop2
  have hfinal : head.moved :: (head :: rest).dropLast ++ [tail] = head.moved :: head :: rest := by
    rw [List.cons_append, hsplit]
  rw [hfinal] at hall
  have hadv := Snake.moveBodyParts_advanced _ _ _ _ _ _ hall
  have hshape3 : s3.grid.WellShaped := by
    apply Grid.setCellValue_wellShaped hset
    exact ⟨by rw [hsc.1, hsc.2.2]; exact hinv.shape.1, by rw [hsc.1, hsc.2.1]; exact hinv.shape.2⟩
  have htailnone : s.grid.getCellVelocity tail.col tail.row = none := by
    apply hinv.lookup_none
    intro b hb h
    rw [hparts] at hb
    simp only [Prod.mk.injEq] at h
    rcases hinit_ne b hb with h1 | h1
    · exact h1 h.1
    · exact h1 h.2
  have hvel_final : g5.cellVelocities = s.grid.cellVelocities := by
    rw [hvel5]
    simp only [Grid.removeCellVelocity, hvel4, sg.2.2.1]
    exact Grid.remove_set_of_none s.grid tail htailnone
  have hqnone : s.grid.getCellVelocity (head.col + head.velocityX) (head.row + head.velocityY)
      = none := by
    apply hinv.lookup_none
    intro b hb
    rw [hparts] at hb
    exact hqbody b (List.mem_of_mem_dropLast hb)
  have hq_ne_tail : (head.col + head.velocityX, head.row + head.velocityY)
      ≠ (tail.col, tail.row) := fun h => hqbody tail htail_mem h.symm
  have hval5 : ∀ b ∈ head :: rest, g5.getCellValue b.col b.row = some CellValue.SNAKE := by
    intro b hb
    by_cases hbt : (b.col, b.row) = (tail.col, tail.row)
    · simp only [Prod.mk.injEq] at hbt
      rw [hbt.1, hbt.2]
      exact htS
    · rw [hframe5 _ _ hbt]
      apply hS4
      rw [← hsplit] at hb
      simp only [List.mem_append, List.mem_singleton] at hb
      rcases hb with hb | hb
      · exact hb
      · subst hb
        exact absurd rfl hbt
  refine ⟨g5, ac, ar, ?_, ?_, hEa, ?_, hvel_final⟩
  · have hall1 : Snake.moveBodyParts (rest.length + 1 + 1) s3.grid 0
        (head :: (rest ++ [{ col := tail.col, row := tail.row, velocityX := 0, velocityY := 0 }]))
        = some (g5, head.moved :: head :: rest) := hall
    simp only [Snake.moveAll, hsn, Snake.addBodyPart, hparts, List.length_append,
      List.length_cons, List.length_nil, zero_add, List.cons_append, hall1]
  · constructor
    · exact hadv.2.2.2 hshape3
    · exact List.cons_ne_nil _ _
    · intro b hb
      simp only [List.mem_cons] at hb
      rcases hb with hb | hb
      · subst hb
        show g5.getCellValue (head.col + head.velocityX) (head.row + head.velocityY) = _
        rw [hframe5 _ _ hq_ne_tail]
        exact hqS
      · exact hval5 b (List.mem_cons.2 hb)
    · have : (head.moved :: head :: rest).map BodyPart.pos
          = (head.col + head.velocityX, head.row + head.velocityY)
            :: (head :: rest).map BodyPart.pos := rfl
      simp only [this, List.nodup_cons]
      refine ⟨?_, hnd⟩
      intro h
      obtain ⟨y, hy, hyp⟩ := List.mem_map.1 h
      exact hqbody y hy hyp
    · have c3 := Grid.countCells_setCellValue hset
        (by rw [Grid.getCellValue_congr hsc.1]; exact hEa) CellValue.SNAKE
      simp only [reduceCtorEq, if_false, add_zero] at c3
      have c0 : (s.grid.setCellVelocity tail).countCells CellValue.SNAKE
          = s.grid.countCells CellValue.SNAKE := by
        unfold Grid.countCells
        rw [hsc.1]
      simp only [hcount5, hcount4, c3, c0, hcount, List.length_cons]
    · show List.Chain' (Link g5) (head.moved :: head :: rest)
      rw [List.chain'_cons]
      constructor
      · apply Link.congr hvel_final
        refine ⟨rfl, rfl, ?_, fun _ => ⟨rfl, rfl⟩⟩
        intro m1 hm1
        simp only [BodyPart.moved] at hm1
        rw [hqnone] at hm1
        simp at hm1
      · exact List.Chain'.imp (fun a b hab => Link.congr hvel_final hab) hchain
    · intro m1 hm1
      simp only at hm1 ⊢
      rw [hvel_final] at hm1
      obtain ⟨b, hb, hbc⟩ := hinv.markers m1 hm1
      rw [hparts] at hb
      exact ⟨b, by rw [List.dropLast_cons₂]; exact List.mem_cons_of_mem _ hb, hbc⟩
  · intro c r
    by_cases h1 : (c, r) = (head.col + head.velocityX, head.row + head.velocityY)
    · rw [if_pos h1]
      simp only [Prod.mk.injEq] at h1
      rw [h1.1, h1.2, hframe5 _ _ hq_ne_tail]
      exact hqS
    · rw [if_neg h1]
      by_cases h3 : (c, r) ∈ (head :: rest).map BodyPart.pos
      · obtain ⟨y, hy, hyp⟩ := List.mem_map.1 h3
        simp only [BodyPart.pos, Prod.mk.injEq] at hyp
        have hne := hne_of_val _ _ _ (hcells y hy) (by decide)
        rw [hyp.1, hyp.2] at hne
        have h2 : (c, r) ≠ (ac, ar) := by
          intro h
          simp only [Prod.mk.injEq] at h
          rcases hne with h4 | h4
          · exact h4 h.1
          · exact h4 h.2
        rw [if_neg h2, ← hyp.1, ← hyp.2, hval5 y hy, hcells y hy]
      · have hct : (c, r) ≠ (tail.col, tail.row) := by
          intro h
          apply h3
          rw [h]
          exact List.mem_map_of_mem BodyPart.pos htail_mem
        rw [hframe5 c r hct, hframe4 c r h1 h3]
        by_cases h2 : (c, r) = (ac, ar)
        · rw [if_pos h2]
          simp only [Prod.mk.injEq] at h2
          rw [h2.1, h2.2]
          exact sg.2.2.2.2.1
        · rw [if_neg h2]
          apply hg3val
          by_contra hc
          push_neg at hc
          exact h2 (Prod.ext hc.1 hc.2)

/-! ## Grid reset -/

theorem Grid.countCells_pos {g : Grid} {col row : Int} {v : CellValue}
    (h : g.getCellValue col row = some v) : 0 < g.countCells v := by
  rw [Grid.getCellValue_some_iff] at h
  obtain ⟨_, _, cols, h3, h4⟩ := h
  have hrow := List.getElem?_eq_some.1 h3
  have hcol := List.getElem?_eq_some.1 h4
  have hv : v ∈ cols := hcol.2 ▸ List.getElem_mem hcol.1
  have hc : cols ∈ g.cells := hrow.2 ▸ List.getElem_mem hrow.1
  have h1 : 0 < cols.count v := List.count_pos_iff.2 hv
  have h2 : cols.count v ≤ (g.cells.map (fun cs => cs.count v)).sum :=
    List.single_le_sum (by intro x _; exact Nat.zero_le x) _
      (List.mem_map_of_mem (fun cs => cs.count v) hc)
  unfold Grid.countCells
  omega

theorem Grid.setupCells_spec (g : Grid) :
    g.setupCells.WellShaped ∧ g.setupCells.width = g.width ∧ g.setupCells.height = g.height
      ∧ g.setupCells.cellVelocities = []
      ∧ (∀ v, v ≠ CellValue.EMPTY → g.setupCells.countCells v = 0)
      ∧ ∀ c r, g.setupCells.InRange c r → g.setupCells.getCellValue c r = some CellValue.EMPTY := by
  have hshape : g.setupCells.WellShaped := by
    constructor
    · simp [Grid.setupCells]
    · intro cols hc
      simp only [Grid.setupCells] at hc
      rw [List.eq_of_mem_replicate hc]
      simp [Grid.setupCells]
  refine ⟨hshape, rfl, rfl, rfl, ?_, ?_⟩
  · intro v hv
    by_contra hne
    have hpos : 0 < g.setupCells.countCells v := Nat.pos_of_ne_zero hne
    unfold Grid.countCells at hpos
    obtain ⟨x, hx, hx0⟩ := List.exists_lt_of_sum_lt (l := g.setupCells.cells)
      (f := fun _ => 0) (g := fun cs => cs.count v) (by simpa using hpos)
    simp only [Grid.setupCells] at hx
    rw [List.eq_of_mem_replicate hx] at hx0
    have := List.count_pos_iff.1 hx0
    exact hv (List.eq_of_mem_replicate this)
  · intro c r hr
    obtain ⟨v, hv⟩ := Grid.getCellValue_of_inRange hshape hr
    rw [hv]
    rw [Grid.getCellValue_some_iff] at hv
    obtain ⟨_, _, cols, h3, h4⟩ := hv
    have hrow := List.getElem?_eq_some.1 h3
    have hcol := List.getElem?_eq_some.1 h4
    have hc : cols ∈ g.setupCells.cells := hrow.2 ▸ List.getElem_mem hrow.1
    simp only [Grid.setupCells] at hc
    have hv : v ∈ cols := hcol.2 ▸ List.getElem_mem hcol.1
    rw [List.eq_of_mem_replicate hc] at hv
    rw [List.eq_of_mem_replicate hv]

theorem Grid.fillRow_spec {g g1 : Grid} {row : Nat} {v : CellValue}
    (h : g.fillRow row v = some g1) :
    g1.width = g.width ∧ g1.height = g.height ∧ g1.cellVelocities = g.cellVelocities
      ∧ (g.WellShaped → g1.WellShaped)
      ∧ (∀ x, x ≠ v → g1.countCells x ≤ g.countCells x)
      ∧ ∀ c r, g1.getCellValue c r =
          if 0 ≤ r ∧ r.toNat = row then (g.getCellValue c r).map (fun _ => v)
          else g.getCellValue c r := by
  unfold Grid.fillRow at h
  cases hc : g.cells[row]? with
  | none => simp [hc] at h
  | some cols =>
    simp only [hc, Option.some.injEq] at h
    subst h
    have hrow := List.getElem?_eq_some.1 hc
    refine ⟨rfl, rfl, rfl, ?_, ?_, ?_⟩
    · intro hg
      refine ⟨by simpa using hg.1, ?_⟩
      intro cs hcs
      simp only at hcs
      rcases List.mem_or_eq_of_mem_set hcs with h1 | h1
      · exact hg.2 cs h1
      · subst h1
        rw [List.length_map]
        exact hg.2 cols (hrow.2 ▸ List.getElem_mem hrow.1)
    · intro x hx
      unfold Grid.countCells
      simp only
      have e1 := Grid.sum_map_set (fun cs => List.count x cs) g.cells row
        (cols.map (fun _ => v)) hrow.1
      have e2 : List.count x (cols.map (fun _ => v)) = 0 := by
        rw [List.count_eq_zero]
        intro hmem
        obtain ⟨_, _, hy⟩ := List.mem_map.1 hmem
        exact hx hy.symm
      simp only [e2] at e1
      omega
    · intro c r
      unfold Grid.getCellValue
      simp only
      by_cases hr : 0 ≤ r ∧ r.toNat = row
      · rw [if_pos hr]
        by_cases hcr : 0 ≤ c
        · have hboth : 0 ≤ c ∧ 0 ≤ r := ⟨hcr, hr.1⟩
          simp only [hboth, and_self, if_true]
          rw [hr.2, List.getElem?_set_self hrow.1, hc]
          simp only [List.getElem?_map]
        · have : ¬ (0 ≤ c ∧ 0 ≤ r) := fun hh => hcr hh.1
          simp only [this, if_false, Option.map_none']
      · rw [if_neg hr]
        by_cases hcr : 0 ≤ c ∧ 0 ≤ r
        · have hne : row ≠ r.toNat := fun hh => hr ⟨hcr.2, hh.symm⟩
          simp only [hcr, and_self, if_true, List.getElem?_set_ne hne]
        · simp only [hcr, if_false]

theorem Grid.fillRow_isSome (g : Grid) (row : Nat) (h : row < g.cells.length) (v : CellValue) :
    ∃ g1, g.fillRow row v = some g1 := by
  unfold Grid.fillRow
  rw [List.getElem?_eq_getElem h]
  exact ⟨_, rfl⟩

theorem Grid.addSideWalls_spec :
    ∀ (count : Nat) (g g1 : Grid) (row : Nat), g.addSideWalls row count = some g1 →
      g1.width = g.width ∧ g1.height = g.height ∧ g1.cellVelocities = g.cellVelocities
        ∧ (g.WellShaped → g1.WellShaped)
        ∧ (∀ x, x ≠ CellValue.WALL → g1.countCells x ≤ g.countCells x)
        ∧ ∀ c r, g1.getCellValue c r =
            if ((row : Int) ≤ r ∧ r < (row : Int) + count) ∧ (c = 0 ∨ c = (g.width : Int) - 1)
            then some CellValue.WALL else g.getCellValue c r := by
  intro count
  induction count with
  | zero =>
    intro g g1 row h
    simp only [Grid.addSideWalls, Option.some.injEq] at h
    subst h
    refine ⟨rfl, rfl, rfl, id, fun _ _ => le_refl _, ?_⟩
    intro c r
    have : ¬ (((row : Int) ≤ r ∧ r < (row : Int) + (0 : Nat)) ∧ (c = 0 ∨ c = (g.width : Int) - 1)) := by
      rintro ⟨⟨h1, h2⟩, _⟩
      omega
    rw [if_neg this]
  | succ k ih =>
    intro g g1 row h
    simp only [Grid.addSideWalls] at h
    cases ha : g.setCellValue 0 row CellValue.WALL with
    | none => simp [ha] at h
    | some ga =>
      simp only [ha] at h
      cases hb : ga.setCellValue ((ga.width : Int) - 1) row CellValue.WALL with
      | none => simp [hb] at h
      | some gb =>
        simp only [hb] at h
        have sa := Grid.setCellValue_spec ha
        have sb := Grid.setCellValue_spec hb
        obtain ⟨i1, i2, i3, i4, i5, i6⟩ := ih gb g1 (row + 1) h
        obtain ⟨va, hva⟩ := sa.2.2.2.1
        obtain ⟨vb, hvb⟩ := sb.2.2.2.1
        refine ⟨by rw [i1, sb.1, sa.1], by rw [i2, sb.2.1, sa.2.1], by rw [i3, sb.2.2.1, sa.2.2.1],
          fun hg => i4 (Grid.setCellValue_wellShaped hb (Grid.setCellValue_wellShaped ha hg)),
          ?_, ?_⟩
        · intro x hx
          have c1 := Grid.countCells_setCellValue ha hva x
          have c2 := Grid.countCells_setCellValue hb hvb x
          have c3 := i5 x hx
          simp only [Ne.symm hx, if_false] at c1 c2
          omega
        · intro c r
          rw [i6 c r]
          rw [sb.1, sa.1]
          by_cases hrow : r = (row : Int)
          · have hn1 : ¬ ((((row + 1 : Nat) : Int) ≤ r ∧ r < ((row + 1 : Nat) : Int) + k)
                ∧ (c = 0 ∨ c = (g.width : Int) - 1)) := by
              rintro ⟨⟨h1, _⟩, _⟩
              omega
            rw [if_neg hn1]
            by_cases hcol : c = 0 ∨ c = (g.width : Int) - 1
            · have hp : ((row : Int) ≤ r ∧ r < (row : Int) + ((k + 1 : Nat) : Int))
                  ∧ (c = 0 ∨ c = (g.width : Int) - 1) := ⟨⟨by omega, by omega⟩, hcol⟩
              rw [if_pos hp]
              by_cases hlast : c = (g.width : Int) - 1
              · rw [hlast, hrow, ← sa.1]
                exact sb.2.2.2.2.1
              · have hc0 : c = 0 := by
                  rcases hcol with h0 | h0
                  · exact h0
                  · exact absurd h0 hlast
                rw [sb.2.2.2.2.2 c r (Or.inl (by rw [sa.1]; exact hlast)), hc0, hrow]
                exact sa.2.2.2.2.1
            · have hp : ¬ (((row : Int) ≤ r ∧ r < (row : Int) + ((k + 1 : Nat) : Int))
                  ∧ (c = 0 ∨ c = (g.width : Int) - 1)) := fun hh => hcol hh.2
              rw [if_neg hp]
              push_neg at hcol
              rw [sb.2.2.2.2.2 c r (Or.inl (by rw [sa.1]; exact hcol.2)),
                sa.2.2.2.2.2 c r (Or.inl hcol.1)]
          · rw [sb.2.2.2.2.2 c r (Or.inr hrow), sa.2.2.2.2.2 c r (Or.inr hrow)]
            by_cases hp : (((row + 1 : Nat) : Int) ≤ r ∧ r < ((row + 1 : Nat) : Int) + k)
                ∧ (c = 0 ∨ c = (g.width : Int) - 1)
            · rw [if_pos hp]
              have hp2 : ((row : Int) ≤ r ∧ r < (row : Int) + ((k + 1 : Nat) : Int))
                  ∧ (c = 0 ∨ c = (g.width : Int) - 1) := by
                obtain ⟨⟨h1, h2⟩, h3⟩ := hp
                exact ⟨⟨by omega, by omega⟩, h3⟩
              rw [if_pos hp2]
            · rw [if_neg hp]
              have hp2 : ¬ (((row : Int) ≤ r ∧ r < (row : Int) + ((k + 1 : Nat) : Int))
                  ∧ (c = 0 ∨ c = (g.width : Int) - 1)) := by
                rintro ⟨⟨h1, h2⟩, h3⟩
                apply hp
                exact ⟨⟨by omega, by omega⟩, h3⟩
              rw [if_neg hp2]

theorem Grid.addSideWalls_isSome :
    ∀ (count : Nat) (g : Grid) (row : Nat), g.WellShaped → 1 ≤ g.width →
      row + count ≤ g.height → ∃ g1, g.addSideWalls row count = some g1 := by
  intro count
  induction count with
  | zero =>
    intro g row _ _ _
    exact ⟨g, rfl⟩
  | succ k ih =>
    intro g row hg hw hr
    have r1 : g.InRange 0 row := ⟨le_refl _, by omega, by omega, by omega⟩
    obtain ⟨v1, hv1⟩ := Grid.getCellValue_of_inRange hg r1
    obtain ⟨ga, ha⟩ := Grid.setCellValue_of_getCellValue hv1 CellValue.WALL
    have sa := Grid.setCellValue_spec ha
    have wa := Grid.setCellValue_wellShaped ha hg
    have r2 : ga.InRange ((ga.width : Int) - 1) row := by
      refine ⟨by rw [sa.1]; omega, by omega, by omega, by rw [sa.2.1]; omega⟩
    obtain ⟨v2, hv2⟩ := Grid.getCellValue_of_inRange wa r2
    obtain ⟨gb, hb⟩ := Grid.setCellValue_of_getCellValue hv2 CellValue.WALL
    have sb := Grid.setCellValue_spec hb
    have wb := Grid.setCellValue_wellShaped hb wa
    obtain ⟨g1, h1⟩ := ih gb (row + 1) wb (by rw [sb.1, sa.1]; exact hw)
      (by rw [sb.2.1, sa.2.1]; omega)
    exact ⟨g1, by simp only [Grid.addSideWalls, ha, hb, h1]⟩

theorem Grid.reset_spec {g g1 : Grid} (h : g.reset = some g1) :
    g1.WellShaped ∧ g1.width = g.width ∧ g1.height = g.height ∧ g1.cellVelocities = []
      ∧ g1.countCells CellValue.SNAKE = 0 ∧ g1.countCells CellValue.APPLE = 0
      ∧ ∀ c r, g1.InRange c r →
          (g1.OnBorder c r → g1.getCellValue c r = some CellValue.WALL)
          ∧ (¬ g1.OnBorder c r → g1.getCellValue c r = some CellValue.EMPTY) := by
  unfold Grid.reset Grid.addOuterWalls at h
  obtain ⟨s1, s2, s3, s4, s5, s6⟩ := Grid.setupCells_spec g
  cases ha : g.setupCells.fillRow 0 CellValue.WALL with
  | none => simp [ha] at h
  | some ga =>
    simp only [ha] at h
    cases hb : ga.addSideWalls 1 (ga.height - 1 - 1) with
    | none => simp [hb] at h
    | some gb =>
      simp only [hb] at h
      obtain ⟨a1, a2, a3, a4, a5, a6⟩ := Grid.fillRow_spec ha
      obtain ⟨b1, b2, b3, b4, b5, b6⟩ := Grid.addSideWalls_spec _ _ _ _ hb
      obtain ⟨c1, c2, c3, c4, c5, c6⟩ := Grid.fillRow_spec h
      have hw : g1.width = g.width := by rw [c1, b1, a1, s2]
      have hh : g1.height = g.height := by rw [c2, b2, a2, s3]
      have hcount : ∀ x, x ≠ CellValue.WALL → x ≠ CellValue.EMPTY → g1.countCells x = 0 := by
        intro x hx1 hx2
        have e1 := c5 x hx1
        have e2 := b5 x hx1
        have e3 := a5 x hx1
        have e4 := s5 x hx2
        omega
      refine ⟨c4 (b4 (a4 s1)), hw, hh, by rw [c3, b3, a3, s4], hcount _ (by decide) (by decide),
        hcount _ (by decide) (by decide), ?_⟩
      intro c r hr
      have hr0 : g.setupCells.InRange c r := by
        unfold Grid.InRange at hr ⊢
        rw [s2, s3, ← hw, ← hh]
        exact hr
      have v0 := s6 c r hr0
      have va : ga.getCellValue c r
          = if 0 ≤ r ∧ r.toNat = 0 then some CellValue.WALL else some CellValue.EMPTY := by
        rw [a6 c r, v0]
        split <;> rfl
      have vb : gb.getCellValue c r
          = if ((1 : Int) ≤ r ∧ r < 1 + ((ga.height - 1 - 1 : Nat) : Int))
              ∧ (c = 0 ∨ c = (ga.width : Int) - 1) then some CellValue.WALL
            else if 0 ≤ r ∧ r.toNat = 0 then some CellValue.WALL else some CellValue.EMPTY := by
        rw [b6 c r, va]
        rfl
      have v1 : g1.getCellValue c r
          = if 0 ≤ r ∧ r.toNat = gb.height - 1 then some CellValue.WALL
            else if ((1 : Int) ≤ r ∧ r < 1 + ((ga.height - 1 - 1 : Nat) : Int))
              ∧ (c = 0 ∨ c = (ga.width : Int) - 1) then some CellValue.WALL
            else if 0 ≤ r ∧ r.toNat = 0 then some CellValue.WALL else some CellValue.EMPTY := by
        rw [c6 c r, vb]
        split
        · split
          · rfl
          · split <;> rfl
        · rfl
      have hgaw : ga.width = g1.width := by rw [a1, s2, hw]
      have hgah : ga.height = g1.height := by rw [a2, s3, hh]
      have hgbh : gb.height = g1.height := by rw [b2, hgah]
      rw [hgaw, hgah, hgbh] at v1
      obtain ⟨r1, r2, r3, r4⟩ := hr
      unfold Grid.OnBorder
      constructor
      · intro hb
        rw [v1]
        by_cases h1 : 0 ≤ r ∧ r.toNat = g1.height - 1
        · rw [if_pos h1]
        · rw [if_neg h1]
          by_cases h2 : ((1 : Int) ≤ r ∧ r < 1 + ((g1.height - 1 - 1 : Nat) : Int))
              ∧ (c = 0 ∨ c = (g1.width : Int) - 1)
          · rw [if_pos h2]
          · rw [if_neg h2]
            by_cases h3 : 0 ≤ r ∧ r.toNat = 0
            · rw [if_pos h3]
            · exfalso
              have h1a : ¬ (r.toNat = g1.height - 1) := fun hh => h1 ⟨r3, hh⟩
              have h3a : ¬ (r.toNat = 0) := fun hh => h3 ⟨r3, hh⟩
              apply h2
              refine ⟨⟨by omega, by omega⟩, ?_⟩
              rcases hb with hb | hb | hb | hb
              · exact Or.inl hb
              · exact Or.inr hb
              · omega
              · omega
      · intro hb
        push_neg at hb
        obtain ⟨hb1, hb2, hb3, hb4⟩ := hb
        rw [v1]
        have h1 : ¬ (0 ≤ r ∧ r.toNat = g1.height - 1) := by
          rintro ⟨_, hh⟩
          omega
        have h2 : ¬ (((1 : Int) ≤ r ∧ r < 1 + ((g1.height - 1 - 1 : Nat) : Int))
              ∧ (c = 0 ∨ c = (g1.width : Int) - 1)) := by
          rintro ⟨_, hh | hh⟩
          · exact hb1 hh
          · exact hb2 hh
        have h3 : ¬ (0 ≤ r ∧ r.toNat = 0) := by
          rintro ⟨_, hh⟩
          omega
        rw [if_neg h1, if_neg h2, if_neg h3]

theorem Grid.reset_isSome (g : Grid) (hw : 1 ≤ g.width) (hh : 1 ≤ g.height) :
    ∃ g1, g.reset = some g1 := by
  obtain ⟨s1, s2, s3, _, _, _⟩ := Grid.setupCells_spec g
  obtain ⟨ga, ha⟩ := Grid.fillRow_isSome g.setupCells 0
    (by rw [s1.1, s3]; omega) CellValue.WALL
  obtain ⟨a1, a2, _, a4, _, _⟩ := Grid.fillRow_spec ha
  obtain ⟨gb, hb⟩ := Grid.addSideWalls_isSome (ga.height - 1 - 1) ga 1 (a4 s1)
    (by rw [a1, s2]; exact hw) (by omega)
  obtain ⟨_, b2, _, b4, _, _⟩ := Grid.addSideWalls_spec _ _ _ _ hb
  obtain ⟨g1, h1⟩ := Grid.fillRow_isSome gb (gb.height - 1)
    (by rw [(b4 (a4 s1)).1, b2, a2, s3]; omega) CellValue.WALL
  exact ⟨g1, by simp only [Grid.reset, Grid.addOuterWalls, ha, hb, h1]⟩

/-! ## The invariant holds in every reachable state -/

theorem Inv.of_eq {s s1 : Game} (hinv : Inv s) (hg : s1.grid = s.grid)
    (hs : s1.snake = s.snake) : Inv s1 := by
  obtain ⟨h1, h2, h3, h4, h5, h6, h7⟩ := hinv
  constructor
  · rw [hg]; exact h1
  · rw [hs]; exact h2
  · rw [hg, hs]; exact h3
  · rw [hs]; exact h4
  · rw [hg, hs]; exact h5
  · rw [hg, hs]; exact h6
  · rw [hg, hs]; exact h7

/-- The state after `Snake.setupBodyParts` on a freshly reset grid, and an apple placement. -/
theorem Inv.of_setup {s s1 s2 s3 : Game} {draws : List (Int × Int)}
    (hshape : s.grid.WellShaped) (hcount : s.grid.countCells CellValue.SNAKE = 0)
    (hvel : s.grid.cellVelocities = [])
    (h1 : Snake.setupBodyParts s = some s1)
    (h2 : Game.spawnApple s2 draws = some s3)
    (hg : s2.grid = s1.grid) (hs : s2.snake = s1.snake) : Inv s3 := by
  unfold Snake.setupBodyParts at h1
  simp only at h1
  cases hset : s.grid.setCellValue (Int.ofNat (s.grid.width / 2))
      (Int.ofNat (s.grid.height / 2)) CellValue.SNAKE with
  | none =>
    rw [hset] at h1
    simp at h1
  | some g1 =>
    simp only [hset, Option.some.injEq] at h1
    subst h1
    simp only at hg hs
    obtain ⟨col, row, g3, _, hE, hset3, h3⟩ := Game.spawnApple_spec h2
    subst h3
    rw [hg] at hE hset3
    have sa := Grid.setCellValue_spec hset
    have sb := Grid.setCellValue_spec hset3
    obtain ⟨v0, hv0⟩ := sa.2.2.2.1
    have hv0ne : v0 ≠ CellValue.SNAKE := by
      intro hv
      have := Grid.countCells_pos hv0
      rw [hv, hcount] at this
      exact Nat.lt_irrefl 0 this
    have c1 := Grid.countCells_setCellValue hset hv0 CellValue.SNAKE
    have c2 := Grid.countCells_setCellValue hset3 hE CellValue.SNAKE
    simp only [hv0ne, if_false, if_true, reduceCtorEq] at c1 c2
    have hne : (Int.ofNat (s.grid.width / 2)) ≠ col ∨ (Int.ofNat (s.grid.height / 2)) ≠ row := by
      by_contra hc
      push_neg at hc
      have := sa.2.2.2.2.1
      rw [hc.1, hc.2, hE] at this
      simp at this
    have hparts : s2.snake.bodyParts
        = [⟨(Int.ofNat (s.grid.width / 2)), (Int.ofNat (s.grid.height / 2)), 0, 0⟩] := by
      rw [hs]; rfl
    constructor
    · exact Grid.setCellValue_wellShaped hset3 (Grid.setCellValue_wellShaped hset hshape)
    · simp only [hparts]; exact List.cons_ne_nil _ _
    · intro b hb
      simp only [hparts, List.mem_singleton] at hb
      subst hb
      show g3.getCellValue _ _ = _
      rw [sb.2.2.2.2.2 _ _ hne]
      exact sa.2.2.2.2.1
    · simp only [hparts, List.map_cons, List.map_nil, List.nodup_cons, List.not_mem_nil,
        not_false_eq_true, List.nodup_nil, and_self]
    · show g3.countCells CellValue.SNAKE = s2.snake.bodyParts.length
      rw [hparts]
      simp only [List.length_singleton]
      omega
    · simp only [hparts]
      exact List.chain'_singleton _
    · intro m hm
      have : g3.cellVelocities = [] := by rw [sb.2.2.1, sa.2.2.1, hvel]
      simp only [this, List.not_mem_nil] at hm

theorem Inv.connectedCallback {K : Constants} {draws : List (Int × Int)} {s : Game}
    (h : Game.connectedCallback K draws = some s) : Inv s := by
  unfold Game.connectedCallback Grid.new at h
  cases hr : Grid.reset ⟨K.WORLD_WIDTH, K.WORLD_HEIGHT, [], []⟩ with
  | none => simp [hr] at h
  | some g =>
    simp only [hr] at h
    obtain ⟨r1, _, _, r4, r5, _, _⟩ := Grid.reset_spec hr
    unfold Snake.reset at h
    split at h
    · simp at h
    · rename_i s1 h1
      exact Inv.of_setup r1 r5 r4 h1 h rfl rfl

theorem Inv.onRestart {K : Constants} {draws : List (Int × Int)} {s s1 : Game}
    (h : Game.onRestart K s draws = some s1) : Inv s1 := by
  unfold Game.onRestart at h
  cases hr : s.grid.reset with
  | none => simp [hr] at h
  | some g =>
    simp only [hr] at h
    obtain ⟨r1, _, _, r4, r5, _, _⟩ := Grid.reset_spec hr
    unfold Snake.reset at h
    split at h
    · simp at h
    · rename_i s2 h2
      exact Inv.of_setup (s := { s with grid := g }) r1 r5 r4 h2 h rfl rfl

theorem Snake.steer_pos (head : BodyPart) (code : String) :
    (Snake.steer head code).col = head.col ∧ (Snake.steer head code).row = head.row := by
  unfold Snake.steer
  split
  · exact ⟨rfl, rfl⟩
  · split
    · exact ⟨rfl, rfl⟩
    · split
      · exact ⟨rfl, rfl⟩
      · split
        · exact ⟨rfl, rfl⟩
        · exact ⟨rfl, rfl⟩

/-- The state after a turn: the head has a new velocity and, when the snake has more than one
body part, that velocity is stored at the head's cell. -/
theorem Inv.turn {s : Game} (hinv : Inv s) {head head1 : BodyPart} {rest : List BodyPart}
    (hparts : s.snake.bodyParts = head :: rest)
    (hc : head1.col = head.col) (hr : head1.row = head.row) {s1 : Game}
    (hs : s1.snake.bodyParts = head1 :: rest)
    (hg : s1.grid = if rest.length + 1 > 1 then s.grid.setCellVelocity head1 else s.grid) :
    Inv s1 := by
  obtain ⟨i1, i2, i3, i4, i5, i6, i7⟩ := hinv
  rw [hparts] at i3 i4 i5 i6 i7
  have hpos : head1.pos = head.pos := Prod.ext hc hr
  have hcells : s1.grid.cells = s.grid.cells := by
    rw [hg]
    split
    · exact (Grid.setCellVelocity_cells _ _).1
    · rfl
  have hdims : s1.grid.width = s.grid.width ∧ s1.grid.height = s.grid.height := by
    rw [hg]
    split
    · exact (Grid.setCellVelocity_cells _ _).2
    · exact ⟨rfl, rfl⟩
  have hval : ∀ c r, s1.grid.getCellValue c r = s.grid.getCellValue c r :=
    fun c r => Grid.getCellValue_congr hcells c r
  constructor
  · exact ⟨by rw [hcells, hdims.2]; exact i1.1, by rw [hcells, hdims.1]; exact i1.2⟩
  · rw [hs]; exact List.cons_ne_nil _ _
  · intro b hb
    rw [hs] at hb
    rw [hval]
    simp only [List.mem_cons] at hb
    rcases hb with hb | hb
    · subst hb
      rw [hc, hr]
      exact i3 head (List.mem_cons_self _ _)
    · exact i3 b (List.mem_cons_of_mem _ hb)
  · rw [hs]
    simp only [List.map_cons, hpos]
    exact i4
  · rw [hs]
    unfold Grid.countCells
    rw [hcells]
    exact i5
  · rw [hs]
    cases rest with
    | nil => exact List.chain'_singleton _
    | cons y l =>
      have hg1 : s1.grid = s.grid.setCellVelocity head1 := by
        rw [hg]
        simp
      rw [List.chain'_cons] at i6 ⊢
      obtain ⟨⟨l1, l2, _, _⟩, hrest⟩ := i6
      obtain ⟨m, hm, _, _, hmx, hmy⟩ := Grid.getCellVelocity_setCellVelocity_same s.grid head1
      constructor
      · refine ⟨by rw [hc]; exact l1, by rw [hr]; exact l2, ?_, ?_⟩
        · intro m1 hm1
          rw [hg1, hm] at hm1
          simp only [Option.some.injEq] at hm1
          subst hm1
          exact ⟨hmx, hmy⟩
        · intro hnone
          rw [hg1, hm] at hnone
          simp at hnone
      · have h1 := List.Chain'.iff_mem.1 hrest
        refine List.Chain'.imp ?_ h1
        intro a b ⟨ha, _, hab⟩
        apply Link.of_lookup_eq _ hab
        rw [hg1]
        apply Grid.getCellVelocity_setCellVelocity_other
        by_contra hcontra
        push_neg at hcontra
        have hap : a.pos = head.pos := Prod.ext (hcontra.1.trans hc) (hcontra.2.trans hr)
        simp only [List.map_cons, List.nodup_cons] at i4
        exact i4.1 (hap ▸ List.mem_map_of_mem BodyPart.pos ha)
  · intro m hm
    rw [hs]
    cases rest with
    | nil =>
      have hg1 : s1.grid = s.grid := by
        rw [hg]
        simp
      rw [hg1] at hm
      obtain ⟨b, hb, _⟩ := i7 m hm
      simp at hb
    | cons y l =>
      have hg1 : s1.grid = s.grid.setCellVelocity head1 := by
        rw [hg]
        simp
      rw [hg1] at hm
      rw [List.dropLast_cons₂]
      rcases Grid.mem_setCellVelocity hm with h1 | ⟨m0, hm0, h2⟩
      · exact ⟨head1, List.mem_cons_self _ _, h1.1.symm, h1.2.symm⟩
      · obtain ⟨b, hb, hbc⟩ := i7 m0 hm0
        rw [List.dropLast_cons₂] at hb
        simp only [List.mem_cons] at hb
        rcases hb with hb | hb
        · subst hb
          exact ⟨head1, List.mem_cons_self _ _, by rw [hc, hbc.1, h2.1], by rw [hr, hbc.2, h2.2]⟩
        · exact ⟨b, List.mem_cons_of_mem _ hb, by rw [hbc.1, h2.1], by rw [hbc.2, h2.2]⟩

theorem Snake.moveAll_none_of_outside {s : Game} {head : BodyPart} {rest : List BodyPart}
    (hparts : s.snake.bodyParts = head :: rest)
    (hv : ¬ (head.velocityX = 0 ∧ head.velocityY = 0))
    (hq : s.grid.getCellValue (head.col + head.velocityX) (head.row + head.velocityY) = none) :
    Snake.moveAll s = none := by
  cases hm : Snake.moveBodyPart s.grid (head :: rest).length 0 head with
  | none => simp only [Snake.moveAll, hparts, Snake.moveBodyParts, hm]
  | some r =>
    exfalso
    obtain ⟨g1, b1⟩ := r
    obtain ⟨ga, gb, hga, hgb, _⟩ := Snake.moveBodyPart_inv hm
    have sa := Grid.setCellValue_spec hga
    have sb := Grid.setCellValue_spec hgb
    obtain ⟨v0, hv0⟩ := sb.2.2.2.1
    have hne : head.col + head.velocityX ≠ head.col ∨ head.row + head.velocityY ≠ head.row := by
      by_contra hc
      push_neg at hc
      apply hv
      constructor <;> omega
    rw [sa.2.2.2.2.2 _ _ hne, hq] at hv0
    simp at hv0

theorem Inv.update {K : Constants} {s s1 : Game} {draws : List (Int × Int)} (hinv : Inv s)
    (h : Snake.update K s draws = some s1) : Inv s1 := by
  cases hparts : s.snake.bodyParts with
  | nil => exact absurd hparts hinv.nonempty
  | cons head rest =>
    simp only [Snake.update, hparts] at h
    by_cases hv : head.velocityX = 0 ∧ head.velocityY = 0
    · rw [if_pos hv] at h
      simp only [Option.some.injEq] at h
      subst h
      exact hinv
    · rw [if_neg hv] at h
      cases hq : s.grid.getCellValue (head.col + head.velocityX) (head.row + head.velocityY) with
      | none =>
        rw [hq] at h
        simp only at h
        rw [Snake.moveAll_none_of_outside hparts hv hq] at h
        simp at h
      | some v =>
        rw [hq] at h
        cases v with
        | EMPTY =>
          simp only at h
          obtain ⟨g1, hmove, hinv1, _⟩ := Snake.moveAll_spec hinv hparts hq
          rw [hmove] at h
          simp only [Option.some.injEq] at h
          subst h
          exact hinv1
        | WALL =>
          simp only [Option.some.injEq] at h
          subst h
          exact Inv.of_eq hinv rfl rfl
        | SNAKE =>
          simp only [Option.some.injEq] at h
          subst h
          exact Inv.of_eq hinv rfl rfl
        | APPLE =>
          simp only at h
          split at h
          · simp at h
          · rename_i s3 heat
            have htail : (head :: rest).getLast? = some ((head :: rest).getLast
                (List.cons_ne_nil head rest)) := List.getLast?_eq_getLast _ _
            obtain ⟨g1, ac, ar, hmove, hinv1, _⟩ := Snake.grow_spec hinv hparts htail hq heat
            rw [hmove] at h
            simp only [Option.some.injEq] at h
            subst h
            exact hinv1

/-- An accepted turn, computed. -/
theorem Snake.setVelocity_turn {K : Constants} {s : Game} {code : String}
    {draws : List (Int × Int)} {head : BodyPart} {rest : List BodyPart}
    (hover : s.isGameOver = false) (hparts : s.snake.bodyParts = head :: rest)
    (hdiff : ¬ ((Snake.steer head code).velocityX = head.velocityX
      ∧ (Snake.steer head code).velocityY = head.velocityY)) :
    Snake.setVelocity K s code draws
      = some { s with
          isPlaying := true
          snake := { bodyParts := Snake.steer head code :: rest }
          grid := if rest.length + 1 > 1 then s.grid.setCellVelocity (Snake.steer head code)
            else s.grid } := by
  unfold Snake.setVelocity
  simp only [hover, Bool.false_eq_true, if_false, hparts]
  rw [if_neg hdiff]
  cases hplay : s.isPlaying
  · by_cases hlen : rest.length + 1 > 1
    · simp only [Bool.false_eq_true, not_false_eq_true, if_true, Game.onGameStart,
        List.length_cons, hlen]
    · simp only [Bool.false_eq_true, not_false_eq_true, if_true, Game.onGameStart,
        List.length_cons, hlen, if_false]
  · by_cases hlen : rest.length + 1 > 1
    · simp only [not_true_eq_false, if_false, List.length_cons, hlen, if_true, hplay]
    · simp only [not_true_eq_false, if_false, List.length_cons, hlen, hplay]

theorem Inv.setVelocity {K : Constants} {s s1 : Game} {code : String}
    {draws : List (Int × Int)} (hinv : Inv s)
    (h : Snake.setVelocity K s code draws = some s1) : Inv s1 := by
  by_cases hover : s.isGameOver = true
  · unfold Snake.setVelocity at h
    rw [if_pos hover] at h
    by_cases hspace : code = "Space"
    · rw [if_pos hspace] at h
      exact Inv.onRestart h
    · rw [if_neg hspace] at h
      simp only [Option.some.injEq] at h
      subst h
      exact hinv
  · cases hparts : s.snake.bodyParts with
    | nil => exact absurd hparts hinv.nonempty
    | cons head rest =>
      by_cases hsame : (Snake.steer head code).velocityX = head.velocityX
          ∧ (Snake.steer head code).velocityY = head.velocityY
      · unfold Snake.setVelocity at h
        rw [if_neg hover, hparts] at h
        simp only at h
        rw [if_pos hsame] at h
        simp only [Option.some.injEq] at h
        subst h
        exact hinv
      · have hover1 : s.isGameOver = false := by simpa using hover
        rw [Snake.setVelocity_turn hover1 hparts hsame] at h
        simp only [Option.some.injEq] at h
        subst h
        have hpos := Snake.steer_pos head code
        exact Inv.turn hinv hparts hpos.1 hpos.2 rfl rfl

theorem Inv.gameUpdate {K : Constants} {s s1 : Game} {timestamp : Int}
    {draws : List (Int × Int)} (hinv : Inv s)
    (h : Game.update K s timestamp draws = some s1) : Inv s1 := by
  unfold Game.update at h
  simp only at h
  generalize hs0 : (if s.lastUpdated = none ∨ s.lastUpdated = some 0
      then { s with lastUpdated := some timestamp } else s) = s0 at h
  have hinv0 : Inv s0 := by
    rw [← hs0]
    by_cases hlu : s.lastUpdated = none ∨ s.lastUpdated = some 0
    · rw [if_pos hlu]
      exact Inv.of_eq hinv rfl rfl
    · rw [if_neg hlu]
      exact hinv
  by_cases hdelay : timestamp - s0.lastUpdated.getD 0 < s0.updateDelay
  · rw [if_pos hdelay] at h
    simp only [Option.some.injEq] at h
    subst h
    exact hinv0
  · rw [if_neg hdelay] at h
    by_cases hover : s0.isGameOver = true
    · simp only [hover, not_true_eq_false, if_false, Option.some.injEq] at h
      subst h
      exact Inv.of_eq hinv0 rfl rfl
    · rw [if_pos hover] at h
      cases hu : Snake.update K s0 draws with
      | none =>
        rw [hu] at h
        simp at h
      | some s2 =>
        rw [hu] at h
        simp only [Option.some.injEq] at h
        subst h
        exact Inv.of_eq (Inv.update hinv0 hu) rfl rfl

/-- Every reachable state satisfies the invariant. -/
theorem Reachable.inv {K : Constants} {s : Game} (h : Reachable K s) : Inv s := by
  induction h with
  | fresh draws s h => exact Inv.connectedCallback h
  | key s s1 code draws _ h ih => exact Inv.setVelocity ih h
  | tick s s1 draws _ h ih => exact Inv.update ih h
  | frame s s1 timestamp draws _ h ih => exact Inv.gameUpdate ih h

/-! ## Key handling -/

theorem Snake.steer_keyVectors (head : BodyPart) (code : String) (vx vy : Int)
    (h : (code, vx, vy) ∈ keyVectors) :
    Snake.steer head code = { head with velocityX := vx, velocityY := vy } := by
  simp only [keyVectors, List.mem_cons, Prod.mk.injEq, List.mem_singleton, List.not_mem_nil,
    or_false] at h
  rcases h with ⟨rfl, rfl, rfl⟩ | ⟨rfl, rfl, rfl⟩ | ⟨rfl, rfl, rfl⟩ | ⟨rfl, rfl, rfl⟩ |
    ⟨rfl, rfl, rfl⟩ | ⟨rfl, rfl, rfl⟩ | ⟨rfl, rfl, rfl⟩ | ⟨rfl, rfl, rfl⟩ <;>
  simp [Snake.steer]

theorem Snake.steer_other (head : BodyPart) (code : String)
    (h : code ∉ keyVectors.map Prod.fst) : Snake.steer head code = head := by
  simp only [keyVectors, List.map_cons, List.map_nil, List.mem_cons, List.mem_singleton,
    List.not_mem_nil, or_false, not_or] at h
  obtain ⟨h1, h2, h3, h4, h5, h6, h7, h8⟩ := h
  simp [Snake.steer, h1, h2, h3, h4, h5, h6, h7, h8]

theorem Snake.head_eq_some {sn : Snake} {head : BodyPart} (h : sn.head = some head) :
    sn.bodyParts = head :: sn.bodyParts.tail := by
  unfold Snake.head at h
  cases hb : sn.bodyParts with
  | nil => rw [hb] at h; simp at h
  | cons x xs =>
    rw [hb] at h
    simp only [List.head?_cons, Option.some.injEq] at h
    subst h
    rfl

/-- C2 (collision correctness).  In every state whose head has a non-zero velocity and whose
next cell `(head.col + head.velocityX, head.row + head.velocityY)` holds `WALL` or `SNAKE`,
`Snake.update` returns, signals game-over (`isGameOver` true, `isPlaying` false) and leaves the
snake (the number of body parts, their positions and velocities) and the grid (all cell values
and the stored velocities) as they were. -/
theorem collision_correctness (K : Constants) (s : Game) (draws : List (Int × Int))
    (head : BodyPart) (hhead : s.snake.head = some head)
    (hv : ¬ (head.velocityX = 0 ∧ head.velocityY = 0))
    (hq : s.grid.getCellValue (head.col + head.velocityX) (head.row + head.velocityY)
        = some CellValue.WALL
      ∨ s.grid.getCellValue (head.col + head.velocityX) (head.row + head.velocityY)
        = some CellValue.SNAKE) :
    ∃ s1, Snake.update K s draws = some s1 ∧ s1.isGameOver = true ∧ s1.isPlaying = false
      ∧ s1.snake = s.snake ∧ s1.grid = s.grid := by
  have hparts := Snake.head_eq_some hhead
  refine ⟨Game.onGameOver s, ?_, rfl, rfl, rfl, rfl⟩
  unfold Snake.update
  rw [hparts]
  simp only
  rw [if_neg hv]
  rcases hq with hq | hq <;> rw [hq]

/-- C7 (accepted turn).  In every state that is not game-over, a direction key whose vector
differs from the head's velocity gives the head that vector and sets `isPlaying`; the positions
of all body parts, the velocities of the others and all cell values stay as they were.  With
more than one body part the lookup of the stored velocity at the head's cell then returns the
new velocity and the lookups at all other coordinates are as before; with exactly one body part
the stored velocities are unchanged. -/
theorem accepted_turn (K : Constants) (s : Game) (code : String) (draws : List (Int × Int))
    (head : BodyPart) (vx vy : Int) (hover : s.isGameOver = false)
    (hhead : s.snake.head = some head) (hkey : (code, vx, vy) ∈ keyVectors)
    (hdiff : ¬ (vx = head.velocityX ∧ vy = head.velocityY)) :
    ∃ s1, Snake.setVelocity K s code draws = some s1
      ∧ s1.snake.bodyParts
          = { head with velocityX := vx, velocityY := vy } :: s.snake.bodyParts.tail
      ∧ s1.isPlaying = true
      ∧ s1.grid.cells = s.grid.cells
      ∧ (s.snake.bodyParts.length > 1 →
          (∃ m, s1.grid.getCellVelocity head.col head.row = some m
            ∧ m.velocityX = vx ∧ m.velocityY = vy)
          ∧ ∀ c r, (c ≠ head.col ∨ r ≠ head.row) →
              s1.grid.getCellVelocity c r = s.grid.getCellVelocity c r)
      ∧ (s.snake.bodyParts.length = 1 → s1.grid.cellVelocities = s.grid.cellVelocities) := by
  have hparts := Snake.head_eq_some hhead
  have hsteer := Snake.steer_keyVectors head code vx vy hkey
  have hdiff1 : ¬ ((Snake.steer head code).velocityX = head.velocityX
      ∧ (Snake.steer head code).velocityY = head.velocityY) := by
    rw [hsteer]
    exact hdiff
  have hlen : s.snake.bodyParts.length = s.snake.bodyParts.tail.length + 1 := by
    conv_lhs => rw [hparts]
    rfl
  refine ⟨_, Snake.setVelocity_turn hover hparts hdiff1, ?_, rfl, ?_, ?_, ?_⟩
  · simp only [hsteer]
  · simp only
    split
    · exact (Grid.setCellVelocity_cells _ _).1
    · rfl
  · intro hgt
    have hgt1 : s.snake.bodyParts.tail.length + 1 > 1 := by omega
    simp only [hgt1, if_true, hsteer]
    constructor
    · obtain ⟨m, hm, _, _, hmx, hmy⟩ := Grid.getCellVelocity_setCellVelocity_same s.grid
        { head with velocityX := vx, velocityY := vy }
      exact ⟨m, hm, hmx, hmy⟩
    · intro c r hcr
      exact Grid.getCellVelocity_setCellVelocity_other s.grid _ c r hcr
  · intro h1
    have hgt1 : ¬ (s.snake.bodyParts.tail.length + 1 > 1) := by omega
    simp only [hgt1, if_false]

/-- C8 (ignored input).  In every state that is not game-over, a key that is none of the eight
direction codes, or a direction key whose vector is the head's current velocity, leaves the
whole state as it was: body parts, cell values, stored velocities and `isPlaying` (no game
start, no restart). -/
theorem ignored_input (K : Constants) (s : Game) (code : String) (draws : List (Int × Int))
    (head : BodyPart) (hover : s.isGameOver = false) (hhead : s.snake.head = some head)
    (hkey : code ∉ keyVectors.map Prod.fst
      ∨ (code, head.velocityX, head.velocityY) ∈ keyVectors) :
    Snake.setVelocity K s code draws = some s := by
  have hparts := Snake.head_eq_some hhead
  have hsame : (Snake.steer head code).velocityX = head.velocityX
      ∧ (Snake.steer head code).velocityY = head.velocityY := by
    rcases hkey with hkey | hkey
    · rw [Snake.steer_other head code hkey]
      exact ⟨rfl, rfl⟩
    · rw [Snake.steer_keyVectors head code _ _ hkey]
      exact ⟨rfl, rfl⟩
  unfold Snake.setVelocity
  simp only [hover, Bool.false_eq_true, if_false]
  rw [hparts]
  simp only
  rw [if_pos hsame]

/-- C9 (no movement while game-over).  In every state with `isGameOver` true, a key other than
`Space` leaves the whole state as it was (no change of the head's velocity, of any body part, of
the cells or the stored velocities, no game start), and the animation frame `Game.update`
changes nothing but `lastUpdated`: it does not run `Snake.update`. -/
theorem no_movement_while_game_over (K : Constants) (s : Game) (code : String)
    (draws : List (Int × Int)) (timestamp : Int) (hover : s.isGameOver = true)
    (hcode : code ≠ "Space") :
    Snake.setVelocity K s code draws = some s
      ∧ ∃ lastUpdated, Game.update K s timestamp draws
          = some { s with lastUpdated := lastUpdated } := by
  constructor
  · unfold Snake.setVelocity
    rw [if_pos hover, if_neg hcode]
  · obtain ⟨l0, hs0⟩ : ∃ l0, (if s.lastUpdated = none ∨ s.lastUpdated = some 0
        then { s with lastUpdated := some timestamp } else s) = { s with lastUpdated := l0 } := by
      split
      · exact ⟨_, rfl⟩
      · exact ⟨s.lastUpdated, rfl⟩
    unfold Game.update
    simp only
    rw [hs0]
    simp only
    by_cases hdelay : timestamp - l0.getD 0 < s.updateDelay
    · rw [if_pos hdelay]
      exact ⟨l0, rfl⟩
    · rw [if_neg hdelay, if_neg (not_not.2 hover)]
      exact ⟨some timestamp, rfl⟩

/-! ## Growth -/

theorem forall₂_concat_left {α β : Type} {R : α → β → Prop} {a : α} :
    ∀ (xs : List α) (ys : List β), List.Forall₂ R (xs ++ [a]) ys →
      ∃ ys1 b, ys = ys1 ++ [b] ∧ List.Forall₂ R xs ys1 ∧ R a b := by
  intro xs
  induction xs with
  | nil =>
    intro ys h
    cases h with
    | cons hab htl =>
      cases htl
      exact ⟨[], _, rfl, List.Forall₂.nil, hab⟩
  | cons x xs ih =>
    intro ys h
    cases h with
    | cons hxy htl =>
      obtain ⟨ys1, b, e, h1, h2⟩ := ih _ htl
      subst e
      exact ⟨_ :: ys1, b, rfl, List.Forall₂.cons hxy h1, h2⟩

/-- C3 (growth correctness).  In every state whose head has a non-zero velocity and whose next
cell holds `APPLE`: whenever `Snake.update` returns, the body parts afterwards are the earlier
ones in their order, each advanced by its velocity, followed by one new body part whose
position is the position the tail had before the update (so there is exactly one more); and
`Snake.update` does return when the cell accesses lie inside the grid and the draws of
`Game.spawnApple` reach an `EMPTY` cell. -/
theorem growth_correctness (K : Constants) (s : Game) (draws : List (Int × Int))
    (head tail : BodyPart) (hhead : s.snake.head = some head) (htail : s.snake.tail = some tail)
    (hv : ¬ (head.velocityX = 0 ∧ head.velocityY = 0))
    (hq : s.grid.getCellValue (head.col + head.velocityX) (head.row + head.velocityY)
      = some CellValue.APPLE) :
    (∀ s1, Snake.update K s draws = some s1 →
        ∃ moved newTail, s1.snake.bodyParts = moved ++ [newTail]
          ∧ List.Forall₂ Advanced s.snake.bodyParts moved
          ∧ s1.snake.bodyParts.length = s.snake.bodyParts.length + 1
          ∧ newTail.col = tail.col ∧ newTail.row = tail.row)
      ∧ (s.grid.WellShaped →
          (∀ b ∈ s.snake.bodyParts, s.grid.InRange b.col b.row
            ∧ s.grid.InRange (b.col + b.velocityX) (b.row + b.velocityY)) →
          (∃ a, Game.spawnAppleLoop s.grid 0 0 draws = some a) →
          ∃ s1, Snake.update K s draws = some s1) := by
  have hparts := Snake.head_eq_some hhead
  generalize s.snake.bodyParts.tail = rest at hparts
  have htail1 : (head :: rest).getLast (List.cons_ne_nil head rest) = tail := by
    unfold Snake.tail at htail
    rw [hparts, List.getLast?_eq_getLast _ (List.cons_ne_nil head rest)] at htail
    exact Option.some.inj htail
  have hupd : Snake.update K s draws =
      (Game.onAppleEaten K
        { s with
          grid := s.grid.setCellVelocity tail
          snake := Snake.addBodyPart s.snake
            { col := tail.col, row := tail.row, velocityX := 0, velocityY := 0 } } draws).bind
        Snake.moveAll := by
    simp only [Snake.update, hparts, hv, if_false, hq, htail1]
    split
    · rename_i heq
      rw [heq]
      rfl
    · rename_i s3 heq
      rw [heq]
      rfl
  rw [hupd]
  constructor
  · intro s1 h
    cases heat : Game.onAppleEaten K
        { s with
          grid := s.grid.setCellVelocity tail
          snake := Snake.addBodyPart s.snake
            { col := tail.col, row := tail.row, velocityX := 0, velocityY := 0 } } draws with
    | none => rw [heat] at h; simp at h
    | some s3 =>
      rw [heat] at h
      simp only [Option.some_bind] at h
      obtain ⟨_, _, _, _, _, hsn, _⟩ := Game.onAppleEaten_spec heat
      simp only [Snake.addBodyPart, hparts] at hsn
      unfold Snake.moveAll at h
      cases hloop : Snake.moveBodyParts s3.snake.bodyParts.length s3.grid 0 s3.snake.bodyParts with
      | none => rw [hloop] at h; simp at h
      | some r =>
        obtain ⟨g1, parts⟩ := r
        rw [hloop] at h
        simp only [Option.some.injEq] at h
        subst h
        have hadv := (Snake.moveBodyParts_advanced _ _ _ _ _ _ hloop).1
        rw [hsn] at hadv
        obtain ⟨moved, newTail, e, h1, h2⟩ := forall₂_concat_left _ _ hadv
        refine ⟨moved, newTail, e, by rw [hparts]; exact h1, ?_, ?_, ?_⟩
        · simp only [e, List.length_append, List.length_singleton, hparts]
          rw [← List.Forall₂.length_eq h1]
        · rw [h2.1]; simp
        · rw [h2.2]; simp
  · intro hshape hrange hspawn
    obtain ⟨a, ha⟩ := hspawn
    have hsc := Grid.setCellVelocity_cells s.grid tail
    have ha1 : Game.spawnAppleLoop (s.grid.setCellVelocity tail) 0 0 draws = some a := by
      rw [Game.spawnAppleLoop_congr hsc.1]
      exact ha
    obtain ⟨s3, heat⟩ := Game.onAppleEaten_isSome K
      (s := { s with
          grid := s.grid.setCellVelocity tail
          snake := Snake.addBodyPart s.snake
            { col := tail.col, row := tail.row, velocityX := 0, velocityY := 0 } }) ha1
    rw [heat]
    simp only [Option.some_bind]
    obtain ⟨_, _, _, _, hset, hsn, _⟩ := Game.onAppleEaten_spec heat
    simp only [Snake.addBodyPart] at hsn hset
    have sg := Grid.setCellValue_spec hset
    have hshape3 : s3.grid.WellShaped := by
      apply Grid.setCellValue_wellShaped hset
      exact ⟨by rw [hsc.1, hsc.2.2]; exact hshape.1, by rw [hsc.1, hsc.2.1]; exact hshape.2⟩
    have hdims : s3.grid.width = s.grid.width ∧ s3.grid.height = s.grid.height :=
      ⟨by rw [sg.1, hsc.2.1], by rw [sg.2.1, hsc.2.2]⟩
    have htail_mem : tail ∈ s.snake.bodyParts := by
      unfold Snake.tail at htail
      exact List.mem_of_getLast?_eq_some htail
    have hrange3 : ∀ b ∈ s3.snake.bodyParts, s3.grid.InRange b.col b.row
        ∧ s3.grid.InRange (b.col + b.velocityX) (b.row + b.velocityY) := by
      intro b hb
      rw [hsn] at hb
      unfold Grid.InRange
      rw [hdims.1, hdims.2]
      simp only [List.mem_append, List.mem_singleton] at hb
      rcases hb with hb | hb
      · exact hrange b hb
      · subst hb
        simp only [add_zero, and_self]
        exact (hrange tail htail_mem).1
    obtain ⟨⟨g1, parts⟩, hr⟩ := Snake.moveBodyParts_isSome s3.snake.bodyParts.length
      s3.snake.bodyParts s3.grid 0 hshape3 hrange3
    exact ⟨{ s3 with grid := g1, snake := { bodyParts := parts } },
      by simp only [Snake.moveAll, hr]⟩

/-- C4 as stated fails: after the second tick of the scenario the middle body part is not at
(5,5) with the stored velocity still present. -/
theorem turn_propagation_counterexample :
    ¬ ((Game.run scenarioConstants turnStart
          [Event.key "KeyW" [], Event.tick [], Event.tick []]).map
        (fun s => (s.snake.bodyParts[1]?, s.grid.getCellVelocity 5 5))
          = some (some ⟨5, 5, 0, 1⟩, some ⟨5, 5, 0, 1⟩)) := by
  decide

/-- C4 (turn-propagation scenario), as the code has it.  From `turnStart` the key `KeyW` stores
the velocity (0,1) at (5,5).  After the first tick the head is at (5,6) with velocity (0,1) and
the middle body part is already at (5,5) with velocity (0,1), the stored velocity still being
there.  After the second tick the middle body part is at (5,6), the tail is at (5,5) with
velocity (0,1), and no velocity is stored at (5,5).  After the third tick the tail is
at (5,6). -/
theorem turn_propagation_scenario :
    (Game.run scenarioConstants turnStart [Event.key "KeyW" []]).map
        (fun s => s.grid.cellVelocities) = some [⟨5, 5, 0, 1⟩]
      ∧ (Game.run scenarioConstants turnStart [Event.key "KeyW" [], Event.tick []]).map
        (fun s => (s.snake.bodyParts, s.grid.getCellVelocity 5 5))
          = some ([⟨5, 6, 0, 1⟩, ⟨5, 5, 0, 1⟩, ⟨4, 5, 1, 0⟩], some ⟨5, 5, 0, 1⟩)
      ∧ (Game.run scenarioConstants turnStart
          [Event.key "KeyW" [], Event.tick [], Event.tick []]).map
        (fun s => (s.snake.bodyParts, s.grid.getCellVelocity 5 5))
          = some ([⟨5, 7, 0, 1⟩, ⟨5, 6, 0, 1⟩, ⟨5, 5, 0, 1⟩], none)
      ∧ (Game.run scenarioConstants turnStart
          [Event.key "KeyW" [], Event.tick [], Event.tick [], Event.tick []]).map
        (fun s => (s.snake.bodyParts, s.grid.cellVelocities))
          = some ([⟨5, 8, 0, 1⟩, ⟨5, 7, 0, 1⟩, ⟨5, 6, 0, 1⟩], []) := by
  decide

/-- C5 as stated fails: after the tick of `appleStart` that eats the apple, the appended tail at
(5,5) does not have velocity (0,0) with the velocity (1,0) stored at (5,5). -/
theorem apple_scenario_counterexample :
    ¬ ((Game.run scenarioConstants appleStart [Event.tick [(3, 3)]]).map
        (fun s => (s.snake.tail, s.grid.getCellVelocity 5 5))
          = some (some ⟨5, 5, 0, 0⟩, some ⟨5, 5, 1, 0⟩)) := by
  decide

/-- C5 (apple-eating scenario), as the code has it.  After the tick of `appleStart` that eats the
apple the snake has two body parts, the head at (6,5) and the appended tail at (5,5); the tail
has already adopted the velocity (1,0) that the tick stored at (5,5), and that stored velocity
is removed again in the same tick.  On the following tick the tail moves to (6,5) with
velocity (1,0), and still no velocity is stored. -/
theorem apple_scenario :
    (Game.run scenarioConstants appleStart [Event.tick [(3, 3)]]).map
        (fun s => (s.snake.bodyParts, s.grid.getCellVelocity 5 5))
          = some ([⟨6, 5, 1, 0⟩, ⟨5, 5, 1, 0⟩], none)
      ∧ (Game.run scenarioConstants appleStart [Event.tick [(3, 3)], Event.tick []]).map
        (fun s => (s.snake.bodyParts, s.grid.cellVelocities))
          = some ([⟨7, 5, 1, 0⟩, ⟨6, 5, 1, 0⟩], []) := by
  decide

/-! ## Reachable states -/

theorem Reachable.of_run {K : Constants} :
    ∀ (events : List Event) (s s1 : Game), Reachable K s → Game.run K s events = some s1 →
      Reachable K s1 := by
  intro events
  induction events with
  | nil =>
    intro s s1 hs h
    simp only [Game.run, Option.some.injEq] at h
    subst h
    exact hs
  | cons e es ih =>
    intro s s1 hs h
    simp only [Game.run] at h
    cases hstep : Game.step K s e with
    | none => rw [hstep] at h; simp at h
    | some s2 =>
      rw [hstep] at h
      simp only at h
      refine ih s2 s1 ?_ h
      cases e with
      | key code draws => exact Reachable.key s s2 code draws hs hstep
      | tick draws => exact Reachable.tick s s2 draws hs hstep
      | frame timestamp draws => exact Reachable.frame s s2 timestamp draws hs hstep

theorem Reachable.of_play {K : Constants} {draws : List (Int × Int)} {events : List Event}
    {s : Game} (h : Game.play K draws events = some s) : Reachable K s := by
  unfold Game.play at h
  cases hc : Game.connectedCallback K draws with
  | none => rw [hc] at h; simp at h
  | some s0 =>
    rw [hc] at h
    exact Reachable.of_run events s0 s (Reachable.fresh draws s0 hc) h

theorem sampleTurned_reachable : Reachable sampleConstants sampleTurned :=
  Reachable.of_play (by decide : Game.play sampleConstants [(3, 2)] sampleEvents = some sampleTurned)

/-- C1 (segment-cell uniqueness).  After every tick (`Snake.update`) from a state that is
reachable from a fresh game by key events, ticks and frames, with the apple placements they
contain, every body part's cell holds `SNAKE`, no two body parts share a cell, and the number of
cells that hold `SNAKE` is the number of body parts. -/
theorem segment_cell_uniqueness (K : Constants) (s s1 : Game) (draws : List (Int × Int))
    (hreach : Reachable K s) (htick : Snake.update K s draws = some s1) :
    (∀ b ∈ s1.snake.bodyParts, s1.grid.getCellValue b.col b.row = some CellValue.SNAKE)
      ∧ (s1.snake.bodyParts.map BodyPart.pos).Nodup
      ∧ s1.grid.countCells CellValue.SNAKE = s1.snake.bodyParts.length := by
  have hinv := Inv.update hreach.inv htick
  exact ⟨hinv.cells, hinv.nodup, hinv.count⟩

/-- C1 at the sample game: the tick from `sampleTurned` that eats the apple. -/
theorem segment_cell_uniqueness_witness :
    Reachable sampleConstants sampleTurned
      ∧ Snake.update sampleConstants sampleTurned [(1, 1)] = some sampleGrown
      ∧ (∀ b ∈ sampleGrown.snake.bodyParts,
          sampleGrown.grid.getCellValue b.col b.row = some CellValue.SNAKE)
      ∧ (sampleGrown.snake.bodyParts.map BodyPart.pos).Nodup
      ∧ sampleGrown.grid.countCells CellValue.SNAKE = sampleGrown.snake.bodyParts.length :=
  ⟨sampleTurned_reachable, by decide,
    segment_cell_uniqueness sampleConstants sampleTurned sampleGrown [(1, 1)]
      sampleTurned_reachable (by decide)⟩

/-- C6 (marker consumption), as the code has it.  In every reachable state every stored velocity
lies on the cell of a body part other than the tail; and whenever the head's velocity is
non-zero, its next cell holds `EMPTY` (a move without growth) and the tail's next cell holds a
stored velocity, `Snake.update` returns a state in which the tail is on that cell, has the stored
velocity, and the grid holds no stored velocity at that coordinate. -/
theorem marker_consumption (K : Constants) (s : Game) (hreach : Reachable K s) :
    (∀ m ∈ s.grid.cellVelocities,
        ∃ b ∈ s.snake.bodyParts.dropLast, b.col = m.col ∧ b.row = m.row)
      ∧ ∀ (draws : List (Int × Int)) (head tail m : BodyPart),
          s.snake.head = some head → s.snake.tail = some tail →
          ¬ (head.velocityX = 0 ∧ head.velocityY = 0) →
          s.grid.getCellValue (head.col + head.velocityX) (head.row + head.velocityY)
            = some CellValue.EMPTY →
          s.grid.getCellVelocity (tail.col + tail.velocityX) (tail.row + tail.velocityY)
            = some m →
          ∃ s1 tail1, Snake.update K s draws = some s1 ∧ s1.snake.tail = some tail1
            ∧ tail1.col = tail.col + tail.velocityX ∧ tail1.row = tail.row + tail.velocityY
            ∧ tail1.velocityX = m.velocityX ∧ tail1.velocityY = m.velocityY
            ∧ s1.grid.getCellVelocity tail1.col tail1.row = none := by
  have hinv := hreach.inv
  refine ⟨hinv.markers, ?_⟩
  intro draws head tail m hhead htail hv hq hm
  have hparts := Snake.head_eq_some hhead
  generalize s.snake.bodyParts.tail = rest at hparts
  obtain ⟨g1, hmove, _, _, _, hdrop⟩ := Snake.moveAll_spec hinv hparts hq
  have hupd : Snake.update K s draws = Snake.moveAll s := by
    simp only [Snake.update, hparts, hv, if_false, hq]
  unfold Snake.tail at htail
  rw [hparts] at htail
  cases rest with
  | nil =>
    exfalso
    simp only [List.getLast?_singleton, Option.some.injEq] at htail
    subst htail
    have hnone : s.grid.getCellVelocity (head.col + head.velocityX)
        (head.row + head.velocityY) = none := by
      apply hinv.lookup_none
      intro b hb
      rw [hparts] at hb
      simp at hb
    rw [hnone] at hm
    simp at hm
  | cons b l =>
    obtain ⟨init, t, z, hsplit⟩ := List.exists_eq_append_pair head b l
    have hsplit1 : head :: b :: l = (init ++ [t]) ++ [z] := by rw [hsplit]; simp
    have hz : z = tail := by
      rw [hsplit1, List.getLast?_concat] at htail
      exact Option.some.inj htail
    subst hz
    have hdl : (head :: b :: l).dropLast = init ++ [t] := by
      rw [hsplit1, List.dropLast_concat]
    have hchain := hinv.chain
    rw [hparts, hsplit, @List.chain'_split _ (Link s.grid) t init [z]] at hchain
    have hlink : Link s.grid t z := List.chain'_pair.1 hchain.2
    obtain ⟨l1, l2, l3, _⟩ := hlink
    rw [l1, l2] at hm
    have hmv := l3 m hm
    have hvel := hdrop (List.cons_ne_nil _ _) t (by rw [hdl]; simp)
    refine ⟨_, t, by rw [hupd]; exact hmove, ?_, l1.symm, l2.symm, hmv.1.symm, hmv.2.symm, ?_⟩
    · simp only [Snake.tail, hdl]
      rw [← List.cons_append, List.getLast?_concat]
    · simp only
      rw [Grid.getCellVelocity_congr hvel]
      exact Grid.getCellVelocity_removeCellVelocity_same _ _ _

/-- C6 at the sample game `sampleTurned`: its one stored velocity lies under the head. -/
theorem marker_consumption_witness :
    Reachable sampleConstants sampleTurned
      ∧ ∀ m ∈ sampleTurned.grid.cellVelocities,
          ∃ b ∈ sampleTurned.snake.bodyParts.dropLast, b.col = m.col ∧ b.row = m.row :=
  ⟨sampleTurned_reachable, (marker_consumption sampleConstants sampleTurned
    sampleTurned_reachable).1⟩

/-- C6 as stated fails for a tick that eats an apple.  In the reachable state `sampleTurned` the
tail (2,2) moves east onto (3,2), which holds a stored velocity (0,1); after the tick the grid
still holds that stored velocity at (3,2), and the tail, now the appended body part at (2,2), has
velocity (1,0). -/
theorem marker_consumption_counterexample :
    ¬ (∀ (s s1 : Game) (draws : List (Int × Int)) (tail tail1 m : BodyPart),
        Reachable sampleConstants s → s.snake.tail = some tail →
        s.grid.getCellVelocity (tail.col + tail.velocityX) (tail.row + tail.velocityY) = some m →
        Snake.update sampleConstants s draws = some s1 → s1.isGameOver = false →
        s1.snake.tail = some tail1 →
        tail1.velocityX = m.velocityX ∧ tail1.velocityY = m.velocityY
          ∧ s1.grid.getCellVelocity (tail.col + tail.velocityX) (tail.row + tail.velocityY)
            = none) := by
  intro h
  have h1 := h sampleTurned sampleGrown [(1, 1)] ⟨2, 2, 1, 0⟩ ⟨2, 2, 1, 0⟩ ⟨3, 2, 0, 1⟩
    sampleTurned_reachable (by decide) (by decide) (by decide) (by decide) (by decide)
  revert h1
  decide

/-! ## Restart -/

theorem Game.spawnAppleLoop_first {g : Grid} {col row : Int} (rest : List (Int × Int))
    (h0 : g.getCellValue 0 0 ≠ some CellValue.EMPTY)
    (h1 : g.getCellValue col row = some CellValue.EMPTY) :
    Game.spawnAppleLoop g 0 0 ((col, row) :: rest) = some (col, row) := by
  unfold Game.spawnAppleLoop
  rw [if_pos h0]
  cases rest with
  | nil =>
    unfold Game.spawnAppleLoop
    simp only [h1, ne_eq, not_true_eq_false, if_false]
  | cons d ds =>
    unfold Game.spawnAppleLoop
    simp only [h1, ne_eq, not_true_eq_false, if_false]

/-- What `Game.onRestart` does, step by step. -/
theorem Game.onRestart_spec {K : Constants} {s s1 : Game} {draws : List (Int × Int)}
    (h : Game.onRestart K s draws = some s1) :
    ∃ g0 g1 col row, s.grid.reset = some g0
      ∧ g0.setCellValue (Int.ofNat (g0.width / 2)) (Int.ofNat (g0.height / 2)) CellValue.SNAKE
          = some g1
      ∧ Game.spawnAppleLoop g1 0 0 draws = some (col, row)
      ∧ g1.getCellValue col row = some CellValue.EMPTY
      ∧ g1.setCellValue col row CellValue.APPLE = some s1.grid
      ∧ s1.snake.bodyParts
          = [⟨Int.ofNat (g0.width / 2), Int.ofNat (g0.height / 2), 0, 0⟩]
      ∧ s1.isGameOver = false ∧ s1.isPlaying = s.isPlaying ∧ s1.applesEaten = 0
      ∧ s1.updateDelay = K.MAX_UPDATE_DELAY := by
  unfold Game.onRestart at h
  cases hr : s.grid.reset with
  | none => rw [hr] at h; simp at h
  | some g0 =>
    rw [hr] at h
    simp only [Snake.reset, Snake.setupBodyParts] at h
    cases hset : g0.setCellValue (Int.ofNat (g0.width / 2)) (Int.ofNat (g0.height / 2))
        CellValue.SNAKE with
    | none => rw [hset] at h; simp at h
    | some g1 =>
      rw [hset] at h
      simp only at h
      obtain ⟨col, row, g3, h1, h2, h3, h4⟩ := Game.spawnApple_spec h
      subst h4
      exact ⟨g0, g1, col, row, rfl, hset, h1, h2, h3, rfl, rfl, rfl, rfl, rfl⟩

theorem Game.onRestart_isSome (K : Constants) {s : Game} {draws : List (Int × Int)}
    {g0 g1 : Grid} {a : Int × Int} (hr : s.grid.reset = some g0)
    (hset : g0.setCellValue (Int.ofNat (g0.width / 2)) (Int.ofNat (g0.height / 2))
      CellValue.SNAKE = some g1)
    (hloop : Game.spawnAppleLoop g1 0 0 draws = some a) :
    ∃ s1, Game.onRestart K s draws = some s1 := by
  unfold Game.onRestart
  rw [hr]
  simp only [Snake.reset, Snake.setupBodyParts]
  rw [hset]
  simp only
  exact Game.spawnApple_isSome hloop

/-- C10 (restart), as the code has it.  Take a game-over state (`isGameOver` true, `isPlaying`
false) on a grid of width and height at least 3.  Whenever the `Space` key returns, the state is
not-started: `isGameOver` and `isPlaying` false, one body part at the centre with velocity
(0,0), no stored velocity, `applesEaten` 0, `updateDelay` `MAX_UPDATE_DELAY`, every border cell
`WALL`, the head's cell `SNAKE`, one inner cell other than the centre `APPLE`, and every other
cell `EMPTY`.  The key does return when the width or the height exceeds 3 and the first draw of
`Game.spawnApple` is the cell (1,1). -/
theorem restart_correct (K : Constants) (s : Game) (draws : List (Int × Int))
    (hover : s.isGameOver = true) (hplay : s.isPlaying = false)
    (hw : 3 ≤ s.grid.width) (hh : 3 ≤ s.grid.height) :
    (∀ s1, Snake.setVelocity K s "Space" draws = some s1 →
        s1.isGameOver = false ∧ s1.isPlaying = false
          ∧ s1.snake.bodyParts = [⟨s1.grid.centre.1, s1.grid.centre.2, 0, 0⟩]
          ∧ s1.grid.cellVelocities = [] ∧ s1.applesEaten = 0
          ∧ s1.updateDelay = K.MAX_UPDATE_DELAY
          ∧ s1.grid.width = s.grid.width ∧ s1.grid.height = s.grid.height
          ∧ s1.grid.getCellValue s1.grid.centre.1 s1.grid.centre.2 = some CellValue.SNAKE
          ∧ ∃ ac ar, s1.grid.InRange ac ar ∧ ¬ s1.grid.OnBorder ac ar
              ∧ (ac, ar) ≠ s1.grid.centre
              ∧ s1.grid.getCellValue ac ar = some CellValue.APPLE
              ∧ ∀ c r, s1.grid.InRange c r →
                  (s1.grid.OnBorder c r → s1.grid.getCellValue c r = some CellValue.WALL)
                  ∧ (¬ s1.grid.OnBorder c r → (c, r) ≠ s1.grid.centre → (c, r) ≠ (ac, ar) →
                      s1.grid.getCellValue c r = some CellValue.EMPTY))
      ∧ (3 < s.grid.width ∨ 3 < s.grid.height →
          ∀ rest, ∃ s1, Snake.setVelocity K s "Space" ((1, 1) :: rest) = some s1) := by
  have hsv : ∀ d, Snake.setVelocity K s "Space" d = Game.onRestart K s d := by
    intro d
    unfold Snake.setVelocity
    rw [if_pos hover, if_pos rfl]
  constructor
  · intro s1 h
    rw [hsv] at h
    obtain ⟨g0, g1, col, row, hr, hset, _, hE, hset3, hparts, h1, h2, h3, h4⟩ :=
      Game.onRestart_spec h
    obtain ⟨r1, r2, r3, r4, _, _, r7⟩ := Grid.reset_spec hr
    have sa := Grid.setCellValue_spec hset
    have sb := Grid.setCellValue_spec hset3
    have hw1 : s1.grid.width = s.grid.width := by rw [sb.1, sa.1, r2]
    have hh1 : s1.grid.height = s.grid.height := by rw [sb.2.1, sa.2.1, r3]
    have hw0 : s1.grid.width = g0.width := by rw [sb.1, sa.1]
    have hh0 : s1.grid.height = g0.height := by rw [sb.2.1, sa.2.1]
    have hcentre : s1.grid.centre = (Int.ofNat (g0.width / 2), Int.ofNat (g0.height / 2)) := by
      unfold Grid.centre
      rw [hw0, hh0]
    have hrange : ∀ c r, s1.grid.InRange c r ↔ g0.InRange c r := by
      intro c r
      unfold Grid.InRange
      rw [hw0, hh0]
    have hborder : ∀ c r, s1.grid.OnBorder c r ↔ g0.OnBorder c r := by
      intro c r
      unfold Grid.OnBorder
      rw [hw0, hh0]
    have hne : Int.ofNat (g0.width / 2) ≠ col ∨ Int.ofNat (g0.height / 2) ≠ row := by
      by_contra hc
      push_neg at hc
      have := sa.2.2.2.2.1
      rw [hc.1, hc.2, hE] at this
      simp at this
    have hne2 : col ≠ Int.ofNat (g0.width / 2) ∨ row ≠ Int.ofNat (g0.height / 2) := by
      rcases hne with h5 | h5
      · exact Or.inl (Ne.symm h5)
      · exact Or.inr (Ne.symm h5)
    have hE0 : g0.getCellValue col row = some CellValue.EMPTY := by
      rw [← sa.2.2.2.2.2 col row hne2]
      exact hE
    have hrange_a : g0.InRange col row := Grid.inRange_of_getCellValue r1 hE0
    have hnb_a : ¬ g0.OnBorder col row := by
      intro hb
      have := (r7 col row hrange_a).1 hb
      rw [hE0] at this
      simp at this
    have hcentre_nb : ¬ g0.OnBorder (Int.ofNat (g0.width / 2)) (Int.ofNat (g0.height / 2)) := by
      unfold Grid.OnBorder
      rw [r2, r3]
      simp only [Int.ofNat_eq_coe]
      omega
    refine ⟨h1, by rw [h2, hplay], ?_, by rw [sb.2.2.1, sa.2.2.1, r4], h3, h4, hw1, hh1, ?_,
      col, row, (hrange _ _).2 hrange_a, fun hb => hnb_a ((hborder _ _).1 hb), ?_, sb.2.2.2.2.1,
      ?_⟩
    · rw [hparts, hcentre]
    · rw [hcentre]
      simp only
      rw [sb.2.2.2.2.2 _ _ hne]
      exact sa.2.2.2.2.1
    · rw [hcentre]
      intro hc
      simp only [Prod.mk.injEq] at hc
      rcases hne2 with h5 | h5
      · exact h5 hc.1
      · exact h5 hc.2
    · intro c r hcr
      have hcr0 := (hrange c r).1 hcr
      constructor
      · intro hb
        have hb0 := (hborder c r).1 hb
        have hv := (r7 c r hcr0).1 hb0
        have hn1 : c ≠ col ∨ r ≠ row := by
          by_contra hc
          push_neg at hc
          rw [hc.1, hc.2] at hb0
          exact hnb_a hb0
        have hn2 : c ≠ Int.ofNat (g0.width / 2) ∨ r ≠ Int.ofNat (g0.height / 2) := by
          by_contra hc
          push_neg at hc
          rw [hc.1, hc.2] at hb0
          exact hcentre_nb hb0
        rw [sb.2.2.2.2.2 c r hn1, sa.2.2.2.2.2 c r hn2]
        exact hv
      · intro hb hc1 hc2
        have hb0 : ¬ g0.OnBorder c r := fun hx => hb ((hborder c r).2 hx)
        have hv := (r7 c r hcr0).2 hb0
        have hn1 : c ≠ col ∨ r ≠ row := by
          by_contra hc
          push_neg at hc
          exact hc2 (Prod.ext hc.1 hc.2)
        have hn2 : c ≠ Int.ofNat (g0.width / 2) ∨ r ≠ Int.ofNat (g0.height / 2) := by
          by_contra hc
          push_neg at hc
          apply hc1
          rw [hcentre]
          exact Prod.ext hc.1 hc.2
        rw [sb.2.2.2.2.2 c r hn1, sa.2.2.2.2.2 c r hn2]
        exact hv
  · intro hbig rest
    rw [hsv]
    obtain ⟨g0, hr⟩ := Grid.reset_isSome s.grid (by omega) (by omega)
    obtain ⟨r1, r2, r3, _, _, _, r7⟩ := Grid.reset_spec hr
    have hc_range : g0.InRange (Int.ofNat (g0.width / 2)) (Int.ofNat (g0.height / 2)) := by
      unfold Grid.InRange
      rw [r2, r3]
      simp only [Int.ofNat_eq_coe]
      omega
    obtain ⟨v0, hv0⟩ := Grid.getCellValue_of_inRange r1 hc_range
    obtain ⟨g1, hset⟩ := Grid.setCellValue_of_getCellValue hv0 CellValue.SNAKE
    have sa := Grid.setCellValue_spec hset
    have h00 : g1.getCellValue 0 0 ≠ some CellValue.EMPTY := by
      have hn : (0 : Int) ≠ Int.ofNat (g0.width / 2) ∨ (0 : Int) ≠ Int.ofNat (g0.height / 2) := by
        left
        rw [r2]
        simp only [Int.ofNat_eq_coe]
        omega
      rw [sa.2.2.2.2.2 0 0 hn]
      have hr00 : g0.InRange 0 0 := by
        unfold Grid.InRange
        rw [r2, r3]
        omega
      rw [(r7 0 0 hr00).1 (Or.inl rfl)]
      simp
    have h11 : g1.getCellValue 1 1 = some CellValue.EMPTY := by
      have hn : (1 : Int) ≠ Int.ofNat (g0.width / 2) ∨ (1 : Int) ≠ Int.ofNat (g0.height / 2) := by
        rw [r2, r3]
        simp only [Int.ofNat_eq_coe]
        omega
      rw [sa.2.2.2.2.2 1 1 hn]
      have hr11 : g0.InRange 1 1 := by
        unfold Grid.InRange
        rw [r2, r3]
        omega
      apply (r7 1 1 hr11).2
      unfold Grid.OnBorder
      rw [r2, r3]
      omega
    exact Game.onRestart_isSome K hr hset (Game.spawnAppleLoop_first rest h00 h11)

/-- C10 as stated fails on a 3 × 3 grid: after the reset the only inner cell is the head, no
cell is `EMPTY`, and the `Space` key returns for no list of draws. -/
theorem restart_counterexample :
    tinyOver.isGameOver = true ∧ 3 ≤ tinyOver.grid.width ∧ 3 ≤ tinyOver.grid.height
      ∧ ¬ ∃ draws s1, Snake.setVelocity sampleConstants tinyOver "Space" draws = some s1 := by
  refine ⟨rfl, by decide, by decide, ?_⟩
  rintro ⟨draws, s1, h⟩
  have hsv : Snake.setVelocity sampleConstants tinyOver "Space" draws
      = Game.onRestart sampleConstants tinyOver draws := by
    have hover : tinyOver.isGameOver = true := rfl
    simp only [Snake.setVelocity, hover, if_true]
  rw [hsv] at h
  obtain ⟨g0, g1, col, row, hr, hset, _, hE, _⟩ := Game.onRestart_spec h
  have e : (tinyOver.grid.reset.bind (fun g => g.setCellValue (Int.ofNat (g.width / 2))
      (Int.ofNat (g.height / 2)) CellValue.SNAKE)).map (fun g => g.countCells CellValue.EMPTY)
      = some 0 := by decide
  rw [hr] at e
  simp only [Option.some_bind] at e
  rw [hset] at e
  simp only [Option.map_some', Option.some.injEq] at e
  have hpos := Grid.countCells_pos hE
  omega

/-- C10 at the sample game `sampleOver`, with the first draw (1,1). -/
theorem restart_correct_witness :
    sampleOver.isGameOver = true ∧ sampleOver.isPlaying = false
      ∧ ∃ s1, Snake.setVelocity sampleConstants sampleOver "Space" [(1, 1)] = some s1 :=
  ⟨rfl, rfl, (restart_correct sampleConstants sampleOver [(1, 1)] rfl rfl (by decide)
    (by decide)).2 (Or.inl (by decide)) []⟩

/-- C2 at the sample game `sampleTwo`, whose head at (3,2) faces the east wall. -/
theorem collision_correctness_witness :
    sampleTwo.snake.head = some ⟨3, 2, 1, 0⟩
      ∧ sampleTwo.grid.getCellValue 4 2 = some CellValue.WALL
      ∧ ∃ s1, Snake.update sampleConstants sampleTwo [] = some s1 ∧ s1.isGameOver = true
          ∧ s1.isPlaying = false ∧ s1.snake = sampleTwo.snake ∧ s1.grid = sampleTwo.grid :=
  ⟨rfl, by decide, collision_correctness sampleConstants sampleTwo [] ⟨3, 2, 1, 0⟩ rfl
    (by decide) (Or.inl (by decide))⟩

/-- C3 at the sample game `sampleTurned`, whose head at (3,2) moves north onto the apple at
(3,3): with the draw (1,1) the update returns, and the snake has grown at the tail. -/
theorem growth_correctness_witness :
    sampleTurned.snake.head = some ⟨3, 2, 0, 1⟩ ∧ sampleTurned.snake.tail = some ⟨2, 2, 1, 0⟩
      ∧ sampleTurned.grid.getCellValue 3 3 = some CellValue.APPLE
      ∧ ∃ s1, Snake.update sampleConstants sampleTurned [(1, 1)] = some s1
          ∧ ∃ moved newTail, s1.snake.bodyParts = moved ++ [newTail]
            ∧ List.Forall₂ Advanced sampleTurned.snake.bodyParts moved
            ∧ s1.snake.bodyParts.length = sampleTurned.snake.bodyParts.length + 1
            ∧ newTail.col = 2 ∧ newTail.row = 2 :=
  ⟨rfl, rfl, by decide,
    ((growth_correctness sampleConstants sampleTurned [(1, 1)] ⟨3, 2, 0, 1⟩ ⟨2, 2, 1, 0⟩ rfl rfl
      (by decide) (by decide)).2 (by unfold Grid.WellShaped; decide) (by decide)
      ⟨(1, 1), by decide⟩).elim
      (fun s1 h => ⟨s1, h,
        (growth_correctness sampleConstants sampleTurned [(1, 1)] ⟨3, 2, 0, 1⟩ ⟨2, 2, 1, 0⟩ rfl
          rfl (by decide) (by decide)).1 s1 h⟩)⟩

/-- C7 at the sample game `sampleTwo` and the key `KeyW`. -/
theorem accepted_turn_witness :
    sampleTwo.isGameOver = false ∧ sampleTwo.snake.head = some ⟨3, 2, 1, 0⟩
      ∧ ("KeyW", 0, 1) ∈ keyVectors
      ∧ ∃ s1, Snake.setVelocity sampleConstants sampleTwo "KeyW" [] = some s1
          ∧ s1.snake.bodyParts = ⟨3, 2, 0, 1⟩ :: sampleTwo.snake.bodyParts.tail
          ∧ s1.isPlaying = true
          ∧ s1.grid.cells = sampleTwo.grid.cells
          ∧ (sampleTwo.snake.bodyParts.length > 1 →
              (∃ m, s1.grid.getCellVelocity 3 2 = some m ∧ m.velocityX = 0 ∧ m.velocityY = 1)
              ∧ ∀ c r, (c ≠ 3 ∨ r ≠ 2) →
                  s1.grid.getCellVelocity c r = sampleTwo.grid.getCellVelocity c r)
          ∧ (sampleTwo.snake.bodyParts.length = 1 →
              s1.grid.cellVelocities = sampleTwo.grid.cellVelocities) :=
  ⟨rfl, rfl, by decide, accepted_turn sampleConstants sampleTwo "KeyW" [] ⟨3, 2, 1, 0⟩ 0 1 rfl
    rfl (by decide) (by decide)⟩

/-- C8 at the sample game `sampleTwo` and the key `KeyD`, the direction it already has. -/
theorem ignored_input_witness :
    sampleTwo.isGameOver = false ∧ sampleTwo.snake.head = some ⟨3, 2, 1, 0⟩
      ∧ ("KeyD", 1, 0) ∈ keyVectors
      ∧ Snake.setVelocity sampleConstants sampleTwo "KeyD" [] = some sampleTwo :=
  ⟨rfl, rfl, by decide, ignored_input sampleConstants sampleTwo "KeyD" [] ⟨3, 2, 1, 0⟩ rfl rfl
    (Or.inr (by decide))⟩

/-- C9 at the sample game `sampleOver` and the key `KeyW`. -/
theorem no_movement_while_game_over_witness :
    sampleOver.isGameOver = true ∧ "KeyW" ≠ "Space"
      ∧ Snake.setVelocity sampleConstants sampleOver "KeyW" [] = some sampleOver
      ∧ ∃ lastUpdated, Game.update sampleConstants sampleOver 1000 []
          = some { sampleOver with lastUpdated := lastUpdated } :=
  ⟨rfl, by decide, no_movement_while_game_over sampleConstants sampleOver "KeyW" [] 1000 rfl
    (by decide)⟩

/-! ## Grid reset and the stored velocities as a map -/

theorem Grid.new_eq_reset (g : Grid) : Grid.new g.width g.height = g.reset := rfl

theorem Grid.map_pos_overwriteVelocity (data : BodyPart) (l : List BodyPart) :
    (Grid.overwriteVelocity data l).map BodyPart.pos = l.map BodyPart.pos := by
  induction l with
  | nil => rfl
  | cons x xs ih =>
    unfold Grid.overwriteVelocity
    split
    · simp [BodyPart.pos]
    · simp [ih]

theorem Grid.nodup_setCellVelocity (g : Grid) (data : BodyPart)
    (h : (g.cellVelocities.map BodyPart.pos).Nodup) :
    ((g.setCellVelocity data).cellVelocities.map BodyPart.pos).Nodup := by
  unfold Grid.setCellVelocity
  cases hf : g.getCellVelocity data.col data.row with
  | some m =>
    simp only [Grid.map_pos_overwriteVelocity]
    exact h
  | none =>
    simp only [List.map_append, List.map_cons, List.map_nil]
    rw [List.nodup_append]
    refine ⟨h, List.nodup_singleton _, ?_⟩
    intro p hp hq
    rw [List.mem_singleton] at hq
    obtain ⟨m, hm, hmp⟩ := List.mem_map.1 hp
    have hnone := Grid.getCellVelocity_eq_none.1 hf m hm
    rw [hq] at hmp
    simp only [BodyPart.pos, Prod.mk.injEq] at hmp
    exact hnone ⟨hmp.1, hmp.2⟩

theorem Grid.nodup_removeCellVelocity (g : Grid) (col row : Int)
    (h : (g.cellVelocities.map BodyPart.pos).Nodup) :
    ((g.removeCellVelocity col row).cellVelocities.map BodyPart.pos).Nodup := by
  unfold Grid.removeCellVelocity
  exact h.sublist ((List.filter_sublist _).map _)

theorem Grid.nodup_applyCalls (calls : List VelocityCall) (g : Grid)
    (h : (g.cellVelocities.map BodyPart.pos).Nodup) :
    ((g.applyCalls calls).cellVelocities.map BodyPart.pos).Nodup := by
  induction calls generalizing g with
  | nil => exact h
  | cons c cs ih =>
    unfold Grid.applyCalls
    rw [List.foldl_cons]
    apply ih
    cases c with
    | set data => exact Grid.nodup_setCellVelocity g data h
    | remove col row => exact Grid.nodup_removeCellVelocity g col row h

/-- C11 (border invariant): on a grid of width and height at least 1, `Grid.reset` returns, and
so does the construction of a grid of that size, with the same result: a grid of `height` rows
of `width` cells in which every cell of the outer ring holds `WALL`, every other cell holds
`EMPTY`, and no cell velocity is stored. -/
theorem border_invariant (g : Grid) (hw : 1 ≤ g.width) (hh : 1 ≤ g.height) :
    ∃ g1, g.reset = some g1 ∧ Grid.new g.width g.height = some g1
      ∧ g1.width = g.width ∧ g1.height = g.height
      ∧ g1.cells.length = g.height ∧ (∀ cols ∈ g1.cells, cols.length = g.width)
      ∧ (∀ c r, g1.InRange c r → g1.OnBorder c r →
          g1.getCellValue c r = some CellValue.WALL)
      ∧ (∀ c r, g1.InRange c r → ¬ g1.OnBorder c r →
          g1.getCellValue c r = some CellValue.EMPTY)
      ∧ g1.cellVelocities = [] := by
  obtain ⟨g1, hr⟩ := Grid.reset_isSome g hw hh
  obtain ⟨r1, r2, r3, r4, _, _, r7⟩ := Grid.reset_spec hr
  refine ⟨g1, hr, (Grid.new_eq_reset g).trans hr, r2, r3, ?_, ?_, ?_, ?_, r4⟩
  · rw [r1.1, r3]
  · intro cols hc
    rw [r1.2 cols hc, r2]
  · intro c r hin hb
    exact (r7 c r hin).1 hb
  · intro c r hin hb
    exact (r7 c r hin).2 hb

/-- The border invariant on the 5 × 5 sample grid. -/
theorem border_invariant_witness :
    (1 ≤ sampleTwo.grid.width ∧ 1 ≤ sampleTwo.grid.height)
      ∧ ∃ g1, sampleTwo.grid.reset = some g1
      ∧ Grid.new sampleTwo.grid.width sampleTwo.grid.height = some g1
      ∧ g1.width = sampleTwo.grid.width ∧ g1.height = sampleTwo.grid.height
      ∧ g1.cells.length = sampleTwo.grid.height
      ∧ (∀ cols ∈ g1.cells, cols.length = sampleTwo.grid.width)
      ∧ (∀ c r, g1.InRange c r → g1.OnBorder c r →
          g1.getCellValue c r = some CellValue.WALL)
      ∧ (∀ c r, g1.InRange c r → ¬ g1.OnBorder c r →
          g1.getCellValue c r = some CellValue.EMPTY)
      ∧ g1.cellVelocities = [] :=
  ⟨⟨by decide, by decide⟩, border_invariant sampleTwo.grid (by decide) (by decide)⟩

/-- C12 (marker upsert): after any sequence of `setCellVelocity` and `removeCellVelocity` calls
on a grid that stored no velocity, no two stored velocities have the same coordinate; and on
every grid, after `setCellVelocity m` the lookup at the coordinate of `m` returns a record at
that coordinate with the velocity of `m`, while the lookup at every other coordinate returns
what it returned before. -/
theorem marker_upsert (g : Grid) (hempty : g.cellVelocities = []) (calls : List VelocityCall) :
    ((g.applyCalls calls).cellVelocities.map BodyPart.pos).Nodup
      ∧ ∀ (g1 : Grid) (m : BodyPart),
          (∃ x, (g1.setCellVelocity m).getCellVelocity m.col m.row = some x
            ∧ x.col = m.col ∧ x.row = m.row
            ∧ x.velocityX = m.velocityX ∧ x.velocityY = m.velocityY)
          ∧ ∀ col row, (col ≠ m.col ∨ row ≠ m.row) →
              (g1.setCellVelocity m).getCellVelocity col row = g1.getCellVelocity col row := by
  refine ⟨Grid.nodup_applyCalls calls g (by rw [hempty]; exact List.nodup_nil), ?_⟩
  intro g1 m
  exact ⟨Grid.getCellVelocity_setCellVelocity_same g1 m,
    fun col row h => Grid.getCellVelocity_setCellVelocity_other g1 m col row h⟩

/-- The marker upsert on the sample grid after three calls. -/
theorem marker_upsert_witness :
    (Grid.mk 5 5 [] []).cellVelocities = []
      ∧ (((Grid.mk 5 5 [] []).applyCalls
          [VelocityCall.set ⟨3, 2, 0, 1⟩, VelocityCall.set ⟨3, 2, 1, 0⟩,
            VelocityCall.remove 1 1]).cellVelocities.map BodyPart.pos).Nodup
      ∧ ∀ (g1 : Grid) (m : BodyPart),
          (∃ x, (g1.setCellVelocity m).getCellVelocity m.col m.row = some x
            ∧ x.col = m.col ∧ x.row = m.row
            ∧ x.velocityX = m.velocityX ∧ x.velocityY = m.velocityY)
          ∧ ∀ col row, (col ≠ m.col ∨ row ≠ m.row) →
              (g1.setCellVelocity m).getCellVelocity col row = g1.getCellVelocity col row :=
  ⟨rfl, marker_upsert (Grid.mk 5 5 [] []) rfl _⟩

/-- C13 (marker removal): after `removeCellVelocity col row` the lookup at that coordinate
returns nothing and the lookup at every other coordinate returns what it returned before; the
stored velocities are those of before whose coordinate differs, each as often as before and in
the same relative order; and when nothing was stored at the coordinate the grid is unchanged. -/
theorem marker_removal (g : Grid) (col row : Int) :
    (g.removeCellVelocity col row).getCellVelocity col row = none
      ∧ (∀ c r, (c ≠ col ∨ r ≠ row) →
          (g.removeCellVelocity col row).getCellVelocity c r = g.getCellVelocity c r)
      ∧ (∀ m, m ∈ (g.removeCellVelocity col row).cellVelocities
          ↔ m ∈ g.cellVelocities ∧ (m.col ≠ col ∨ m.row ≠ row))
      ∧ (∀ m, (m.col ≠ col ∨ m.row ≠ row) →
          (g.removeCellVelocity col row).cellVelocities.count m = g.cellVelocities.count m)
      ∧ List.Sublist (g.removeCellVelocity col row).cellVelocities g.cellVelocities
      ∧ (g.getCellVelocity col row = none → g.removeCellVelocity col row = g) := by
  refine ⟨Grid.getCellVelocity_removeCellVelocity_same g col row,
    fun c r h => Grid.getCellVelocity_removeCellVelocity_other g col row c r h, ?_, ?_, ?_,
    Grid.removeCellVelocity_of_none g col row⟩
  · intro m
    simp [Grid.removeCellVelocity, List.mem_filter]
  · intro m hm
    unfold Grid.removeCellVelocity
    simp only
    rw [List.count_filter]
    simpa using hm
  · exact List.filter_sublist _

/-! ## Level progression -/

theorem Game.onAppleEaten_level {K : Constants} {s s1 : Game} {draws : List (Int × Int)}
    (h : Game.onAppleEaten K s draws = some s1) :
    s1.applesEaten = s.applesEaten + 1
      ∧ ((K.APPLES_PER_LEVEL ≠ 0 ∧ (s.applesEaten + 1) % K.APPLES_PER_LEVEL = 0
            ∧ s.isMaxLevel ≠ some true) →
          s1.updateDelay = max (s.updateDelay - K.UPDATE_DELAY_DECREMENT) K.MIN_UPDATE_DELAY
            ∧ s1.isMaxLevel = some (decide (s1.updateDelay = K.MIN_UPDATE_DELAY))
            ∧ s1.lastLevelUp = s.lastUpdated)
      ∧ (¬ (K.APPLES_PER_LEVEL ≠ 0 ∧ (s.applesEaten + 1) % K.APPLES_PER_LEVEL = 0
            ∧ s.isMaxLevel ≠ some true) →
          s1.updateDelay = s.updateDelay ∧ s1.isMaxLevel = s.isMaxLevel
            ∧ s1.lastLevelUp = s.lastLevelUp) := by
  unfold Game.onAppleEaten at h
  simp only at h
  obtain ⟨col, row, g1, _, _, _, hs1⟩ := Game.spawnApple_spec h
  by_cases hc : K.APPLES_PER_LEVEL ≠ 0 ∧ (s.applesEaten + 1) % K.APPLES_PER_LEVEL = 0
      ∧ s.isMaxLevel ≠ some true
  · rw [if_pos hc] at hs1
    subst hs1
    exact ⟨rfl, fun _ => ⟨rfl, rfl, rfl⟩, fun hn => absurd hc hn⟩
  · rw [if_neg hc] at hs1
    subst hs1
    exact ⟨rfl, fun hp => absurd hp hc, fun _ => ⟨rfl, rfl, rfl⟩⟩

theorem specDelay_ge_min (K : Constants) (k : Nat) : K.MIN_UPDATE_DELAY ≤ specDelay K k :=
  le_max_right _ _

theorem specDelay_succ_of_not_dvd (K : Constants) (k : Nat)
    (hmod : (k + 1) % K.APPLES_PER_LEVEL ≠ 0) : specDelay K (k + 1) = specDelay K k := by
  unfold specDelay
  rw [Nat.succ_div, if_neg (fun hd => hmod (Nat.mod_eq_zero_of_dvd hd)), Nat.add_zero]

theorem specDelay_succ_of_dvd (K : Constants) (hdec : 0 ≤ K.UPDATE_DELAY_DECREMENT) (k : Nat)
    (hmod : (k + 1) % K.APPLES_PER_LEVEL = 0) :
    specDelay K (k + 1) = max (specDelay K k - K.UPDATE_DELAY_DECREMENT) K.MIN_UPDATE_DELAY := by
  unfold specDelay
  rw [Nat.succ_div, if_pos (Nat.dvd_of_mod_eq_zero hmod), Nat.cast_add, Nat.cast_one]
  generalize ((k / K.APPLES_PER_LEVEL : Nat) : Int) = j
  have hx : (j + 1) * K.UPDATE_DELAY_DECREMENT
      = j * K.UPDATE_DELAY_DECREMENT + K.UPDATE_DELAY_DECREMENT := by ring
  rw [hx]
  generalize j * K.UPDATE_DELAY_DECREMENT = x
  simp only [max_def]
  split_ifs <;> omega

/-- What every state of a run of apple-eating calls after `Game.reset` satisfies. -/
theorem Game.onAppleEaten_delay {K : Constants} (hdec : 0 ≤ K.UPDATE_DELAY_DECREMENT)
    (hapl : 1 ≤ K.APPLES_PER_LEVEL) {s s1 : Game} {draws : List (Int × Int)}
    (h : Game.onAppleEaten K s draws = some s1)
    (hd : s.updateDelay = specDelay K s.applesEaten)
    (hm : s.isMaxLevel = some true → s.updateDelay = K.MIN_UPDATE_DELAY) :
    s1.applesEaten = s.applesEaten + 1
      ∧ s1.updateDelay = specDelay K s1.applesEaten
      ∧ (s1.isMaxLevel = some true → s1.updateDelay = K.MIN_UPDATE_DELAY)
      ∧ s1.updateDelay ≤ s.updateDelay
      ∧ (s1.updateDelay ≠ s.updateDelay → s1.applesEaten % K.APPLES_PER_LEVEL = 0) := by
  obtain ⟨h1, h2, h3⟩ := Game.onAppleEaten_level h
  have hge := specDelay_ge_min K s.applesEaten
  rw [h1]
  by_cases hmod : (s.applesEaten + 1) % K.APPLES_PER_LEVEL = 0
  · have hsucc := specDelay_succ_of_dvd K hdec s.applesEaten hmod
    by_cases hmax : s.isMaxLevel = some true
    · have hc : ¬ (K.APPLES_PER_LEVEL ≠ 0 ∧ (s.applesEaten + 1) % K.APPLES_PER_LEVEL = 0
          ∧ s.isMaxLevel ≠ some true) := fun hc => hc.2.2 hmax
      obtain ⟨e1, e2, _⟩ := h3 hc
      have hm1 := hm hmax
      rw [e1, e2]
      refine ⟨rfl, ?_, fun _ => hm1, le_refl _, fun hne => absurd rfl hne⟩
      rw [hsucc, ← hd, hm1, max_eq_right (by omega)]
    · have hc : K.APPLES_PER_LEVEL ≠ 0 ∧ (s.applesEaten + 1) % K.APPLES_PER_LEVEL = 0
          ∧ s.isMaxLevel ≠ some true := ⟨by omega, hmod, hmax⟩
      obtain ⟨e1, e2, _⟩ := h2 hc
      refine ⟨rfl, ?_, ?_, ?_, fun _ => hmod⟩
      · rw [e1, hsucc, hd]
      · intro ht
        rw [e2] at ht
        simpa using ht
      · rw [e1]
        exact max_le (by omega) (by omega)
  · have hc : ¬ (K.APPLES_PER_LEVEL ≠ 0 ∧ (s.applesEaten + 1) % K.APPLES_PER_LEVEL = 0
        ∧ s.isMaxLevel ≠ some true) := fun hc => hmod hc.2.1
    obtain ⟨e1, e2, _⟩ := h3 hc
    rw [specDelay_succ_of_not_dvd K s.applesEaten hmod, e1, e2]
    exact ⟨rfl, hd, hm, le_refl _, fun hne => absurd rfl hne⟩

theorem Game.eatApples_delay {K : Constants} (hdec : 0 ≤ K.UPDATE_DELAY_DECREMENT)
    (hapl : 1 ≤ K.APPLES_PER_LEVEL) (drawss : List (List (Int × Int))) (s s1 : Game)
    (h : Game.eatApples K s drawss = some s1)
    (hd : s.updateDelay = specDelay K s.applesEaten)
    (hm : s.isMaxLevel = some true → s.updateDelay = K.MIN_UPDATE_DELAY) :
    s1.applesEaten = s.applesEaten + drawss.length
      ∧ s1.updateDelay = specDelay K s1.applesEaten
      ∧ (s1.isMaxLevel = some true → s1.updateDelay = K.MIN_UPDATE_DELAY)
      ∧ s1.updateDelay ≤ s.updateDelay := by
  induction drawss generalizing s with
  | nil =>
    simp only [Game.eatApples, Option.some.injEq] at h
    subst h
    exact ⟨rfl, hd, hm, le_refl _⟩
  | cons draws rest ih =>
    unfold Game.eatApples at h
    cases hs : Game.onAppleEaten K s draws with
    | none => rw [hs] at h; simp at h
    | some s2 =>
      rw [hs] at h
      simp only at h
      obtain ⟨a1, a2, a3, a4, _⟩ := Game.onAppleEaten_delay hdec hapl hs hd hm
      obtain ⟨b1, b2, b3, b4⟩ := ih s2 h a2 a3
      refine ⟨?_, b2, b3, le_trans b4 a4⟩
      rw [b1, a1, List.length_cons]
      omega

/-- C18 (level progression): for constants with `MIN_UPDATE_DELAY ≤ MAX_UPDATE_DELAY`,
`UPDATE_DELAY_DECREMENT ≥ 0` and `APPLES_PER_LEVEL ≥ 1`, after `k` calls of `Game.onAppleEaten`
that follow `Game.reset`, `applesEaten` is `k` and `updateDelay` is
`max (MAX_UPDATE_DELAY - (k / APPLES_PER_LEVEL) * UPDATE_DELAY_DECREMENT) MIN_UPDATE_DELAY`, which
lies between the minimum and the maximum; `isMaxLevel` is true only when `updateDelay` is the
minimum; and one more call does not increase `updateDelay` and changes it only when the new
`applesEaten` is a multiple of `APPLES_PER_LEVEL`. -/
theorem level_progression (K : Constants) (hmin : K.MIN_UPDATE_DELAY ≤ K.MAX_UPDATE_DELAY)
    (hdec : 0 ≤ K.UPDATE_DELAY_DECREMENT) (hapl : 1 ≤ K.APPLES_PER_LEVEL) (s0 s : Game)
    (drawss : List (List (Int × Int)))
    (hrun : Game.eatApples K (Game.reset K s0) drawss = some s) :
    s.applesEaten = drawss.length
      ∧ s.updateDelay
          = max (K.MAX_UPDATE_DELAY
              - ((drawss.length / K.APPLES_PER_LEVEL : Nat) : Int) * K.UPDATE_DELAY_DECREMENT)
            K.MIN_UPDATE_DELAY
      ∧ K.MIN_UPDATE_DELAY ≤ s.updateDelay ∧ s.updateDelay ≤ K.MAX_UPDATE_DELAY
      ∧ (s.isMaxLevel = some true → s.updateDelay = K.MIN_UPDATE_DELAY)
      ∧ ∀ draws s1, Game.onAppleEaten K s draws = some s1 →
          s1.updateDelay ≤ s.updateDelay
          ∧ (s1.updateDelay ≠ s.updateDelay → s1.applesEaten % K.APPLES_PER_LEVEL = 0) := by
  have hd0 : (Game.reset K s0).updateDelay = specDelay K (Game.reset K s0).applesEaten := by
    show K.MAX_UPDATE_DELAY = specDelay K 0
    unfold specDelay
    rw [Nat.zero_div, Nat.cast_zero, zero_mul, sub_zero, max_eq_left hmin]
  have hm0 : (Game.reset K s0).isMaxLevel = some true →
      (Game.reset K s0).updateDelay = K.MIN_UPDATE_DELAY := by
    intro h
    exact absurd h (by simp [Game.reset])
  obtain ⟨a1, a2, a3, a4⟩ := Game.eatApples_delay hdec hapl drawss _ s hrun hd0 hm0
  have hk : s.applesEaten = drawss.length := by
    rw [a1]
    show 0 + drawss.length = drawss.length
    omega
  refine ⟨hk, ?_, ?_, a4, a3, ?_⟩
  · rw [a2, hk]
    rfl
  · rw [a2]
    exact specDelay_ge_min K _
  · intro draws s1 h1
    obtain ⟨_, _, _, b4, b5⟩ := Game.onAppleEaten_delay hdec hapl h1 a2 a3
    exact ⟨b4, b5⟩

/-- The level progression over four calls on the 5 × 5 sample game: the delay reaches the
minimum with the fourth apple. -/
theorem level_progression_witness :
    (levelConstants.MIN_UPDATE_DELAY ≤ levelConstants.MAX_UPDATE_DELAY
      ∧ 0 ≤ levelConstants.UPDATE_DELAY_DECREMENT ∧ 1 ≤ levelConstants.APPLES_PER_LEVEL)
      ∧ ∃ s, Game.eatApples levelConstants (Game.reset levelConstants sampleTwo)
            (levelDraws.take 4) = some s
          ∧ s.applesEaten = 4 ∧ s.updateDelay = 50 :=
  ⟨⟨by decide, by decide, by decide⟩,
    (Option.isSome_iff_exists.1 (by decide :
      (Game.eatApples levelConstants (Game.reset levelConstants sampleTwo)
        (levelDraws.take 4)).isSome = true)).elim
      (fun s hs => ⟨s, hs,
        (level_progression levelConstants (by decide) (by decide) (by decide)
          sampleTwo s (levelDraws.take 4) hs).1,
        (level_progression levelConstants (by decide) (by decide) (by decide)
          sampleTwo s (levelDraws.take 4) hs).2.1⟩)⟩

/-! ## The outcomes of the operations -/

theorem Game.onRestart_started {K : Constants} {s s1 : Game} {draws : List (Int × Int)}
    (h : Game.onRestart K s draws = some s1) : Started s.grid.width s.grid.height s1 := by
  obtain ⟨g0, g1, col, row, h1, h2, _, h4, h5, h6, _⟩ := Game.onRestart_spec h
  obtain ⟨_, r2, r3, _⟩ := Grid.reset_spec h1
  rw [r2, r3] at h2 h6
  exact ⟨g0, g1, col, row, h1, h2, h4, h5, h6⟩

theorem Game.connectedCallback_started {K : Constants} {s : Game} {draws : List (Int × Int)}
    (h : Game.connectedCallback K draws = some s) : Started K.WORLD_WIDTH K.WORLD_HEIGHT s := by
  unfold Game.connectedCallback at h
  cases hr : Grid.new K.WORLD_WIDTH K.WORLD_HEIGHT with
  | none => rw [hr] at h; simp at h
  | some g0 =>
    rw [hr] at h
    obtain ⟨_, r2, r3, _⟩ := Grid.reset_spec hr
    have r2 : g0.width = K.WORLD_WIDTH := r2
    have r3 : g0.height = K.WORLD_HEIGHT := r3
    simp only [Snake.reset, Snake.setupBodyParts] at h
    cases hset : g0.setCellValue (Int.ofNat (g0.width / 2)) (Int.ofNat (g0.height / 2))
        CellValue.SNAKE with
    | none => rw [hset] at h; simp at h
    | some g1 =>
      rw [hset] at h
      simp only at h
      obtain ⟨col, row, g2, _, h2, h3, h4⟩ := Game.spawnApple_spec h
      subst h4
      rw [r2, r3] at hset
      refine ⟨g0, g1, col, row, hr, hset, h2, h3, ?_⟩
      show [BodyPart.mk (Int.ofNat (g0.width / 2)) (Int.ofNat (g0.height / 2)) 0 0] = _
      rw [r2, r3]

theorem Game.connectedCallback_live {K : Constants} {s : Game} {draws : List (Int × Int)}
    (h : Game.connectedCallback K draws = some s) : s.isGameOver = false := by
  unfold Game.connectedCallback at h
  cases hr : Grid.new K.WORLD_WIDTH K.WORLD_HEIGHT with
  | none => rw [hr] at h; simp at h
  | some g0 =>
    rw [hr] at h
    simp only [Snake.reset, Snake.setupBodyParts] at h
    cases hset : g0.setCellValue (Int.ofNat (g0.width / 2)) (Int.ofNat (g0.height / 2))
        CellValue.SNAKE with
    | none => rw [hset] at h; simp at h
    | some g1 =>
      rw [hset] at h
      simp only at h
      obtain ⟨col, row, g2, _, _, _, h4⟩ := Game.spawnApple_spec h
      subst h4
      rfl

theorem Snake.moveAll_dims {s s1 : Game} (h : Snake.moveAll s = some s1) :
    s1.grid.width = s.grid.width ∧ s1.grid.height = s.grid.height := by
  unfold Snake.moveAll at h
  split at h
  · simp at h
  · rename_i g parts hm
    simp only [Option.some.injEq] at h
    subst h
    obtain ⟨_, h2, h3, _⟩ := Snake.moveBodyParts_advanced _ _ _ _ _ _ hm
    exact ⟨h2, h3⟩

/-- The outcomes of `Snake.update`, described from the state before it. -/
theorem Snake.update_cases {K : Constants} {s s1 : Game} {draws : List (Int × Int)}
    (hinv : Inv s) (h : Snake.update K s draws = some s1) :
    ∃ head rest, s.snake.bodyParts = head :: rest
      ∧ ((head.velocityX = 0 ∧ head.velocityY = 0 ∧ s1 = s)
        ∨ (¬ (head.velocityX = 0 ∧ head.velocityY = 0)
          ∧ (((s.grid.getCellValue (head.col + head.velocityX) (head.row + head.velocityY)
                  = some CellValue.WALL
                ∨ s.grid.getCellValue (head.col + head.velocityX) (head.row + head.velocityY)
                  = some CellValue.SNAKE)
              ∧ s1 = Game.onGameOver s)
            ∨ (s.grid.getCellValue (head.col + head.velocityX) (head.row + head.velocityY)
                  = some CellValue.EMPTY
              ∧ s1.snake.bodyParts = head.moved :: (head :: rest).dropLast
              ∧ s1.isGameOver = s.isGameOver ∧ s1.isPlaying = s.isPlaying
              ∧ s1.applesEaten = s.applesEaten
              ∧ (∃ z, (head :: rest).getLast? = some z
                ∧ Grid.Patched s.grid s1.grid (head.col + head.velocityX)
                    (head.row + head.velocityY) CellValue.SNAKE z.col z.row CellValue.EMPTY)
              ∧ ∀ m ∈ s1.grid.cellVelocities, m ∈ s.grid.cellVelocities)
            ∨ (s.grid.getCellValue (head.col + head.velocityX) (head.row + head.velocityY)
                  = some CellValue.APPLE
              ∧ s1.snake.bodyParts = head.moved :: head :: rest
              ∧ s1.isGameOver = s.isGameOver ∧ s1.isPlaying = s.isPlaying
              ∧ s1.applesEaten = s.applesEaten + 1
              ∧ (∃ ac ar, s.grid.getCellValue ac ar = some CellValue.EMPTY
                ∧ Grid.Patched s.grid s1.grid (head.col + head.velocityX)
                    (head.row + head.velocityY) CellValue.SNAKE ac ar CellValue.APPLE)
              ∧ s1.grid.cellVelocities = s.grid.cellVelocities)))) := by
  cases hparts : s.snake.bodyParts with
  | nil => exact absurd hparts hinv.nonempty
  | cons head rest =>
    refine ⟨head, rest, rfl, ?_⟩
    simp only [Snake.update, hparts] at h
    by_cases hv : head.velocityX = 0 ∧ head.velocityY = 0
    · rw [if_pos hv] at h
      simp only [Option.some.injEq] at h
      exact Or.inl ⟨hv.1, hv.2, h.symm⟩
    · rw [if_neg hv] at h
      refine Or.inr ⟨hv, ?_⟩
      cases hq : s.grid.getCellValue (head.col + head.velocityX) (head.row + head.velocityY) with
      | none =>
        rw [hq] at h
        simp only at h
        rw [Snake.moveAll_none_of_outside hparts hv hq] at h
        simp at h
      | some v =>
        rw [hq] at h
        cases v with
        | EMPTY =>
          simp only at h
          obtain ⟨g1, hmove, _, hcells, hm1, hm2⟩ := Snake.moveAll_spec hinv hparts hq
          obtain ⟨d1, d2⟩ := Snake.moveAll_dims h
          rw [hmove] at h
          simp only [Option.some.injEq] at h
          subst h
          refine Or.inr (Or.inl ⟨rfl, rfl, rfl, rfl, rfl, ?_, ?_⟩)
          · exact ⟨(head :: rest).getLast (List.cons_ne_nil head rest),
              List.getLast?_eq_getLast _ _, d1, d2,
              hcells _ (List.getLast?_eq_getLast _ _)⟩
          · intro m hm
            cases rest with
            | nil =>
              have := hm1 rfl
              simp only at hm
              rw [this] at hm
              exact hm
            | cons x xs =>
              have hne : (head :: x :: xs).dropLast ≠ [] := by simp
              have := hm2 (List.cons_ne_nil x xs) _ (List.getLast?_eq_getLast _ hne)
              simp only at hm
              rw [this] at hm
              exact (Grid.mem_removeCellVelocity hm).1
        | WALL =>
          simp only [Option.some.injEq] at h
          exact Or.inl ⟨Or.inl rfl, h.symm⟩
        | SNAKE =>
          simp only [Option.some.injEq] at h
          exact Or.inl ⟨Or.inr rfl, h.symm⟩
        | APPLE =>
          simp only at h
          split at h
          · simp at h
          · rename_i s3 heat
            have htail : (head :: rest).getLast? = some ((head :: rest).getLast
                (List.cons_ne_nil head rest)) := List.getLast?_eq_getLast _ _
            obtain ⟨g1, ac, ar, hmove, _, hac, hcells, hm⟩ :=
              Snake.grow_spec hinv hparts htail hq heat
            obtain ⟨d1, d2⟩ := Snake.moveAll_dims h
            obtain ⟨col, row, _, _, e3, _, e5, e6, e7, _⟩ := Game.onAppleEaten_spec heat
            obtain ⟨f1, f2, _⟩ := Grid.setCellValue_spec e3
            obtain ⟨_, c2, c3⟩ := Grid.setCellVelocity_cells s.grid
              ((head :: rest).getLast (List.cons_ne_nil head rest))
            rw [hmove] at h
            simp only [Option.some.injEq] at h
            subst h
            refine Or.inr (Or.inr ⟨rfl, rfl, e6, e5, e7, ⟨ac, ar, hac, ?_, ?_, hcells⟩, hm⟩)
            · exact d1.trans (f1.trans c2)
            · exact d2.trans (f2.trans c3)

/-! ## Induction over the reachable states -/

/-- A property of the grid, the snake and the game-over flag holds in every reachable state when
it holds after a start of the game and is kept by a turn and by `Snake.update`. -/
theorem Reachable.induction_board {K : Constants} {P : Game → Prop}
    (hflags : ∀ s s1 : Game, s1.grid = s.grid → s1.snake = s.snake →
      s1.isGameOver = s.isGameOver → P s → P s1)
    (hstart : ∀ s, Started K.WORLD_WIDTH K.WORLD_HEIGHT s → s.isGameOver = false → P s)
    (hrestart : ∀ s s1, Inv s → P s → Started s.grid.width s.grid.height s1 →
      s1.isGameOver = false → P s1)
    (hturn : ∀ (s s1 : Game) (head : BodyPart) (rest : List BodyPart) (code : String),
      Inv s → P s → s.isGameOver = false → s1.isGameOver = false →
      s.snake.bodyParts = head :: rest →
      ¬ ((Snake.steer head code).velocityX = head.velocityX
        ∧ (Snake.steer head code).velocityY = head.velocityY) →
      s1.snake.bodyParts = Snake.steer head code :: rest →
      s1.grid = (if rest.length + 1 > 1 then s.grid.setCellVelocity (Snake.steer head code)
        else s.grid) → P s1)
    (hupdate : ∀ s s1 draws, Inv s → P s → Snake.update K s draws = some s1 → P s1)
    {s : Game} (h : Reachable K s) : P s := by
  induction h with
  | fresh draws s h =>
    exact hstart s (Game.connectedCallback_started h) (Game.connectedCallback_live h)
  | key s s1 code draws hr h ih =>
    have hinv := Reachable.inv hr
    by_cases hover : s.isGameOver = true
    · unfold Snake.setVelocity at h
      rw [if_pos hover] at h
      by_cases hspace : code = "Space"
      · rw [if_pos hspace] at h
        obtain ⟨_, _, _, _, _, _, _, _, _, _, hlive, _⟩ := Game.onRestart_spec h
        exact hrestart s s1 hinv ih (Game.onRestart_started h) hlive
      · rw [if_neg hspace] at h
        simp only [Option.some.injEq] at h
        subst h
        exact ih
    · cases hparts : s.snake.bodyParts with
      | nil => exact absurd hparts hinv.nonempty
      | cons head rest =>
        by_cases hsame : (Snake.steer head code).velocityX = head.velocityX
            ∧ (Snake.steer head code).velocityY = head.velocityY
        · unfold Snake.setVelocity at h
          rw [if_neg hover, hparts] at h
          simp only at h
          rw [if_pos hsame] at h
          simp only [Option.some.injEq] at h
          subst h
          exact ih
        · have hover1 : s.isGameOver = false := by simpa using hover
          rw [Snake.setVelocity_turn hover1 hparts hsame] at h
          simp only [Option.some.injEq] at h
          subst h
          exact hturn s _ head rest code hinv ih hover1 hover1 hparts hsame rfl rfl
  | tick s s1 draws hr h ih => exact hupdate s s1 draws (Reachable.inv hr) ih h
  | frame s s1 timestamp draws hr h ih =>
    have hinv := Reachable.inv hr
    unfold Game.update at h
    simp only at h
    generalize hs0 : (if s.lastUpdated = none ∨ s.lastUpdated = some 0
        then { s with lastUpdated := some timestamp } else s) = s0 at h
    have hinv0 : Inv s0 ∧ P s0 := by
      rw [← hs0]
      by_cases hlu : s.lastUpdated = none ∨ s.lastUpdated = some 0
      · rw [if_pos hlu]
        exact ⟨Inv.of_eq hinv rfl rfl, hflags s _ rfl rfl rfl ih⟩
      · rw [if_neg hlu]
        exact ⟨hinv, ih⟩
    by_cases hdelay : timestamp - s0.lastUpdated.getD 0 < s0.updateDelay
    · rw [if_pos hdelay] at h
      simp only [Option.some.injEq] at h
      subst h
      exact hinv0.2
    · rw [if_neg hdelay] at h
      by_cases hover : s0.isGameOver = true
      · simp only [hover, not_true_eq_false, if_false, Option.some.injEq] at h
        subst h
        exact hflags s0 _ rfl rfl hover.symm hinv0.2
      · rw [if_pos hover] at h
        cases hu : Snake.update K s0 draws with
        | none =>
          rw [hu] at h
          simp at h
        | some s2 =>
          rw [hu] at h
          simp only [Option.some.injEq] at h
          subst h
          exact hflags s2 _ rfl rfl rfl (hupdate s0 s2 draws hinv0.1 hinv0.2 hu)

/-- The grid of a started game, cell by cell. -/
theorem Started.cells {width height : Nat} {s : Game} (h : Started width height s) :
    ∃ g0 ac ar, Grid.new width height = some g0
      ∧ g0.getCellValue ac ar = some CellValue.EMPTY
      ∧ (∃ v, g0.getCellValue (Int.ofNat (width / 2)) (Int.ofNat (height / 2)) = some v)
      ∧ Grid.Patched g0 s.grid ac ar CellValue.APPLE (Int.ofNat (width / 2))
          (Int.ofNat (height / 2)) CellValue.SNAKE
      ∧ s.grid.cellVelocities = []
      ∧ s.snake.bodyParts = [⟨Int.ofNat (width / 2), Int.ofNat (height / 2), 0, 0⟩] := by
  obtain ⟨g0, g1, ac, ar, h1, h2, h3, h4, h5⟩ := h
  obtain ⟨_, _, _, r4, _⟩ := Grid.reset_spec h1
  obtain ⟨a1, a2, a3, a4, a5, a6⟩ := Grid.setCellValue_spec h2
  obtain ⟨b1, b2, b3, _, b5, b6⟩ := Grid.setCellValue_spec h4
  have hne : ac ≠ Int.ofNat (width / 2) ∨ ar ≠ Int.ofNat (height / 2) := by
    by_contra hc
    have hc1 : ac = Int.ofNat (width / 2) ∧ ar = Int.ofNat (height / 2) := by
      constructor <;> by_contra hx <;> exact hc (by tauto)
    rw [hc1.1, hc1.2, a5] at h3
    simp at h3
  refine ⟨g0, ac, ar, h1, ?_, a4, ⟨b1.trans a1, b2.trans a2, ?_⟩, ?_, h5⟩
  · rw [← a6 ac ar hne]
    exact h3
  · intro c r
    by_cases hca : (c, r) = (ac, ar)
    · rw [if_pos hca]
      simp only [Prod.mk.injEq] at hca
      rw [hca.1, hca.2]
      exact b5
    · rw [if_neg hca]
      have hca1 : c ≠ ac ∨ r ≠ ar := by
        simp only [Prod.mk.injEq] at hca
        tauto
      rw [b6 c r hca1]
      by_cases hcc : (c, r) = (Int.ofNat (width / 2), Int.ofNat (height / 2))
      · rw [if_pos hcc]
        simp only [Prod.mk.injEq] at hcc
        rw [hcc.1, hcc.2]
        exact a5
      · rw [if_neg hcc]
        have hcc1 : c ≠ Int.ofNat (width / 2) ∨ r ≠ Int.ofNat (height / 2) := by
          simp only [Prod.mk.injEq] at hcc
          tauto
        exact a6 c r hcc1
  · rw [b3, a3, r4]

/-! ## At most one apple -/

theorem Grid.oneApple_congr {g g1 : Grid} (h : g.OneApple) (hcells : g1.cells = g.cells) :
    g1.OneApple := by
  intro c r c1 r1 h1 h2
  rw [Grid.getCellValue_congr hcells] at h1 h2
  exact h c r c1 r1 h1 h2

theorem Grid.turn_cells (g : Grid) (data : BodyPart) (b : Prop) [Decidable b] :
    (if b then g.setCellVelocity data else g).cells = g.cells
      ∧ (if b then g.setCellVelocity data else g).width = g.width
      ∧ (if b then g.setCellVelocity data else g).height = g.height := by
  by_cases hb : b
  · rw [if_pos hb]
    exact Grid.setCellVelocity_cells g data
  · rw [if_neg hb]
    exact ⟨rfl, rfl, rfl⟩

theorem oneApple_of_started {width height : Nat} {s : Game} (h : Started width height s) :
    s.grid.OneApple := by
  obtain ⟨g0, ac, ar, h1, _, _, ⟨_, _, hc⟩, _, _⟩ := Started.cells h
  obtain ⟨_, _, _, _, _, r6, _⟩ := Grid.reset_spec h1
  have key : ∀ c r, s.grid.getCellValue c r = some CellValue.APPLE → c = ac ∧ r = ar := by
    intro c r hv
    rw [hc c r] at hv
    by_cases hca : (c, r) = (ac, ar)
    · simpa using hca
    · rw [if_neg hca] at hv
      by_cases hcc : (c, r) = (Int.ofNat (width / 2), Int.ofNat (height / 2))
      · rw [if_pos hcc] at hv
        simp at hv
      · rw [if_neg hcc] at hv
        have := Grid.countCells_pos hv
        omega
  intro c r c1 r1 ha hb
  obtain ⟨e1, e2⟩ := key c r ha
  obtain ⟨e3, e4⟩ := key c1 r1 hb
  exact ⟨e1.trans e3.symm, e2.trans e4.symm⟩

theorem oneApple_update {K : Constants} {s s1 : Game} {draws : List (Int × Int)}
    (hinv : Inv s) (h1 : s.grid.OneApple) (h : Snake.update K s draws = some s1) :
    s1.grid.OneApple := by
  obtain ⟨head, rest, hparts, hc⟩ := Snake.update_cases hinv h
  rcases hc with ⟨_, _, rfl⟩ | ⟨hv, ⟨_, rfl⟩ | ⟨hq, _, _, _, _, ⟨z, _, _, _, hcells⟩, _⟩
    | ⟨hq, _, _, _, _, ⟨ac, ar, _, _, _, hcells⟩, _⟩⟩
  · exact h1
  · exact h1
  · have key : ∀ c r, s1.grid.getCellValue c r = some CellValue.APPLE →
        s.grid.getCellValue c r = some CellValue.APPLE := by
      intro c r hv
      rw [hcells c r] at hv
      split_ifs at hv with ha hb
      · simp at hv
      · simp at hv
      · exact hv
    intro c r c1 r1 ha hb
    exact h1 c r c1 r1 (key c r ha) (key c1 r1 hb)
  · have key : ∀ c r, s1.grid.getCellValue c r = some CellValue.APPLE → c = ac ∧ r = ar := by
      intro c r hv
      rw [hcells c r] at hv
      split_ifs at hv with ha hb
      · simp at hv
      · simpa using hb
      · have := h1 c r _ _ hv hq
        exact absurd (Prod.ext_iff.2 this) ha
    intro c r c1 r1 ha hb
    obtain ⟨e1, e2⟩ := key c r ha
    obtain ⟨e3, e4⟩ := key c1 r1 hb
    exact ⟨e1.trans e3.symm, e2.trans e4.symm⟩

theorem oneApple_of_reachable {K : Constants} {s : Game} (h : Reachable K s) :
    s.grid.OneApple := by
  refine Reachable.induction_board (P := fun s => s.grid.OneApple) ?_ ?_ ?_ ?_ ?_ h
  · intro s s1 hg _ _ hP
    show s1.grid.OneApple
    rw [hg]
    exact hP
  · intro s hs _
    exact oneApple_of_started hs
  · intro s s1 _ _ hs _
    exact oneApple_of_started hs
  · intro s s1 head rest code _ hP _ _ _ _ _ hg
    show s1.grid.OneApple
    refine Grid.oneApple_congr hP ?_
    rw [hg]
    exact (Grid.turn_cells s.grid _ _).1
  · intro s s1 draws hinv hP hu
    exact oneApple_update hinv hP hu

/-! ## The apple -/

/-- C15 (single apple): when `Game.spawnApple` returns, exactly one cell has changed, which held
`EMPTY` before (so neither `WALL` nor `SNAKE`) and holds `APPLE` after, and the snake and the
stored velocities are as before; and in every reachable state, which includes the state after an
update that ate an apple and placed the next one, at most one cell holds `APPLE`. -/
theorem single_apple :
    (∀ (s s1 : Game) (draws : List (Int × Int)), Game.spawnApple s draws = some s1 →
      ∃ col row, s.grid.getCellValue col row = some CellValue.EMPTY
        ∧ s1.grid.getCellValue col row = some CellValue.APPLE
        ∧ (∀ c r, (c ≠ col ∨ r ≠ row) → s1.grid.getCellValue c r = s.grid.getCellValue c r)
        ∧ s1.snake = s.snake ∧ s1.grid.cellVelocities = s.grid.cellVelocities)
    ∧ (∀ (K : Constants) (s : Game), Reachable K s →
      ∀ c r c1 r1, s.grid.getCellValue c r = some CellValue.APPLE →
        s.grid.getCellValue c1 r1 = some CellValue.APPLE → c = c1 ∧ r = r1) := by
  constructor
  · intro s s1 draws h
    obtain ⟨col, row, g1, _, h2, h3, h4⟩ := Game.spawnApple_spec h
    obtain ⟨_, _, a3, _, a5, a6⟩ := Grid.setCellValue_spec h3
    subst h4
    exact ⟨col, row, h2, a5, a6, rfl, a3⟩
  · intro K s hs
    exact oneApple_of_reachable hs

/-- The single apple on the sample games: an apple placed on `sampleTwo` with the draw (1,1),
and the one apple of the reachable state `sampleTurned`. -/
theorem single_apple_witness :
    (∃ s1, Game.spawnApple sampleTwo [(1, 1)] = some s1
      ∧ ∃ col row, sampleTwo.grid.getCellValue col row = some CellValue.EMPTY
        ∧ s1.grid.getCellValue col row = some CellValue.APPLE
        ∧ (∀ c r, (c ≠ col ∨ r ≠ row) →
            s1.grid.getCellValue c r = sampleTwo.grid.getCellValue c r)
        ∧ s1.snake = sampleTwo.snake ∧ s1.grid.cellVelocities = sampleTwo.grid.cellVelocities)
      ∧ (Reachable sampleConstants sampleTurned
        ∧ sampleTurned.grid.getCellValue 3 3 = some CellValue.APPLE
        ∧ ∀ c r, sampleTurned.grid.getCellValue c r = some CellValue.APPLE → c = 3 ∧ r = 3) :=
  ⟨(Option.isSome_iff_exists.1 (by decide :
      (Game.spawnApple sampleTwo [(1, 1)]).isSome = true)).elim
      (fun s1 h1 => ⟨s1, h1, single_apple.1 sampleTwo s1 _ h1⟩),
    sampleTurned_reachable, by decide,
    fun c r h => single_apple.2 sampleConstants sampleTurned sampleTurned_reachable c r 3 3 h
      (by decide)⟩

/-! ## Unit velocities -/

theorem Snake.steer_unit (head : BodyPart) (code : String) :
    Snake.steer head code = head ∨ (Snake.steer head code).UnitVelocity := by
  unfold Snake.steer
  split_ifs
  · exact Or.inr (Or.inl ⟨rfl, rfl⟩)
  · exact Or.inr (Or.inr (Or.inr (Or.inl ⟨rfl, rfl⟩)))
  · exact Or.inr (Or.inr (Or.inl ⟨rfl, rfl⟩))
  · exact Or.inr (Or.inr (Or.inr (Or.inr ⟨rfl, rfl⟩)))
  · exact Or.inl rfl

theorem Grid.velocity_of_mem_overwriteVelocity (data m : BodyPart) (l : List BodyPart)
    (h : m ∈ Grid.overwriteVelocity data l) :
    (m.velocityX = data.velocityX ∧ m.velocityY = data.velocityY) ∨ m ∈ l := by
  induction l with
  | nil => simp [Grid.overwriteVelocity] at h
  | cons x xs ih =>
    by_cases hx : x.col = data.col ∧ x.row = data.row
    · simp only [Grid.overwriteVelocity, hx, and_self, if_true, List.mem_cons] at h
      rcases h with h | h
      · subst h; exact Or.inl ⟨rfl, rfl⟩
      · exact Or.inr (List.mem_cons_of_mem _ h)
    · simp only [Grid.overwriteVelocity, hx, if_false, List.mem_cons] at h
      rcases h with h | h
      · subst h; exact Or.inr (List.mem_cons_self _ _)
      · rcases ih h with h1 | h1
        · exact Or.inl h1
        · exact Or.inr (List.mem_cons_of_mem _ h1)

theorem Grid.velocity_of_mem_setCellVelocity {g : Grid} {data m : BodyPart}
    (h : m ∈ (g.setCellVelocity data).cellVelocities) :
    (m.velocityX = data.velocityX ∧ m.velocityY = data.velocityY) ∨ m ∈ g.cellVelocities := by
  unfold Grid.setCellVelocity at h
  cases hq : g.getCellVelocity data.col data.row with
  | some m0 =>
    rw [hq] at h
    exact Grid.velocity_of_mem_overwriteVelocity data m _ h
  | none =>
    rw [hq] at h
    simp only [List.mem_append, List.mem_singleton] at h
    rcases h with h | h
    · exact Or.inr h
    · subst h; exact Or.inl ⟨rfl, rfl⟩

theorem BodyPart.unitVelocity_congr {b b1 : BodyPart} (h : b.UnitVelocity)
    (hx : b1.velocityX = b.velocityX) (hy : b1.velocityY = b.velocityY) : b1.UnitVelocity := by
  unfold BodyPart.UnitVelocity at h ⊢
  rw [hx, hy]
  exact h

theorem unitVelocities_of_started {width height : Nat} {s : Game} (h : Started width height s) :
    UnitVelocities s := by
  obtain ⟨g0, ac, ar, _, _, _, _, hm, hp⟩ := Started.cells h
  refine ⟨?_, ?_, ?_⟩
  · intro b hb
    unfold Snake.head at hb
    rw [hp] at hb
    simp only [List.head?_cons, Option.some.injEq] at hb
    subst hb
    exact Or.inr ⟨rfl, rfl⟩
  · intro b hb
    rw [hp] at hb
    simp at hb
  · intro m hmem
    rw [hm] at hmem
    simp at hmem

theorem unitVelocities_update {K : Constants} {s s1 : Game} {draws : List (Int × Int)}
    (hinv : Inv s) (hu : UnitVelocities s) (h : Snake.update K s draws = some s1) :
    UnitVelocities s1 := by
  obtain ⟨head, rest, hparts, hc⟩ := Snake.update_cases hinv h
  have hhead : s.snake.head = some head := by
    unfold Snake.head
    rw [hparts]
    rfl
  have hrest : ∀ b ∈ rest, b.UnitVelocity := by
    intro b hb
    apply hu.body
    rw [hparts]
    exact hb
  rcases hc with ⟨_, _, rfl⟩ | ⟨hv, ⟨_, rfl⟩ | ⟨hq, hp1, _, _, _, _, hm⟩
    | ⟨hq, hp1, _, _, _, _, hm⟩⟩
  · exact hu
  · exact ⟨hu.head, hu.body, hu.stored⟩
  · have hunit : head.UnitVelocity := by
      rcases hu.head head hhead with h1 | h1
      · exact h1
      · exact absurd h1 hv
    refine ⟨?_, ?_, fun m hmem => hu.stored m (hm m hmem)⟩
    · intro b hb
      unfold Snake.head at hb
      rw [hp1] at hb
      simp only [List.head?_cons, Option.some.injEq] at hb
      subst hb
      exact Or.inl (BodyPart.unitVelocity_congr hunit rfl rfl)
    · intro b hb
      rw [hp1] at hb
      have hb1 : b ∈ head :: rest := List.dropLast_subset _ hb
      rcases List.mem_cons.1 hb1 with rfl | hb2
      · exact hunit
      · exact hrest b hb2
  · have hunit : head.UnitVelocity := by
      rcases hu.head head hhead with h1 | h1
      · exact h1
      · exact absurd h1 hv
    refine ⟨?_, ?_, fun m hmem => hu.stored m (by rw [← hm]; exact hmem)⟩
    · intro b hb
      unfold Snake.head at hb
      rw [hp1] at hb
      simp only [List.head?_cons, Option.some.injEq] at hb
      subst hb
      exact Or.inl (BodyPart.unitVelocity_congr hunit rfl rfl)
    · intro b hb
      rw [hp1] at hb
      rcases List.mem_cons.1 hb with rfl | hb2
      · exact hunit
      · exact hrest b hb2

theorem unitVelocities_of_reachable {K : Constants} {s : Game} (h : Reachable K s) :
    UnitVelocities s := by
  refine Reachable.induction_board (P := UnitVelocities) ?_ ?_ ?_ ?_ ?_ h
  · intro s s1 hg hs _ hP
    refine ⟨?_, ?_, ?_⟩
    · rw [hs]; exact hP.head
    · rw [hs]; exact hP.body
    · rw [hg]; exact hP.stored
  · intro s hs _
    exact unitVelocities_of_started hs
  · intro s s1 _ _ hs _
    exact unitVelocities_of_started hs
  · intro s s1 head rest code _ hP _ _ hparts hdiff hs hg
    have hunit : (Snake.steer head code).UnitVelocity := by
      rcases Snake.steer_unit head code with h1 | h1
      · exact absurd ⟨by rw [h1], by rw [h1]⟩ hdiff
      · exact h1
    refine ⟨?_, ?_, ?_⟩
    · intro b hb
      unfold Snake.head at hb
      rw [hs] at hb
      simp only [List.head?_cons, Option.some.injEq] at hb
      subst hb
      exact Or.inl hunit
    · intro b hb
      rw [hs] at hb
      apply hP.body
      rw [hparts]
      exact hb
    · intro m hmem
      rw [hg] at hmem
      split_ifs at hmem
      · rcases Grid.velocity_of_mem_setCellVelocity hmem with h1 | h1
        · exact BodyPart.unitVelocity_congr hunit h1.1 h1.2
        · exact hP.stored m h1
      · exact hP.stored m hmem
  · intro s s1 draws hinv hP hu
    exact unitVelocities_update hinv hP hu

/-! ## The walls -/

/-- Writing values other than `WALL` on cells that do not hold `WALL` keeps the set of `WALL`
cells. -/
theorem Grid.Patched.walls {g g1 : Grid} {c1 r1 c2 r2 : Int} {v1 v2 : CellValue}
    (hp : Grid.Patched g g1 c1 r1 v1 c2 r2 v2)
    (hv1 : v1 ≠ CellValue.WALL) (hv2 : v2 ≠ CellValue.WALL)
    (h1 : g.getCellValue c1 r1 ≠ some CellValue.WALL)
    (h2 : g.getCellValue c2 r2 ≠ some CellValue.WALL) (c r : Int) :
    g1.getCellValue c r = some CellValue.WALL ↔ g.getCellValue c r = some CellValue.WALL := by
  rw [hp.2.2 c r]
  by_cases ha : (c, r) = (c1, r1)
  · rw [if_pos ha]
    simp only [Prod.mk.injEq] at ha
    rw [ha.1, ha.2]
    constructor
    · intro h
      exact absurd (Option.some.inj h) hv1
    · intro h
      exact absurd h h1
  · rw [if_neg ha]
    by_cases hb : (c, r) = (c2, r2)
    · rw [if_pos hb]
      simp only [Prod.mk.injEq] at hb
      rw [hb.1, hb.2]
      constructor
      · intro h
        exact absurd (Option.some.inj h) hv2
      · intro h
        exact absurd h h2
    · rw [if_neg hb]

theorem Walled.of_walls {K : Constants} {s s1 : Game} (hw : Walled K s)
    (hwidth : s1.grid.width = s.grid.width) (hheight : s1.grid.height = s.grid.height)
    (h : ∀ c r, s1.grid.getCellValue c r = some CellValue.WALL
      ↔ s.grid.getCellValue c r = some CellValue.WALL) : Walled K s1 := by
  refine ⟨hwidth.trans hw.width, hheight.trans hw.height, ?_⟩
  intro c r hin
  have hin0 : s.grid.InRange c r := by
    unfold Grid.InRange at hin ⊢
    rw [← hwidth, ← hheight]
    exact hin
  rw [h c r, hw.walls c r hin0]
  unfold Grid.OnBorder
  rw [hwidth, hheight]

theorem walled_of_started {K : Constants} (hw : 3 ≤ K.WORLD_WIDTH) (hh : 3 ≤ K.WORLD_HEIGHT)
    {s : Game} (h : Started K.WORLD_WIDTH K.WORLD_HEIGHT s) : Walled K s := by
  obtain ⟨g0, ac, ar, h1, ha, ⟨v, hv⟩, hp, _, _⟩ := Started.cells h
  obtain ⟨r1, r2, r3, _, _, _, r7⟩ := Grid.reset_spec h1
  have r2 : g0.width = K.WORLD_WIDTH := r2
  have r3 : g0.height = K.WORLD_HEIGHT := r3
  have hwalls0 : ∀ c r, g0.InRange c r →
      (g0.getCellValue c r = some CellValue.WALL ↔ g0.OnBorder c r) := by
    intro c r hin
    constructor
    · intro hv
      by_contra hb
      rw [(r7 c r hin).2 hb] at hv
      simp at hv
    · exact (r7 c r hin).1
  have hcentre : ¬ g0.OnBorder (Int.ofNat (K.WORLD_WIDTH / 2)) (Int.ofNat (K.WORLD_HEIGHT / 2)) := by
    unfold Grid.OnBorder
    rw [r2, r3]
    simp only [Int.ofNat_eq_coe]
    omega
  have hin_centre := Grid.inRange_of_getCellValue r1 hv
  have hin_apple := Grid.inRange_of_getCellValue r1 ha
  have hn1 : g0.getCellValue ac ar ≠ some CellValue.WALL := by
    rw [ha]
    simp
  have hn2 : g0.getCellValue (Int.ofNat (K.WORLD_WIDTH / 2)) (Int.ofNat (K.WORLD_HEIGHT / 2))
      ≠ some CellValue.WALL := fun hx => hcentre ((hwalls0 _ _ hin_centre).1 hx)
  have hwall := Grid.Patched.walls hp (by simp) (by simp) hn1 hn2
  refine ⟨hp.1.trans r2, hp.2.1.trans r3, ?_⟩
  intro c r hin
  have hin0 : g0.InRange c r := by
    unfold Grid.InRange at hin ⊢
    rw [← hp.1, ← hp.2.1]
    exact hin
  rw [hwall c r, hwalls0 c r hin0]
  unfold Grid.OnBorder
  rw [hp.1, hp.2.1]

theorem walled_update {K : Constants} {s s1 : Game} {draws : List (Int × Int)}
    (hinv : Inv s) (hw : Walled K s) (h : Snake.update K s draws = some s1) : Walled K s1 := by
  obtain ⟨head, rest, hparts, hc⟩ := Snake.update_cases hinv h
  rcases hc with ⟨_, _, rfl⟩ | ⟨hv, ⟨_, rfl⟩ | ⟨hq, _, _, _, _, ⟨z, hz, hp⟩, _⟩
    | ⟨hq, _, _, _, _, ⟨ac, ar, ha, hp⟩, _⟩⟩
  · exact hw
  · exact ⟨hw.width, hw.height, hw.walls⟩
  · have hzmem : z ∈ s.snake.bodyParts := by
      rw [hparts]
      exact List.mem_of_getLast?_eq_some hz
    have hzcell := hinv.cells z hzmem
    exact Walled.of_walls hw hp.1 hp.2.1
      (Grid.Patched.walls hp (by simp) (by simp) (by rw [hq]; simp) (by rw [hzcell]; simp))
  · exact Walled.of_walls hw hp.1 hp.2.1
      (Grid.Patched.walls hp (by simp) (by simp) (by rw [hq]; simp) (by rw [ha]; simp))

theorem walled_of_reachable {K : Constants} (hw : 3 ≤ K.WORLD_WIDTH) (hh : 3 ≤ K.WORLD_HEIGHT)
    {s : Game} (h : Reachable K s) : Walled K s := by
  refine Reachable.induction_board (P := Walled K) ?_ ?_ ?_ ?_ ?_ h
  · intro s s1 hg _ _ hP
    exact Walled.of_walls hP (by rw [hg]) (by rw [hg]) (fun c r => by rw [hg])
  · intro s hs _
    exact walled_of_started hw hh hs
  · intro s s1 _ hP hs _
    rw [hP.width, hP.height] at hs
    exact walled_of_started hw hh hs
  · intro s s1 head rest code _ hP _ _ _ _ _ hg
    obtain ⟨t1, t2, t3⟩ := Grid.turn_cells s.grid (Snake.steer head code) (rest.length + 1 > 1)
    rw [← hg] at t1 t2 t3
    exact Walled.of_walls hP t2 t3 (fun c r => by rw [Grid.getCellValue_congr t1])
  · intro s s1 draws hinv hP hu
    exact walled_update hinv hP hu

/-! ## Walls, connected body and in-range access -/

theorem chain_getElem {R : BodyPart → BodyPart → Prop} :
    ∀ (l : List BodyPart) (i : Nat) (x y : BodyPart), List.Chain' R l →
      l[i]? = some x → l[i + 1]? = some y → R x y := by
  intro l
  induction l with
  | nil => intro i x y _ hx; simp at hx
  | cons a as ih =>
    intro i x y hc hx hy
    cases i with
    | zero =>
      cases as with
      | nil => simp at hy
      | cons b bs =>
        simp only [List.getElem?_cons_zero, Option.some.injEq, zero_add,
          List.getElem?_cons_succ] at hx hy
        subst hx hy
        exact (List.chain'_cons.1 hc).1
    | succ j =>
      simp only [List.getElem?_cons_succ] at hx hy
      exact ih j x y (List.chain'_cons'.1 hc).2 hx hy

/-- Every body part of a reachable state of a world of at least 3 × 3 cells lies inside the
outer ring. -/
theorem Reachable.interior {K : Constants} (hw : 3 ≤ K.WORLD_WIDTH) (hh : 3 ≤ K.WORLD_HEIGHT)
    {s : Game} (hs : Reachable K s) {b : BodyPart} (hb : b ∈ s.snake.bodyParts) :
    1 ≤ b.col ∧ b.col ≤ (s.grid.width : Int) - 2
      ∧ 1 ≤ b.row ∧ b.row ≤ (s.grid.height : Int) - 2 := by
  have hinv := Reachable.inv hs
  have hwall := walled_of_reachable hw hh hs
  have hcell := hinv.cells b hb
  have hin := Grid.inRange_of_getCellValue hinv.shape hcell
  have hnb : ¬ s.grid.OnBorder b.col b.row := by
    intro hb1
    have := (hwall.walls b.col b.row hin).2 hb1
    rw [hcell] at this
    simp at this
  unfold Grid.InRange at hin
  unfold Grid.OnBorder at hnb
  omega

/-- C14 (walls are permanent): in every state reachable from a fresh game of a world of at least
3 × 3 cells, the grid has the size of the world and every cell of its outer ring holds `WALL`;
and every cell that holds `WALL` still holds `WALL` after any key event, update or frame from
that state, a restart included. -/
theorem walls_permanent (K : Constants) (hw : 3 ≤ K.WORLD_WIDTH) (hh : 3 ≤ K.WORLD_HEIGHT)
    (s : Game) (hs : Reachable K s) :
    s.grid.width = K.WORLD_WIDTH ∧ s.grid.height = K.WORLD_HEIGHT
      ∧ (∀ c r, s.grid.InRange c r → s.grid.OnBorder c r →
          s.grid.getCellValue c r = some CellValue.WALL)
      ∧ ∀ s1, ((∃ code draws, Snake.setVelocity K s code draws = some s1)
            ∨ (∃ draws, Snake.update K s draws = some s1)
            ∨ (∃ timestamp draws, Game.update K s timestamp draws = some s1)) →
          ∀ c r, s.grid.getCellValue c r = some CellValue.WALL →
            s1.grid.getCellValue c r = some CellValue.WALL := by
  have hwall := walled_of_reachable hw hh hs
  refine ⟨hwall.width, hwall.height, fun c r hin hb => (hwall.walls c r hin).2 hb, ?_⟩
  intro s1 hstep c r hv
  have hs1 : Reachable K s1 := by
    rcases hstep with ⟨code, draws, h⟩ | ⟨draws, h⟩ | ⟨timestamp, draws, h⟩
    · exact Reachable.key s s1 code draws hs h
    · exact Reachable.tick s s1 draws hs h
    · exact Reachable.frame s s1 timestamp draws hs h
  have hwall1 := walled_of_reachable hw hh hs1
  have hin := Grid.inRange_of_getCellValue (Reachable.inv hs).shape hv
  have hb := (hwall.walls c r hin).1 hv
  have hin1 : s1.grid.InRange c r := by
    unfold Grid.InRange at hin ⊢
    rw [hwall1.width, hwall1.height, ← hwall.width, ← hwall.height]
    exact hin
  have hb1 : s1.grid.OnBorder c r := by
    unfold Grid.OnBorder at hb ⊢
    rw [hwall1.width, hwall1.height, ← hwall.width, ← hwall.height]
    exact hb
  exact (hwall1.walls c r hin1).2 hb1

/-- The walls of the reachable 5 × 5 state `sampleTurned`, and after the update that follows. -/
theorem walls_permanent_witness :
    (3 ≤ sampleConstants.WORLD_WIDTH ∧ 3 ≤ sampleConstants.WORLD_HEIGHT
      ∧ Reachable sampleConstants sampleTurned
      ∧ Snake.update sampleConstants sampleTurned [(1, 1)] = some sampleGrown)
      ∧ sampleTurned.grid.getCellValue 4 2 = some CellValue.WALL
      ∧ sampleGrown.grid.getCellValue 4 2 = some CellValue.WALL :=
  ⟨⟨by decide, by decide, sampleTurned_reachable, by decide⟩,
    (walls_permanent sampleConstants (by decide) (by decide) sampleTurned
      sampleTurned_reachable).2.2.1 4 2 (by decide) (by decide),
    (walls_permanent sampleConstants (by decide) (by decide) sampleTurned
      sampleTurned_reachable).2.2.2 sampleGrown (Or.inr (Or.inl ⟨[(1, 1)], by decide⟩)) 4 2
      (by decide)⟩

/-- C19 (connected body): in every reachable state, a body part that is not the head has a unit
velocity, the cell one velocity step ahead of it is the position of the body part in front of it,
and so the two occupy orthogonally adjacent cells. -/
theorem connected_body (K : Constants) (s : Game) (hs : Reachable K s) (i : Nat)
    (x y : BodyPart) (hx : s.snake.bodyParts[i]? = some x)
    (hy : s.snake.bodyParts[i + 1]? = some y) :
    (y.col + y.velocityX = x.col ∧ y.row + y.velocityY = x.row)
      ∧ ((y.velocityX = 0 ∧ y.velocityY = 1) ∨ (y.velocityX = 0 ∧ y.velocityY = -1)
        ∨ (y.velocityX = -1 ∧ y.velocityY = 0) ∨ (y.velocityX = 1 ∧ y.velocityY = 0))
      ∧ ((x.col = y.col ∧ (x.row = y.row + 1 ∨ x.row = y.row - 1))
        ∨ (x.row = y.row ∧ (x.col = y.col + 1 ∨ x.col = y.col - 1))) := by
  have hlink := chain_getElem _ i x y (Reachable.inv hs).chain hx hy
  have hmem : y ∈ s.snake.bodyParts.tail := by
    cases hparts : s.snake.bodyParts with
    | nil => rw [hparts] at hy; simp at hy
    | cons a as =>
      rw [hparts] at hy
      simp only [List.getElem?_cons_succ] at hy
      exact List.getElem?_mem hy
  have hunit := (unitVelocities_of_reachable hs).body y hmem
  obtain ⟨h1, h2, _⟩ := hlink
  refine ⟨⟨h1, h2⟩, hunit, ?_⟩
  unfold BodyPart.UnitVelocity at hunit
  omega

/-- The connected body on the reachable state `sampleTurned`: the second body part (2,2) moves
east towards the head (3,2). -/
theorem connected_body_witness :
    (Reachable sampleConstants sampleTurned
      ∧ sampleTurned.snake.bodyParts[0]? = some ⟨3, 2, 0, 1⟩
      ∧ sampleTurned.snake.bodyParts[0 + 1]? = some ⟨2, 2, 1, 0⟩)
      ∧ ((2 : Int) + 1 = 3 ∧ (2 : Int) + 0 = 2) :=
  ⟨⟨sampleTurned_reachable, by decide, by decide⟩,
    (connected_body sampleConstants sampleTurned sampleTurned_reachable 0 ⟨3, 2, 0, 1⟩
      ⟨2, 2, 1, 0⟩ (by decide) (by decide)).1⟩

/-- An update returns when the head's next cell is inside the grid and, if it holds an apple,
the draws reach an `EMPTY` cell. -/
theorem Snake.update_isSome {K : Constants} {s : Game} {draws : List (Int × Int)}
    (hinv : Inv s)
    (hnext : ∀ head, s.snake.head = some head →
      s.grid.InRange (head.col + head.velocityX) (head.row + head.velocityY))
    (hdraw : ∀ head, s.snake.head = some head →
      s.grid.getCellValue (head.col + head.velocityX) (head.row + head.velocityY)
        = some CellValue.APPLE →
      ∃ a, Game.spawnAppleLoop s.grid 0 0 draws = some a) :
    ∃ s1, Snake.update K s draws = some s1 := by
  cases hparts : s.snake.bodyParts with
  | nil => exact absurd hparts hinv.nonempty
  | cons head rest =>
    have hhead : s.snake.head = some head := by
      unfold Snake.head
      rw [hparts]
      rfl
    by_cases hv : head.velocityX = 0 ∧ head.velocityY = 0
    · exact ⟨s, by simp only [Snake.update, hparts, hv, and_self, if_true]⟩
    · obtain ⟨v, hq⟩ := Grid.getCellValue_of_inRange hinv.shape (hnext head hhead)
      cases v with
      | EMPTY =>
        obtain ⟨g1, hmove, _⟩ := Snake.moveAll_spec hinv hparts hq
        exact ⟨_, by simp only [Snake.update, hparts, hv, if_false, hq]; exact hmove⟩
      | WALL =>
        exact ⟨Game.onGameOver s, by simp only [Snake.update, hparts, hv, if_false, hq]⟩
      | SNAKE =>
        exact ⟨Game.onGameOver s, by simp only [Snake.update, hparts, hv, if_false, hq]⟩
      | APPLE =>
        obtain ⟨a, ha⟩ := hdraw head hhead hq
        have htail : (head :: rest).getLast? = some ((head :: rest).getLast
            (List.cons_ne_nil head rest)) := List.getLast?_eq_getLast _ _
        generalize htl : (head :: rest).getLast (List.cons_ne_nil head rest) = tail at htail
        have hupd : Snake.update K s draws =
            (Game.onAppleEaten K
              { s with
                grid := s.grid.setCellVelocity tail
                snake := Snake.addBodyPart s.snake
                  { col := tail.col, row := tail.row, velocityX := 0, velocityY := 0 } }
              draws).bind Snake.moveAll := by
          simp only [Snake.update, hparts, hv, if_false, hq, htl]
          split
          · rename_i heq
            rw [heq]
            rfl
          · rename_i s3 heq
            rw [heq]
            rfl
        have hloop : Game.spawnAppleLoop (s.grid.setCellVelocity tail) 0 0 draws = some a := by
          rw [Game.spawnAppleLoop_congr (Grid.setCellVelocity_cells s.grid tail).1]
          exact ha
        obtain ⟨s3, heat⟩ := Game.onAppleEaten_isSome K
          (s := { s with
            grid := s.grid.setCellVelocity tail
            snake := Snake.addBodyPart s.snake
              { col := tail.col, row := tail.row, velocityX := 0, velocityY := 0 } }) hloop
        obtain ⟨g1, _, _, hmove, _⟩ := Snake.grow_spec hinv hparts htail hq heat
        exact ⟨_, by rw [hupd, heat]; exact hmove⟩

/-- C20 (in-range access): in every state reachable from a fresh game of a world of at least
3 × 3 cells, every body part lies inside the outer ring, so its own cell and the cell one
velocity step ahead of it, which are the cells `Snake.update` reads and writes, are inside the
grid; and `Snake.update` returns (no cell access is out of range) whenever the draws of an apple
placement it makes reach an `EMPTY` cell. -/
theorem in_range_access (K : Constants) (hw : 3 ≤ K.WORLD_WIDTH) (hh : 3 ≤ K.WORLD_HEIGHT)
    (s : Game) (hs : Reachable K s) :
    (∀ b ∈ s.snake.bodyParts,
        1 ≤ b.col ∧ b.col ≤ (s.grid.width : Int) - 2
          ∧ 1 ≤ b.row ∧ b.row ≤ (s.grid.height : Int) - 2)
      ∧ (∀ b ∈ s.snake.bodyParts, s.grid.InRange b.col b.row
          ∧ s.grid.InRange (b.col + b.velocityX) (b.row + b.velocityY))
      ∧ ∀ draws,
          (∀ head, s.snake.head = some head →
            s.grid.getCellValue (head.col + head.velocityX) (head.row + head.velocityY)
              = some CellValue.APPLE →
            ∃ a, Game.spawnAppleLoop s.grid 0 0 draws = some a) →
          ∃ s1, Snake.update K s draws = some s1 := by
  have hinv := Reachable.inv hs
  have hunit := unitVelocities_of_reachable hs
  have hnext : ∀ b ∈ s.snake.bodyParts, s.grid.InRange b.col b.row
      ∧ s.grid.InRange (b.col + b.velocityX) (b.row + b.velocityY) := by
    intro b hb
    have hint := Reachable.interior hw hh hs hb
    have hvel : b.UnitVelocity ∨ (b.velocityX = 0 ∧ b.velocityY = 0) := by
      cases hparts : s.snake.bodyParts with
      | nil => rw [hparts] at hb; simp at hb
      | cons a as =>
        rw [hparts] at hb
        rcases List.mem_cons.1 hb with rfl | hb1
        · exact hunit.head b (by unfold Snake.head; rw [hparts]; rfl)
        · exact Or.inl (hunit.body b (by rw [hparts]; exact hb1))
    unfold BodyPart.UnitVelocity at hvel
    unfold Grid.InRange
    omega
  refine ⟨fun b hb => Reachable.interior hw hh hs hb, hnext, ?_⟩
  intro draws hdraw
  refine Snake.update_isSome hinv ?_ hdraw
  intro head hhead
  have hmem : head ∈ s.snake.bodyParts := by
    rw [Snake.head_eq_some hhead]
    exact List.mem_cons_self _ _
  exact (hnext head hmem).2

/-- In-range access on the reachable 5 × 5 state `sampleTurned`, whose update eats the apple at
(3,3) and places the next one with the draw (1,1). -/
theorem in_range_access_witness :
    (3 ≤ sampleConstants.WORLD_WIDTH ∧ 3 ≤ sampleConstants.WORLD_HEIGHT
      ∧ Reachable sampleConstants sampleTurned)
      ∧ (∀ b ∈ sampleTurned.snake.bodyParts,
          1 ≤ b.col ∧ b.col ≤ (sampleTurned.grid.width : Int) - 2
            ∧ 1 ≤ b.row ∧ b.row ≤ (sampleTurned.grid.height : Int) - 2)
      ∧ ∃ s1, Snake.update sampleConstants sampleTurned [(1, 1)] = some s1 :=
  ⟨⟨by decide, by decide, sampleTurned_reachable⟩,
    (in_range_access sampleConstants (by decide) (by decide) sampleTurned
      sampleTurned_reachable).1,
    (in_range_access sampleConstants (by decide) (by decide) sampleTurned
      sampleTurned_reachable).2.2 [(1, 1)] (fun _ _ _ => ⟨(1, 1), by decide⟩)⟩

/-! ## Reversal and the new tail -/

/-- After an update that moved the head, the body is the moved head followed by the record the
head had before. -/
theorem Snake.update_moved {K : Constants} {s s1 : Game} {draws : List (Int × Int)}
    (hinv : Inv s) (h : Snake.update K s draws = some s1) (hover : s1.isGameOver = false)
    {head : BodyPart} (hhead : s.snake.head = some head)
    (hv : ¬ (head.velocityX = 0 ∧ head.velocityY = 0)) :
    s.isGameOver = false
      ∧ ((s1.snake.bodyParts = head.moved :: s.snake.bodyParts.dropLast
          ∧ s.grid.getCellValue (head.col + head.velocityX) (head.row + head.velocityY)
            = some CellValue.EMPTY)
        ∨ (s1.snake.bodyParts = head.moved :: s.snake.bodyParts
          ∧ s.grid.getCellValue (head.col + head.velocityX) (head.row + head.velocityY)
            = some CellValue.APPLE)) := by
  obtain ⟨head0, rest, hparts, hc⟩ := Snake.update_cases hinv h
  have hh : head0 = head := by
    unfold Snake.head at hhead
    rw [hparts] at hhead
    exact Option.some.inj hhead
  subst hh
  rcases hc with ⟨h1, h2, _⟩ | ⟨_, ⟨_, rfl⟩ | ⟨hq, hp1, ho, _⟩ | ⟨hq, hp1, ho, _⟩⟩
  · exact absurd ⟨h1, h2⟩ hv
  · exact absurd hover (by simp [Game.onGameOver])
  · rw [hparts]
    exact ⟨ho.symm.trans hover, Or.inl ⟨hp1, hq⟩⟩
  · rw [hparts]
    exact ⟨ho.symm.trans hover, Or.inr ⟨hp1, hq⟩⟩

/-- C16 (reversal is a self-collision): let an update from a reachable state, whose head has the
non-zero velocity `v`, leave the game not over with a snake of at least two body parts.  Then
the head has moved by `v`; a key for the direction `-v` is accepted: the head gets the velocity
`-v` and the cells are unchanged; and the next update is a game-over that leaves the snake and
the grid as they are. -/
theorem reversal_self_collision (K : Constants) (s s1 : Game)
    (draws draws1 draws2 : List (Int × Int))
    (hs : Reachable K s) (htick : Snake.update K s draws = some s1)
    (hover : s1.isGameOver = false) (head : BodyPart) (hhead : s.snake.head = some head)
    (hv : ¬ (head.velocityX = 0 ∧ head.velocityY = 0))
    (hlen : 2 ≤ s1.snake.bodyParts.length) (code : String)
    (hcode : (code, -head.velocityX, -head.velocityY) ∈ keyVectors) :
    s1.snake.head = some head.moved
      ∧ ∃ s2, Snake.setVelocity K s1 code draws1 = some s2
        ∧ s2.snake.bodyParts
            = { head.moved with velocityX := -head.velocityX, velocityY := -head.velocityY }
              :: s1.snake.bodyParts.tail
        ∧ s2.grid.cells = s1.grid.cells
        ∧ s2.isGameOver = false
        ∧ Snake.update K s2 draws2 = some (Game.onGameOver s2)
        ∧ (Game.onGameOver s2).snake = s2.snake ∧ (Game.onGameOver s2).grid = s2.grid
        ∧ (Game.onGameOver s2).isGameOver = true := by
  have hinv := Reachable.inv hs
  have hinv1 := Reachable.inv (Reachable.tick s s1 draws hs htick)
  have hparts := Snake.head_eq_some hhead
  obtain ⟨_, hmoved⟩ := Snake.update_moved hinv htick hover hhead hv
  have hshape : ∃ tl, s1.snake.bodyParts = head.moved :: head :: tl := by
    rcases hmoved with ⟨hp, _⟩ | ⟨hp, _⟩
    · rw [hparts] at hp
      cases htl : s.snake.bodyParts.tail with
      | nil =>
        rw [htl] at hp
        rw [hp] at hlen
        simp at hlen
      | cons x xs =>
        rw [htl] at hp
        exact ⟨(x :: xs).dropLast, by rw [hp]; rfl⟩
    · rw [hparts] at hp
      exact ⟨_, hp⟩
  obtain ⟨tl, hp1⟩ := hshape
  have hsteer := Snake.steer_keyVectors head.moved code _ _ hcode
  have hdiff : ¬ ((Snake.steer head.moved code).velocityX = head.moved.velocityX
      ∧ (Snake.steer head.moved code).velocityY = head.moved.velocityY) := by
    rw [hsteer]
    intro hc
    have h1 : -head.velocityX = head.velocityX := hc.1
    have h2 : -head.velocityY = head.velocityY := hc.2
    exact hv ⟨by omega, by omega⟩
  have hturn := @Snake.setVelocity_turn K s1 code draws1 _ _ hover hp1 hdiff
  rw [hsteer] at hturn
  refine ⟨by unfold Snake.head; rw [hp1]; rfl, _, hturn, by rw [hp1]; rfl, ?_, hover, ?_,
    rfl, rfl, rfl⟩
  · exact (Grid.turn_cells s1.grid _ _).1
  · have hcell : s1.grid.getCellValue head.col head.row = some CellValue.SNAKE :=
      hinv1.cells head (by rw [hp1]; simp)
    have hv2 : ¬ (-head.velocityX = 0 ∧ -head.velocityY = 0) := by
      intro hc
      exact hv ⟨by omega, by omega⟩
    have e1 : head.col + head.velocityX + -head.velocityX = head.col := by omega
    have e2 : head.row + head.velocityY + -head.velocityY = head.row := by omega
    simp only [Snake.update, BodyPart.moved, hv2, if_false, e1, e2]
    rw [Grid.getCellValue_congr (Grid.turn_cells s1.grid _ _).1, hcell]

/-- The reversal on the sample game: `sampleTurned` moves north into `sampleGrown`; the key
`KeyS` is accepted and the next update is a game-over. -/
theorem reversal_self_collision_witness :
    (Reachable sampleConstants sampleTurned
      ∧ Snake.update sampleConstants sampleTurned [(1, 1)] = some sampleGrown
      ∧ sampleGrown.isGameOver = false ∧ sampleTurned.snake.head = some ⟨3, 2, 0, 1⟩
      ∧ 2 ≤ sampleGrown.snake.bodyParts.length ∧ ("KeyS", (0 : Int), (-1 : Int)) ∈ keyVectors)
      ∧ ∃ s2, Snake.setVelocity sampleConstants sampleGrown "KeyS" [] = some s2
        ∧ s2.snake.head = some ⟨3, 3, 0, -1⟩
        ∧ Snake.update sampleConstants s2 [] = some (Game.onGameOver s2) :=
  ⟨⟨sampleTurned_reachable, by decide, by decide, by decide, by decide, by decide⟩,
    (reversal_self_collision sampleConstants sampleTurned sampleGrown [(1, 1)] [] []
      sampleTurned_reachable (by decide) (by decide) ⟨3, 2, 0, 1⟩ (by decide) (by decide)
      (by decide) "KeyS" (by decide)).2.elim
      (fun s2 h => ⟨s2, h.1, by unfold Snake.head; rw [h.2.1]; rfl, h.2.2.2.2.1⟩)⟩

/-! ## The new tail -/

/-- The record one place before the end of `x :: L`, where `x` is on the head's next cell, lies
on the tail's next cell. -/
theorem Snake.cell_ahead_of_tail {g : Grid} {L : List BodyPart} {head tail x : BodyPart}
    (hchain : List.Chain' (Link g) L) (hhead : L.head? = some head)
    (htail : L.getLast? = some tail)
    (hx : x.col = head.col + head.velocityX ∧ x.row = head.row + head.velocityY) :
    ∃ p, (x :: L)[L.length - 1]? = some p
      ∧ p.col = tail.col + tail.velocityX ∧ p.row = tail.row + tail.velocityY := by
  cases L with
  | nil => simp at hhead
  | cons a rest =>
    simp only [List.head?_cons, Option.some.injEq] at hhead
    subst hhead
    cases rest with
    | nil =>
      simp only [List.getLast?_singleton, Option.some.injEq] at htail
      subst htail
      exact ⟨x, rfl, hx.1, hx.2⟩
    | cons b bs =>
      rw [List.getLast?_eq_getElem?] at htail
      have hlen : (a :: b :: bs).length - 1 = bs.length + 1 := by simp
      rw [hlen] at htail ⊢
      have hlt : bs.length < (a :: b :: bs).length := by simp; omega
      have hp : (a :: b :: bs)[bs.length]? = some ((a :: b :: bs)[bs.length]) :=
        List.getElem?_eq_getElem hlt
      have hlink := chain_getElem _ _ _ _ hchain hp htail
      refine ⟨_, ?_, hlink.1.symm, hlink.2.1.symm⟩
      rw [List.getElem?_cons_succ]
      exact hp

/-- Key events on a game that is not over keep it not over, keep every body part but the head,
keep the head's position, and keep a moving head moving. -/
theorem Game.run_keyEvents {K : Constants} :
    ∀ (keys : List (String × List (Int × Int))) (s s1 : Game), Inv s → s.isGameOver = false →
      Game.run K s (keyEvents keys) = some s1 →
      ∀ head tl, s.snake.bodyParts = head :: tl →
        ∃ head1, s1.snake.bodyParts = head1 :: tl
          ∧ head1.col = head.col ∧ head1.row = head.row ∧ s1.isGameOver = false
          ∧ (¬ (head.velocityX = 0 ∧ head.velocityY = 0) →
              ¬ (head1.velocityX = 0 ∧ head1.velocityY = 0)) := by
  intro keys
  induction keys with
  | nil =>
    intro s s1 _ hover h head tl hparts
    simp only [keyEvents, List.map_nil, Game.run, Option.some.injEq] at h
    subst h
    exact ⟨head, hparts, rfl, rfl, hover, fun h => h⟩
  | cons k ks ih =>
    intro s s1 hinv hover h head tl hparts
    simp only [keyEvents, List.map_cons, Game.run, Game.step] at h
    cases hk : Snake.setVelocity K s k.1 k.2 with
    | none => rw [hk] at h; simp at h
    | some sx =>
      rw [hk] at h
      simp only at h
      have hinvx := Inv.setVelocity hinv hk
      have hstep : ∃ hx, sx.snake.bodyParts = hx :: tl ∧ hx.col = head.col ∧ hx.row = head.row
          ∧ sx.isGameOver = false
          ∧ (¬ (head.velocityX = 0 ∧ head.velocityY = 0) →
              ¬ (hx.velocityX = 0 ∧ hx.velocityY = 0)) := by
        by_cases hsame : (Snake.steer head k.1).velocityX = head.velocityX
            ∧ (Snake.steer head k.1).velocityY = head.velocityY
        · unfold Snake.setVelocity at hk
          rw [hover, hparts] at hk
          simp only [Bool.false_eq_true, if_false] at hk
          rw [if_pos hsame] at hk
          simp only [Option.some.injEq] at hk
          subst hk
          exact ⟨head, hparts, rfl, rfl, hover, fun h => h⟩
        · rw [Snake.setVelocity_turn hover hparts hsame] at hk
          simp only [Option.some.injEq] at hk
          subst hk
          refine ⟨Snake.steer head k.1, rfl, (Snake.steer_pos head k.1).1,
            (Snake.steer_pos head k.1).2, hover, ?_⟩
          intro _
          rcases Snake.steer_unit head k.1 with h1 | h1
          · exact absurd ⟨by rw [h1], by rw [h1]⟩ hsame
          · unfold BodyPart.UnitVelocity at h1
            omega
      obtain ⟨hx, hpx, hc, hr, hox, hvx⟩ := hstep
      obtain ⟨head1, e1, e2, e3, e4, e5⟩ := ih sx s1 hinvx hox h hx tl hpx
      exact ⟨head1, e1, e2.trans hc, e3.trans hr, e4, fun hv => e5 (hvx hv)⟩

/-- C17 (the new tail sits for one update, then follows): let an update from a reachable state
of a game that is not over eat an apple, and let `tail` be the tail before it.  After that
update the snake is one body part longer, its new tail is the record `tail` (the old tail's
position and velocity), and the old tail lies one step of its velocity further.  After any key
events and the next update that does not end the game, the new tail lies on that same cell: it
has moved by the velocity the old tail had, onto the cell the old tail had moved to. -/
theorem new_tail_follows (K : Constants) (s s1 s2 s3 : Game) (draws draws2 : List (Int × Int))
    (keys : List (String × List (Int × Int))) (head tail : BodyPart)
    (hs : Reachable K s) (hlive : s.isGameOver = false)
    (hhead : s.snake.head = some head) (htail : s.snake.tail = some tail)
    (hv : ¬ (head.velocityX = 0 ∧ head.velocityY = 0))
    (hq : s.grid.getCellValue (head.col + head.velocityX) (head.row + head.velocityY)
      = some CellValue.APPLE)
    (h1 : Snake.update K s draws = some s1)
    (hkeys : Game.run K s1 (keyEvents keys) = some s2)
    (h2 : Snake.update K s2 draws2 = some s3) (hover : s3.isGameOver = false) :
    s1.snake.bodyParts.length = s.snake.bodyParts.length + 1
      ∧ s1.snake.tail = some tail ∧ s2.snake.tail = some tail
      ∧ (∃ p, s1.snake.bodyParts[s.snake.bodyParts.length - 1]? = some p
          ∧ p.col = tail.col + tail.velocityX ∧ p.row = tail.row + tail.velocityY)
      ∧ ∃ t, s3.snake.bodyParts[s.snake.bodyParts.length]? = some t
          ∧ t.col = tail.col + tail.velocityX ∧ t.row = tail.row + tail.velocityY := by
  have hinv := Reachable.inv hs
  have hparts := Snake.head_eq_some hhead
  generalize s.snake.bodyParts.tail = rest at hparts
  have hchain : List.Chain' (Link s.grid) (head :: rest) := by
    rw [← hparts]
    exact hinv.chain
  have htail0 : (head :: rest).getLast? = some tail := by
    unfold Snake.tail at htail
    rw [hparts] at htail
    exact htail
  -- the first update grows the snake
  obtain ⟨head0, rest0, hparts0, hc⟩ := Snake.update_cases hinv h1
  rw [hparts] at hparts0
  obtain ⟨rfl, rfl⟩ := List.cons.inj hparts0.symm
  have hgrow : s1.snake.bodyParts = head0.moved :: head0 :: rest0
      ∧ s1.isGameOver = s.isGameOver := by
    rcases hc with ⟨a1, a2, _⟩ | ⟨_, ⟨a1 | a1, _⟩ | ⟨a1, _⟩ | ⟨_, a2, a3, _⟩⟩
    · exact absurd ⟨a1, a2⟩ hv
    · rw [hq] at a1; simp at a1
    · rw [hq] at a1; simp at a1
    · rw [hq] at a1; simp at a1
    · exact ⟨a2, a3⟩
  obtain ⟨hp1, ho1⟩ := hgrow
  have hs1 : Reachable K s1 := Reachable.tick s s1 draws hs h1
  -- the key events
  obtain ⟨head1, hp2, hc1, hr1, ho2, hv1⟩ :=
    Game.run_keyEvents keys s1 s2 (Reachable.inv hs1) (ho1.trans hlive) hkeys _ _ hp1
  have hs2 : Reachable K s2 := Reachable.of_run (keyEvents keys) s1 s2 hs1 hkeys
  have hhead2 : s2.snake.head = some head1 := by
    unfold Snake.head
    rw [hp2]
    rfl
  obtain ⟨_, hmoved⟩ := Snake.update_moved (Reachable.inv hs2) h2 hover hhead2 (hv1 hv)
  have hx1 : head1.col = head0.col + head0.velocityX ∧ head1.row = head0.row + head0.velocityY :=
    ⟨hc1, hr1⟩
  obtain ⟨p, hp, hpc, hpr⟩ := Snake.cell_ahead_of_tail (x := head0.moved) hchain rfl htail0
    ⟨rfl, rfl⟩
  obtain ⟨t, ht, htc, htr⟩ := Snake.cell_ahead_of_tail (x := head1) hchain rfl htail0 hx1
  have hlen : (head0 :: rest0).length = rest0.length + 1 := rfl
  rw [hparts, hp1]
  refine ⟨rfl, ?_, ?_, ⟨p, hp, hpc, hpr⟩, t, ?_, htc, htr⟩
  · unfold Snake.tail
    rw [hp1, List.getLast?_cons_cons]
    exact htail0
  · unfold Snake.tail
    rw [hp2, List.getLast?_cons_cons]
    exact htail0
  · rw [hlen] at ht ⊢
    simp only [Nat.add_sub_cancel] at ht
    rcases hmoved with ⟨hp3, _⟩ | ⟨hp3, _⟩
    · rw [hp3, hp2, List.getElem?_cons_succ, List.getElem?_dropLast, if_pos (by simp)]
      exact ht
    · rw [hp3, hp2, List.getElem?_cons_succ]
      exact ht

/-- The new tail on the sample game: `sampleTurned` eats the apple at (3,3); the new tail stays
at (2,2) while the old tail moves to (3,2); after the key `KeyA` and the next update the new
tail is at (3,2). -/
theorem new_tail_follows_witness :
    (Reachable sampleConstants sampleTurned ∧ sampleTurned.isGameOver = false
      ∧ sampleTurned.snake.head = some ⟨3, 2, 0, 1⟩ ∧ sampleTurned.snake.tail = some ⟨2, 2, 1, 0⟩
      ∧ sampleTurned.grid.getCellValue (3 + 0) (2 + 1) = some CellValue.APPLE
      ∧ Snake.update sampleConstants sampleTurned [(1, 1)] = some sampleGrown
      ∧ Game.run sampleConstants sampleGrown (keyEvents [("KeyA", [])]) = some sampleLeft
      ∧ Snake.update sampleConstants sampleLeft [] = some sampleFollowed
      ∧ sampleFollowed.isGameOver = false)
      ∧ sampleGrown.snake.tail = some ⟨2, 2, 1, 0⟩
      ∧ ∃ t, sampleFollowed.snake.bodyParts[sampleTurned.snake.bodyParts.length]? = some t
          ∧ t.col = 2 + 1 ∧ t.row = 2 + 0 :=
  ⟨⟨sampleTurned_reachable, by decide, by decide, by decide, by decide, by decide, by decide,
      by decide, by decide⟩,
    (new_tail_follows sampleConstants sampleTurned sampleGrown sampleLeft sampleFollowed
      [(1, 1)] [] [("KeyA", [])] ⟨3, 2, 0, 1⟩ ⟨2, 2, 1, 0⟩ sampleTurned_reachable (by decide)
      (by decide) (by decide) (by decide) (by decide) (by decide) (by decide) (by decide)
      (by decide)).2.1,
    (new_tail_follows sampleConstants sampleTurned sampleGrown sampleLeft sampleFollowed
      [(1, 1)] [] [("KeyA", [])] ⟨3, 2, 0, 1⟩ ⟨2, 2, 1, 0⟩ sampleTurned_reachable (by decide)
      (by decide) (by decide) (by decide) (by decide) (by decide) (by decide) (by decide)
      (by decide)).2.2.2.2⟩

/-! ## Sample removals -/

/-- The marker removal on the stored velocities of `sampleLeft`: removing at (3,2) keeps the
record at (3,3), and removing at (1,1), where nothing is stored, changes nothing. -/
theorem marker_removal_witness :
    (sampleLeft.grid.removeCellVelocity 3 2).cellVelocities = [⟨3, 3, -1, 0⟩]
      ∧ (sampleLeft.grid.removeCellVelocity 3 2).getCellVelocity 3 2 = none
      ∧ sampleLeft.grid.getCellVelocity 1 1 = none
      ∧ sampleLeft.grid.removeCellVelocity 1 1 = sampleLeft.grid :=
  ⟨by decide, (marker_removal sampleLeft.grid 3 2).1, by decide,
    (marker_removal sampleLeft.grid 1 1).2.2.2.2.2 (by decide)⟩

/-! ## Growth on a grid without an empty cell -/

/-- C3 as stated fails on a 3 × 4 grid: in the state reached from the fresh game by the key
`KeyS`, the head at (1,2) has the velocity (0,-1) and its next cell (1,1) holds the apple, but no
cell is `EMPTY`, so the apple placement of the update never ends and `Snake.update` returns for
no list of draws. -/
theorem growth_counterexample :
    Reachable narrowConstants narrowFacing
      ∧ narrowFacing.snake.head = some ⟨1, 2, 0, -1⟩
      ∧ narrowFacing.grid.getCellValue (1 + 0) (2 + -1) = some CellValue.APPLE
      ∧ ¬ ∃ draws s1, Snake.update narrowConstants narrowFacing draws = some s1 := by
  have hreach : Reachable narrowConstants narrowFacing :=
    Reachable.of_play (by decide :
      Game.play narrowConstants [(1, 1)] [Event.key "KeyS" []] = some narrowFacing)
  refine ⟨hreach, rfl, by decide, ?_⟩
  rintro ⟨draws, s1, h⟩
  obtain ⟨head, rest, hparts, hc⟩ := Snake.update_cases (Reachable.inv hreach) h
  have hh : head = ⟨1, 2, 0, -1⟩ := by
    have e : narrowFacing.snake.bodyParts = [⟨1, 2, 0, -1⟩] := rfl
    rw [e] at hparts
    exact (List.cons.inj hparts).1.symm
  subst hh
  have happle : narrowFacing.grid.getCellValue (1 + 0) (2 + -1) = some CellValue.APPLE := by
    decide
  have hcount : narrowFacing.grid.countCells CellValue.EMPTY = 0 := by decide
  rcases hc with ⟨h1, h2, _⟩ | ⟨_, ⟨a1 | a1, _⟩ | ⟨a1, _⟩ | ⟨_, _, _, _, _, ⟨ac, ar, hE, _⟩, _⟩⟩
  · simp at h2
  · rw [happle] at a1; simp at a1
  · rw [happle] at a1; simp at a1
  · rw [happle] at a1; simp at a1
  · have := Grid.countCells_pos hE
    omega

end Es6Snake
